import Mathlib

/-!
ResourceConversion: Formula, Plan, ExecutablePlan and Stockpile.

A shallow embedding of the P4 revision of the `ResourceConversion` classes
(`Formula.cpp`, `Plan.cpp`, `ExecutablePlan.cpp`, `Stockpile.cpp`).

Conventions of the embedding.

* A heap array reached through a pointer is a `List`; its length is the length of
  the allocation.  A pointer that may be `nullptr` is an `Option (List _)`.
  The size members (`InputResourcesSize`, `Size`, `CompletedArraySize`, ...) are
  kept as separate fields, as in the classes.
* `unsigned int` and `size_t` values are natural numbers; where the source does
  arithmetic that can wrap (`Step - 1`, `Step++`, the cast of `Size`) the modulus
  is written out.
* `float` arithmetic has two embeddings.  `Formula.GetOutcomeChances`, `Formula.ApplyTiers`
  and `Formula.Apply` read `float` values as exact rationals; the properties that do
  not depend on rounding, and those stated in exact arithmetic, are proved of
  them.  `Formula.GetOutcomeChancesF32`, `Formula.ApplyTiersF32` and `Formula.ApplyF32`
  compute in IEEE 754 binary32 (`Binary32`: round to nearest, ties to even), as the
  compiled program does, and mark a conversion to `unsigned int` outside its range
  as undefined; the properties of the tier bounds and of the computed cells are
  proved of them.
* A member function that mutates `*this` and may throw returns a `Res`: the state
  of the object when control leaves the call and the exception in flight, if any.
  A step whose behaviour C++ leaves undefined (an access outside an allocation,
  a read through `end()`) is reported as `Exn.undefined`.
* The value produced by the random generator inside `Formula::Apply` is an
  argument of the embedded function.
-/

namespace ResourceConversion

/-- Exceptions thrown by the classes.  `undefined` is not a C++ exception: it marks
an execution that reached a step with undefined behaviour. -/
inductive Exn where
  | invalid_argument
  | logic_error
  | out_of_range
  | runtime_error
  | undefined
  deriving DecidableEq, Repr

/-- Outcome of a call of a mutating member function: the object afterwards and the
exception that left the call (`none` when the call returned normally). -/
structure Res (σ : Type) where
  state : σ
  thrown : Option Exn

/-- Outcome of a call of a mutating member function that returns a value: as `Res`,
with the returned value (`none` when the call did not return). -/
structure ResVal (σ : Type) (α : Type) where
  state : σ
  thrown : Option Exn
  value : Option α

/-- Modulus of `unsigned int`. -/
def UINT_MOD : Nat := 2 ^ 32

/-- Modulus of `size_t`. -/
def SIZE_MOD : Nat := 2 ^ 64

/-- Order of the four bytes of an `unsigned int` in memory. -/
inductive ByteOrder where
  | little
  | big
  deriving DecidableEq, Repr

/-! ## Formula -/

/-- Data members of `class Formula` (Formula.h). -/
structure Formula where
  InputResources : Option (List String)
  InputResourcesSize : Nat
  InputQuantities : Option (List Nat)
  InputQuantitiesSize : Nat
  OutputResources : Option (List String)
  OutputResourcesSize : Nat
  OutputQuantities : Option (List Nat)
  OutputQuantitiesSize : Nat
  ResultArray : Option (List Nat)
  ProficiencyLevel : Nat
  deriving DecidableEq, Repr

/-- Embeds `Formula::Formula ()`: every pointer null, every size 0, level 0. -/
def Formula.default : Formula :=
  { InputResources := none, InputResourcesSize := 0,
    InputQuantities := none, InputQuantitiesSize := 0,
    OutputResources := none, OutputResourcesSize := 0,
    OutputQuantities := none, OutputQuantitiesSize := 0,
    ResultArray := none, ProficiencyLevel := 0 }

/-- Embeds `struct OutcomeModifiers` (Formula.h). -/
structure OutcomeModifiers where
  Failure : ℚ
  Partial : ℚ
  Bonus : ℚ
  Normal : ℚ
  deriving DecidableEq

/-- Embeds `Formula::GetOutcomeChances (Level)` in exact arithmetic; `Formula.GetOutcomeChancesF32`
is the same function in binary32. -/
def Formula.GetOutcomeChances (Level : Nat) : OutcomeModifiers :=
  let DefaultFailureConst : ℚ := 25 / 100
  let DefaultPartialConst : ℚ := 2 / 10
  let DefaultBonusConst : ℚ := 5 / 100
  let DefaultNormalConst : ℚ := 5 / 10
  let InitialValues : OutcomeModifiers :=
    ⟨DefaultFailureConst, DefaultPartialConst, DefaultBonusConst, DefaultNormalConst⟩
  if Level = 0 then InitialValues
  else
    let ModifiedFailure := InitialValues.Failure - (Level : ℚ) * (5 / 100)
    let ModifiedPartial := InitialValues.Partial - (Level : ℚ) * (5 / 100)
    let ModifiedBonus := InitialValues.Bonus + (Level : ℚ) * (5 / 100)
    let ModifiedNormal := InitialValues.Normal + (Level : ℚ) * (5 / 100)
    ⟨ModifiedFailure, ModifiedPartial, ModifiedBonus, ModifiedNormal⟩

/-- Effect of `std::memset (p, 0, 1)` on the `unsigned int` cell `v` that `p` points
to: the one byte at the lowest address is cleared, the other three are kept. -/
def clearFirstByte (bo : ByteOrder) (v : Nat) : Nat :=
  match bo with
  | ByteOrder.little => v - v % 256
  | ByteOrder.big => v % 2 ^ 24

/-- The call `std::memset (ResultArray, FailedValue, FailedArraySize)` with
`FailedValue = 0` and `FailedArraySize = 1`: one byte is written at the start of
the array.  Outer `none`: the byte lies outside the allocation. -/
def memsetResult (bo : ByteOrder) : Option (List Nat) → Option (Option (List Nat))
  | some (v :: rest) => some (some (clearFirstByte bo v :: rest))
  | _ => none

/-- The loop `for (i = 0; i < n; ++i) ResultArray[i] = g (OutputQuantities[i])`.
Outer `none`: an index leaves one of the two allocations. -/
def storeCells (g : Nat → Nat) (n : Nat) (src : List Nat) :
    Option (List Nat) → Option (Option (List Nat))
  | none => if n = 0 then some none else none
  | some dst =>
    if n ≤ src.length ∧ n ≤ dst.length then
      some (some ((src.take n).map g ++ dst.drop n))
    else none

/-- Cell written on the Partial tier, `floor (float (q) * PartialConstModifier)`, in exact
arithmetic: `floor (0.75 q)`.  `partialCellF32` is the cell in binary32. -/
def partialCell (q : Nat) : Nat :=
  let PartialConstModifier : ℚ := 75 / 100
  ⌊(q : ℚ) * PartialConstModifier⌋₊

/-- Cell written on the Bonus tier, `ceil (float (q) * BonusConstModifier)`, in exact
arithmetic: `ceil (1.1 q)`.  `bonusCellF32` is the cell in binary32. -/
def bonusCell (q : Nat) : Nat :=
  let BonusConstModifier : ℚ := 11 / 10
  ⌈(q : ℚ) * BonusConstModifier⌉₊

/-- The four tier tests of `Formula::Apply ()` and their writes to `ResultArray`,
run in source order as independent `if`s on the draw `RandomValue`, in exact
arithmetic; `Formula.ApplyTiersF32` is the same code in binary32.
Outer `none`: a write or read left an allocation. -/
def Formula.ApplyTiers (bo : ByteOrder) (RandomValue : ℚ) (OutcomeChances : OutcomeModifiers)
    (OutputQuantitiesSize : Nat) (OutputQuantities : List Nat)
    (ResultArray : Option (List Nat)) : Option (Option (List Nat)) :=
  let ChanceOfFailure := OutcomeChances.Failure
  let ChanceOfPartial := OutcomeChances.Partial
  let ChanceOfBonus := OutcomeChances.Bonus
  let ChanceOfNormal := OutcomeChances.Normal
  let UpperBound : ℚ := 1
  let afterFailure : Option (Option (List Nat)) :=
    if RandomValue < ChanceOfFailure then memsetResult bo ResultArray
    else some ResultArray
  let afterPartial : Option (Option (List Nat)) :=
    afterFailure.bind fun ra =>
      if RandomValue > ChanceOfFailure ∧ RandomValue < ChanceOfPartial + ChanceOfFailure then
        storeCells partialCell OutputQuantitiesSize OutputQuantities ra
      else some ra
  let afterBonus : Option (Option (List Nat)) :=
    afterPartial.bind fun ra =>
      if RandomValue > ChanceOfPartial + ChanceOfFailure ∧ RandomValue < ChanceOfNormal then
        storeCells bonusCell OutputQuantitiesSize OutputQuantities ra
      else some ra
  afterBonus.bind fun ra =>
    if RandomValue > ChanceOfFailure + ChanceOfBonus + ChanceOfPartial
        ∧ RandomValue < UpperBound then
      storeCells id OutputQuantitiesSize OutputQuantities ra
    else some ra

/-- The lambda `IncrementProficiencyLevel` of `Formula::Apply ()`; `Count` is the
value it captured by copy. -/
def Formula.IncrementProficiencyLevel (Count : Nat) (ProficiencyLevel : Nat) : Nat :=
  if Count % 5 = 0 ∧ ProficiencyLevel ≤ 5 then ProficiencyLevel + 1 else ProficiencyLevel

/-- Embeds `Formula::Apply ()` in exact arithmetic, with the value `RandomValue` returned by
`GetRandomFloat` passed in.  `Count` is a local initialised to 0 on every call, and the lambda
`IncrementProficiencyLevel` copies it where the lambda is defined, before
`Count++`. -/
def Formula.Apply (bo : ByteOrder) (RandomValue : ℚ) (f : Formula) : Res Formula :=
  match f.InputQuantities, f.OutputQuantities, f.InputResources, f.OutputResources with
  | some _, some OutputQuantities, some _, some _ =>
    let OutcomeChances := Formula.GetOutcomeChances f.ProficiencyLevel
    let Count : Nat := 0
    let IncrementProficiencyLevel := Formula.IncrementProficiencyLevel Count
    match Formula.ApplyTiers bo RandomValue OutcomeChances f.OutputQuantitiesSize
        OutputQuantities f.ResultArray with
    | none => ⟨f, some Exn.undefined⟩
    | some ra =>
      let _Count := Count + 1
      ⟨{ f with ResultArray := ra,
                ProficiencyLevel := IncrementProficiencyLevel f.ProficiencyLevel }, none⟩
  | _, _, _, _ => ⟨f, some Exn.invalid_argument⟩

/-- The C library predicate `isspace` in the "C" locale. -/
def isspace (c : Char) : Bool :=
  c = ' ' || c = '\t' || c = '\n' || c = Char.ofNat 11 || c = Char.ofNat 12 || c = '\r'

/-- Embeds `Formula::ContainsNullOrWhiteSpace (Array, ArraySize)`: the loop over the first
`ArraySize` strings.  `none`: the loop reads outside the array. -/
def Formula.ContainsNullOrWhiteSpace (Array : Option (List String)) (ArraySize : Nat) :
    Option Bool :=
  match Array with
  | none => if ArraySize = 0 then some false else none
  | some a =>
    if ArraySize ≤ a.length then
      some ((a.take ArraySize).any fun str => str.isEmpty || str.toList.all isspace)
    else none

/-- The parameterised constructor `Formula::Formula (...)`.  It validates its
arguments and adopts the five arrays; it makes no assignment to `ProficiencyLevel`,
which keeps its default member initialiser `0` (Formula.h). -/
def Formula.ctor (InputResources_ : Option (List String)) (InputResourcesSize_ : Nat)
    (InputQuantities_ : Option (List Nat)) (InputQuantitiesSize_ : Nat)
    (OutputResources_ : Option (List String)) (OutputResourcesSize_ : Nat)
    (OutputQuantities_ : Option (List Nat)) (OutputQuantitiesSize_ : Nat)
    (ResultArray_ : Option (List Nat)) (ProficencyLevel_ : Nat) : Except Exn Formula :=
  match Formula.ContainsNullOrWhiteSpace InputResources_ InputResourcesSize_ with
  | none => Except.error Exn.undefined
  | some true => Except.error Exn.invalid_argument
  | some false =>
    match Formula.ContainsNullOrWhiteSpace OutputResources_ OutputResourcesSize_ with
    | none => Except.error Exn.undefined
    | some true => Except.error Exn.invalid_argument
    | some false =>
      if InputResourcesSize_ ≠ InputQuantitiesSize_ then Except.error Exn.invalid_argument
      else if OutputResourcesSize_ ≠ OutputQuantitiesSize_ then
        Except.error Exn.invalid_argument
      else if ProficencyLevel_ > 5 then Except.error Exn.invalid_argument
      else
        Except.ok
          { InputResources := InputResources_, InputResourcesSize := InputResourcesSize_,
            InputQuantities := InputQuantities_, InputQuantitiesSize := InputQuantitiesSize_,
            OutputResources := OutputResources_, OutputResourcesSize := OutputResourcesSize_,
            OutputQuantities := OutputQuantities_,
            OutputQuantitiesSize := OutputQuantitiesSize_,
            ResultArray := ResultArray_, ProficiencyLevel := 0 }

/-- One block of `Formula::CopyData`: `new T[n]` followed by the loop
`for (i = 0; i < n; ++i) fresh[i] = src[i]`.  `none`: the loop reads outside
`src`. -/
def copyArray {α : Type} (n : Nat) : Option (List α) → Option (List α)
  | none => if n = 0 then some [] else none
  | some a => if n ≤ a.length then some (a.take n) else none

/-- Embeds `Formula::CopyData (other)`: the deep copy made by the copy constructor and by
copy assignment.  Every pointer of the copy is non-null.  `none`: one of the loops
reads outside an array of `other`. -/
def Formula.CopyData (other : Formula) : Option Formula :=
  match copyArray other.InputResourcesSize other.InputResources,
        copyArray other.InputQuantitiesSize other.InputQuantities,
        copyArray other.OutputResourcesSize other.OutputResources,
        copyArray other.OutputQuantitiesSize other.OutputQuantities,
        copyArray other.OutputQuantitiesSize other.ResultArray with
  | some ir, some iq, some or_, some oq, some ra =>
    some
      { InputResources := some ir, InputResourcesSize := other.InputResourcesSize,
        InputQuantities := some iq, InputQuantitiesSize := other.InputQuantitiesSize,
        OutputResources := some or_, OutputResourcesSize := other.OutputResourcesSize,
        OutputQuantities := some oq, OutputQuantitiesSize := other.OutputQuantitiesSize,
        ResultArray := some ra, ProficiencyLevel := other.ProficiencyLevel }
  | _, _, _, _, _ => none

/-- Embeds `Formula::ReassignData (Formula&& other) const`: every statement has the
form `other.X = X`, so the members of the object the function is called on are
written into `other`.  The value is `other` after the call. -/
def Formula.ReassignData (this other : Formula) : Formula :=
  { other with
    InputResources := this.InputResources, InputQuantities := this.InputQuantities,
    OutputResources := this.OutputResources, OutputQuantities := this.OutputQuantities,
    ResultArray := this.ResultArray,
    InputResourcesSize := this.InputResourcesSize,
    InputQuantitiesSize := this.InputQuantitiesSize,
    OutputResourcesSize := this.OutputResourcesSize,
    OutputQuantitiesSize := this.OutputQuantitiesSize,
    ProficiencyLevel := this.ProficiencyLevel }

/-- Embeds `Formula::ResetContainer ()`: every pointer of the object becomes null, every
size and the level 0. -/
def Formula.ResetContainer (this : Formula) : Formula :=
  { this with
    InputResources := none, OutputResources := none, InputQuantities := none,
    OutputQuantities := none, ResultArray := none,
    InputResourcesSize := 0, InputQuantitiesSize := 0, OutputResourcesSize := 0,
    OutputQuantitiesSize := 0, ProficiencyLevel := 0 }

/-- Embeds `Formula::Formula (Formula&& other)`.  The constructor has no initialiser
list, so the members of the new object start from their default member
initialisers of Formula.h (null pointers, sizes 0, level 0); the body is
`ReassignData (std::move (other)); ResetContainer ();`.  The value is the pair
(new object, `other` after the call). -/
def Formula.moveCtor (other : Formula) : Formula × Formula :=
  let this := Formula.default
  let otherAfter := Formula.ReassignData this other
  (Formula.ResetContainer this, otherAfter)

/-- The loop of `Formula::ArraysAreEqual` with `n` cells left to compare:
`if (First[i] != Second[i]) return false;`, and `return true` after the loop.
`none`: a read leaves one of the two arrays. -/
def arraysEqualLoop {α : Type} [DecidableEq α] : Nat → List α → List α → Option Bool
  | 0, _, _ => some true
  | _ + 1, [], _ => none
  | _ + 1, _ :: _, [] => none
  | n + 1, a :: as, b :: bs => if a ≠ b then some false else arraysEqualLoop n as bs

/-- Embeds `Formula::ArraysAreEqual (First, Second, FirstArraySize, SecondArraySize)`.  A null
pointer has no cell to read. -/
def Formula.ArraysAreEqual {α : Type} [DecidableEq α] (First Second : Option (List α))
    (FirstArraySize SecondArraySize : Nat) : Option Bool :=
  if FirstArraySize ≠ SecondArraySize then some false
  else arraysEqualLoop FirstArraySize (First.getD []) (Second.getD [])

/-- Embeds `Formula::operator== (other)`: the four comparisons are all evaluated, then
joined by `&&`. -/
def Formula.operatorEq (this other : Formula) : Option Bool :=
  match Formula.ArraysAreEqual this.InputQuantities other.InputQuantities
          this.InputQuantitiesSize other.InputQuantitiesSize,
        Formula.ArraysAreEqual this.InputResources other.InputResources
          this.InputResourcesSize other.InputResourcesSize,
        Formula.ArraysAreEqual this.OutputQuantities other.OutputQuantities
          this.OutputQuantitiesSize other.OutputQuantitiesSize,
        Formula.ArraysAreEqual this.OutputResources other.OutputResources
          this.OutputResourcesSize other.OutputResourcesSize with
  | some In_Quantities, some In_Resources, some Out_Quantities, some Out_Resources =>
    some (In_Quantities && In_Resources && Out_Quantities && Out_Resources)
  | _, _, _, _ => none

/-- Embeds `Formula::operator!= (other)`: the negation of `operator==`. -/
def Formula.operatorNe (this other : Formula) : Option Bool :=
  match Formula.operatorEq this other with
  | some PlaceHolderValue => some (!PlaceHolderValue)
  | none => none

/-! ## Plan -/

/-- Data members of `class Plan` (Plan.h).  `FormulaArray` is the whole allocation,
of which the first `Size` cells are in use. -/
structure Plan where
  FormulaArray : List Formula
  Size : Nat
  Capacity : Nat
  deriving DecidableEq, Repr

/-- Copy assignment of each of a list of Formulas (`Formula::operator=`). -/
def copyFormulas : List Formula → Option (List Formula)
  | [] => some []
  | f :: rest =>
    match Formula.CopyData f, copyFormulas rest with
    | some g, some gs => some (g :: gs)
    | _, _ => none

/-- The loop `for (i = 0; i < n; ++i) dst[i] = src[i]` over Formula arrays, each
assignment being `Formula::operator=`.  `none`: an index leaves an allocation or a
copy reads outside an array. -/
def assignFormulas (n : Nat) (src dst : List Formula) : Option (List Formula) :=
  if n ≤ src.length ∧ n ≤ dst.length then
    match copyFormulas (src.take n) with
    | some copies => some (copies ++ dst.drop n)
    | none => none
  else none

/-- The assignment `arr[i] = NewFormula` (`Formula::operator=`).  `none`: `i` is
outside the allocation or the copy reads outside an array. -/
def assignFormulaAt (arr : List Formula) (i : Nat) (NewFormula : Formula) :
    Option (List Formula) :=
  if i < arr.length then
    match Formula.CopyData NewFormula with
    | some g => some (arr.set i g)
    | none => none
  else none

/-- Embeds `Plan::Plan ()`. -/
def Plan.default : Plan :=
  { FormulaArray := List.replicate 2 Formula.default, Size := 0, Capacity := 2 }

/-- Embeds `Plan::Plan (InitialSequence, InitialSize)`. -/
def Plan.ctor (InitialSequence : List Formula) (InitialSize : Nat) : Except Exn Plan :=
  if InitialSize ≤ 0 then Except.error Exn.invalid_argument
  else
    match assignFormulas InitialSize InitialSequence
        (List.replicate InitialSize Formula.default) with
    | none => Except.error Exn.undefined
    | some arr => Except.ok { FormulaArray := arr, Size := InitialSize, Capacity := InitialSize }

/-- Embeds `Plan::CopyPlanData (other)`, the body of the copy constructor
`Plan (const Plan&)`: `new Formula [Capacity]`, then the first `Size` cells are
assigned from `other`.  `none`: an index leaves an allocation or a copy reads
outside an array. -/
def Plan.CopyPlanData (other : Plan) : Option Plan :=
  match assignFormulas other.Size other.FormulaArray
      (List.replicate other.Capacity Formula.default) with
  | none => none
  | some arr => some { FormulaArray := arr, Size := other.Size, Capacity := other.Capacity }

/-- Embeds `Plan::ResizePlan (NewCapacity)`.  The last two statements are
`Size = Capacity; Capacity = NewCapacity;`. -/
def Plan.ResizePlan (NewCapacity : Nat) (p : Plan) : Option Plan :=
  match assignFormulas p.Size p.FormulaArray (List.replicate NewCapacity Formula.default) with
  | none => none
  | some NewFormulaArray =>
    some { FormulaArray := NewFormulaArray, Size := p.Capacity, Capacity := NewCapacity }

/-- Embeds `Plan::AddFormula (NewFormula)`. -/
def Plan.AddFormula (NewFormula : Formula) (p : Plan) : Res Plan :=
  let resized : Option Plan :=
    if p.Size ≥ p.Capacity then Plan.ResizePlan (p.Capacity * 2) p else some p
  match resized with
  | none => ⟨p, some Exn.undefined⟩
  | some q =>
    match assignFormulaAt q.FormulaArray q.Size NewFormula with
    | none => ⟨q, some Exn.undefined⟩
    | some arr => ⟨{ q with FormulaArray := arr, Size := q.Size + 1 }, none⟩

/-- Embeds `Plan::RemoveLastFormula ()`. -/
def Plan.RemoveLastFormula (p : Plan) : Res Plan :=
  if p.Size ≤ 0 then ⟨p, some Exn.invalid_argument⟩
  else ⟨{ p with Size := p.Size - 1 }, none⟩

/-- Embeds `Plan::ReplaceFormula (NewFormula, Index)`. -/
def Plan.ReplaceFormula (NewFormula : Formula) (Index : Nat) (p : Plan) : Res Plan :=
  if Index > p.Size then ⟨p, some Exn.out_of_range⟩
  else
    match assignFormulaAt p.FormulaArray Index NewFormula with
    | none => ⟨p, some Exn.undefined⟩
    | some arr => ⟨{ p with FormulaArray := arr }, none⟩

/-- The loop of `Plan::PlanArraysAreEqual (other)` from index `i` with `k` iterations
left: `if (other.FormulaArray[i] != FormulaArray[i]) { return false; }`.  The
statement after the loop is `return false;`.  `none`: a read leaves an
allocation. -/
def Plan.PlanArraysLoop (this other : Plan) : Nat → Nat → Option Bool
  | 0, _ => some false
  | k + 1, i =>
    match other.FormulaArray[i]?, this.FormulaArray[i]? with
    | some g, some f =>
      match Formula.operatorNe g f with
      | none => none
      | some true => some false
      | some false => Plan.PlanArraysLoop this other k (i + 1)
    | _, _ => none

/-- Embeds `Plan::PlanArraysAreEqual (other)`: the loop runs over `i < Size`. -/
def Plan.PlanArraysAreEqual (this other : Plan) : Option Bool :=
  Plan.PlanArraysLoop this other this.Size 0

/-- Embeds `Plan::operator!= (other)`:
`if (PlanArraysAreEqual (other)) { return false; } return true;`. -/
def Plan.operatorNe (this other : Plan) : Option Bool :=
  match Plan.PlanArraysAreEqual this other with
  | none => none
  | some true => some false
  | some false => some true

/-- Embeds `Plan::operator== (other)`: the negation of `operator!=`. -/
def Plan.operatorEq (this other : Plan) : Option Bool :=
  match Plan.operatorNe this other with
  | some PlaceHolderValue => some (!PlaceHolderValue)
  | none => none

/-! ## Stockpile -/

/-- Data member of `class Stockpile` (Stockpile.h): the `std::unordered_map` from
resource name to quantity, as the list of its entries. -/
structure Stockpile where
  ResourcesMap : List (String × Nat)
  deriving DecidableEq, Repr

/-- The assignment `it -> second = q` for the entry `it = find (name)`. -/
def assignEntry (name : String) (q : Nat) : List (String × Nat) → List (String × Nat)
  | [] => []
  | (k, v) :: rest =>
    if name == k then (k, q) :: rest else (k, v) :: assignEntry name q rest

/-- Embeds `Stockpile::HasResource (Resource)`. -/
def Stockpile.HasResource (Resource : String) (s : Stockpile) : Bool :=
  (s.ResourcesMap.lookup Resource).isSome

/-- Embeds `Stockpile::GetResourceQuantity (Resource)`. -/
def Stockpile.GetResourceQuantity (Resource : String) (s : Stockpile) : Nat :=
  match s.ResourcesMap.lookup Resource with
  | some q => q
  | none => 0

/-- Embeds `ResourcesMap [Resource]` (`std::unordered_map::operator[]`): the value stored
for the key, after inserting the entry `(Resource, 0)` when the key is missing. -/
def Stockpile.subscript (Resource : String) (s : Stockpile) : Stockpile × Nat :=
  match s.ResourcesMap.lookup Resource with
  | some q => (s, q)
  | none => ({ ResourcesMap := s.ResourcesMap ++ [(Resource, 0)] }, 0)

/-- Embeds the call `GetResourceQuantity (Resource)` with its effect on the object:
the member function is not `const` and reads through `operator[]`, which it
reaches only when `find` did not return `end ()`. -/
def Stockpile.GetResourceQuantityCall (Resource : String) (s : Stockpile) :
    ResVal Stockpile Nat :=
  if (s.ResourcesMap.lookup Resource).isSome then
    ⟨(Stockpile.subscript Resource s).1, none, some (Stockpile.subscript Resource s).2⟩
  else ⟨s, none, some 0⟩

/-- Embeds `Stockpile::IncreaseQuantity (NameOfResource, NewIncreasedQuantity)`.  The first
statement after `find` reads `it -> second`, before `it` is compared with `end ()`;
for a name that is not a key that read is undefined. -/
def Stockpile.IncreaseQuantity (NameOfResource : String) (NewIncreasedQuantity : Nat)
    (s : Stockpile) : ResVal Stockpile Bool :=
  match s.ResourcesMap.lookup NameOfResource with
  | none => ⟨s, some Exn.undefined, none⟩
  | some InitialQuantityInMap =>
    if NewIncreasedQuantity < InitialQuantityInMap then ⟨s, some Exn.runtime_error, none⟩
    else
      ⟨{ ResourcesMap := assignEntry NameOfResource NewIncreasedQuantity s.ResourcesMap },
        none, some (decide (NewIncreasedQuantity ≥ InitialQuantityInMap))⟩

/-- Embeds `Stockpile::DecreaseQuantity (NameOfResource, NewDecreasedQuantity)`; the read of
`it -> second` precedes the comparison with `end ()` as in `IncreaseQuantity`. -/
def Stockpile.DecreaseQuantity (NameOfResource : String) (NewDecreasedQuantity : Nat)
    (s : Stockpile) : ResVal Stockpile Bool :=
  match s.ResourcesMap.lookup NameOfResource with
  | none => ⟨s, some Exn.undefined, none⟩
  | some InitialQuantityInMap =>
    if NewDecreasedQuantity > InitialQuantityInMap then ⟨s, some Exn.runtime_error, none⟩
    else
      ⟨{ ResourcesMap := assignEntry NameOfResource NewDecreasedQuantity s.ResourcesMap },
        none, some (decide (NewDecreasedQuantity ≥ InitialQuantityInMap))⟩

/-! ## ExecutablePlan -/

/-- Data members of `class ExecutablePlan` (ExecutablePlan.h), on top of those of
its base class `Plan`.  `CompletedArray` is the whole allocation. -/
structure ExecutablePlan extends Plan where
  Step : Nat
  CompletedArray : List Bool
  CompletedArraySize : Nat
  deriving DecidableEq, Repr

/-- Embeds `ExecutablePlan::ExecutablePlan ()`. -/
def ExecutablePlan.default : ExecutablePlan :=
  { toPlan := Plan.default, Step := 0,
    CompletedArray := List.replicate Plan.default.Size false, CompletedArraySize := 0 }

/-- Embeds `ExecutablePlan::ExecutablePlan (FormulaArray_, Size_, CurrentStep)`: the base
constructor `Plan (FormulaArray_, Size_)` runs first. -/
def ExecutablePlan.ctor (FormulaArray_ : List Formula) (Size_ : Nat) (CurrentStep : Nat) :
    Except Exn ExecutablePlan :=
  match Plan.ctor FormulaArray_ Size_ with
  | Except.error e => Except.error e
  | Except.ok base =>
    if CurrentStep ≥ Size_ then Except.error Exn.invalid_argument
    else
      Except.ok
        { toPlan := base, Step := CurrentStep,
          CompletedArray := List.replicate Size_ false, CompletedArraySize := Size_ }

/-- Embeds `ExecutablePlan::PushArrayValue (Value)`.  `none`: the copy loop reads outside
`CompletedArray`. -/
def ExecutablePlan.PushArrayValue (Value : Bool) (xp : ExecutablePlan) :
    Option ExecutablePlan :=
  let NewSize := xp.CompletedArraySize + 1
  if xp.CompletedArraySize ≤ xp.CompletedArray.length then
    some { xp with CompletedArray := xp.CompletedArray.take xp.CompletedArraySize ++ [Value],
                   CompletedArraySize := NewSize }
  else none

/-- Embeds `ExecutablePlan::AddFormula (NewFormula)`. -/
def ExecutablePlan.AddFormula (NewFormula : Formula) (xp : ExecutablePlan) :
    Res ExecutablePlan :=
  let InitialCompletedArrayValue := false
  let base := Plan.AddFormula NewFormula xp.toPlan
  match base.thrown with
  | some e => ⟨{ xp with toPlan := base.state }, some e⟩
  | none =>
    match ExecutablePlan.PushArrayValue InitialCompletedArrayValue
        { xp with toPlan := base.state } with
    | none => ⟨{ xp with toPlan := base.state }, some Exn.undefined⟩
    | some xq => ⟨xq, none⟩

/-- Embeds `ExecutablePlan::RemoveLastFormula ()`.  `Step - 1` is computed in
`unsigned int`, `CompletedArraySize - 1` in `size_t`; the right operand of `&&` is
read only when the left one holds. -/
def ExecutablePlan.RemoveLastFormula (xp : ExecutablePlan) : Res ExecutablePlan :=
  let LastElementIndex := xp.Size % UINT_MOD
  let base := Plan.RemoveLastFormula xp.toPlan
  let removed : Res ExecutablePlan := ⟨{ xp with toPlan := base.state }, base.thrown⟩
  if (xp.Step + UINT_MOD - 1) % UINT_MOD = LastElementIndex then
    match xp.CompletedArray[(xp.CompletedArraySize + SIZE_MOD - 1) % SIZE_MOD]? with
    | none => ⟨xp, some Exn.undefined⟩
    | some true => ⟨xp, some Exn.logic_error⟩
    | some false => removed
  else removed

/-- The loop of `ExecutablePlan::ReplaceFormula`, with `k` iterations left: every
iteration tests `CompletedArray[Index]` and calls `Plan::ReplaceFormula`. -/
def ExecutablePlan.ReplaceLoop (NewFormula : Formula) (Index : Nat) :
    Nat → ExecutablePlan → Res ExecutablePlan
  | 0, xp => ⟨xp, none⟩
  | k + 1, xp =>
    match xp.CompletedArray[Index]? with
    | none => ⟨xp, some Exn.undefined⟩
    | some true => ⟨xp, some Exn.logic_error⟩
    | some false =>
      let base := Plan.ReplaceFormula NewFormula Index xp.toPlan
      match base.thrown with
      | some e => ⟨{ xp with toPlan := base.state }, some e⟩
      | none => ExecutablePlan.ReplaceLoop NewFormula Index k { xp with toPlan := base.state }

/-- Embeds `ExecutablePlan::ReplaceFormula (NewFormula, Index)`. -/
def ExecutablePlan.ReplaceFormula (NewFormula : Formula) (Index : Nat)
    (xp : ExecutablePlan) : Res ExecutablePlan :=
  if Index < xp.Step then ⟨xp, some Exn.invalid_argument⟩
  else ExecutablePlan.ReplaceLoop NewFormula Index xp.CompletedArraySize xp

/-- Embeds `ExecutablePlan::PlanApply ()`; `RandomValue` is the draw of the one
`Formula::Apply` call, `Step++` is an `unsigned int` increment. -/
def ExecutablePlan.PlanApply (bo : ByteOrder) (RandomValue : ℚ) (xp : ExecutablePlan) :
    Res ExecutablePlan :=
  if xp.Step ≥ xp.CompletedArraySize then ⟨xp, some Exn.out_of_range⟩
  else
    match xp.CompletedArray[xp.Step]? with
    | none => ⟨xp, some Exn.undefined⟩
    | some true => ⟨xp, some Exn.invalid_argument⟩
    | some false =>
      if xp.Step ≥ xp.Size then ⟨xp, some Exn.out_of_range⟩
      else
        match xp.FormulaArray[xp.Step]? with
        | none => ⟨xp, some Exn.undefined⟩
        | some f =>
          let applied := Formula.Apply bo RandomValue f
          let arr := xp.FormulaArray.set xp.Step applied.state
          match applied.thrown with
          | some e => ⟨{ xp with FormulaArray := arr }, some e⟩
          | none =>
            ⟨{ xp with FormulaArray := arr,
                       CompletedArray := xp.CompletedArray.set xp.Step true,
                       Step := (xp.Step + 1) % UINT_MOD }, none⟩

/-- The free store of `bool` arrays: the array at address `a` is `cells [a]`, and
`new bool [n]` takes the next address, `cells.length`. -/
structure BoolStore where
  cells : List (List Bool)
  deriving DecidableEq, Repr

/-- An `ExecutablePlan` object with its member `bool* CompletedArray` kept as a pointer:
the address of its flag array in a `BoolStore`.  The other members are as in
`ExecutablePlan`. -/
structure ExecutablePlanObj extends Plan where
  Step : Nat
  CompletedArray : Nat
  CompletedArraySize : Nat
  deriving DecidableEq, Repr

/-- The `ExecutablePlan` an object stands for in a store: its members with the
array its pointer addresses.  `none`: the pointer addresses no array. -/
def ExecutablePlanObj.load (st : BoolStore) (o : ExecutablePlanObj) : Option ExecutablePlan :=
  match st.cells[o.CompletedArray]? with
  | none => none
  | some flags =>
    some { toPlan := o.toPlan, Step := o.Step, CompletedArray := flags,
           CompletedArraySize := o.CompletedArraySize }

/-- Embeds `ExecutablePlan::ExecutablePlan (const ExecutablePlan& other)`: the base copy
constructor `Plan (other)` (`CopyPlanData`), then `CopyXPlanData (other)`, which
copies `Step` and `CompletedArraySize`, sets `CompletedArray` to a
`new bool [CompletedArraySize]` and fills it from `other.CompletedArray`.  The value
is the store with the new array and the new object.  `none`: a read leaves an
allocation. -/
def ExecutablePlanObj.copyCtor (st : BoolStore) (other : ExecutablePlanObj) :
    Option (BoolStore × ExecutablePlanObj) :=
  match st.cells[other.CompletedArray]? with
  | none => none
  | some flags =>
    match Plan.CopyPlanData other.toPlan, copyArray other.CompletedArraySize (some flags) with
    | some base, some fresh =>
      some ({ cells := st.cells ++ [fresh] },
            { toPlan := base, Step := other.Step, CompletedArray := st.cells.length,
              CompletedArraySize := other.CompletedArraySize })
    | _, _ => none

/-- Embeds `ExecutablePlan::PlanApply ()` on an object in a store: the function never
assigns the member `CompletedArray`, it writes `CompletedArray [Step] = true`
through it, so the flags it leaves are stored at the address the object
holds. -/
def ExecutablePlanObj.PlanApply (bo : ByteOrder) (RandomValue : ℚ)
    (st : BoolStore × ExecutablePlanObj) : Res (BoolStore × ExecutablePlanObj) :=
  match ExecutablePlanObj.load st.1 st.2 with
  | none => ⟨st, some Exn.undefined⟩
  | some xp =>
    let r := ExecutablePlan.PlanApply bo RandomValue xp
    ⟨({ cells := st.1.cells.set st.2.CompletedArray r.state.CompletedArray },
      { toPlan := r.state.toPlan, Step := r.state.Step,
        CompletedArray := st.2.CompletedArray,
        CompletedArraySize := r.state.CompletedArraySize }), r.thrown⟩

/-- Embeds `struct Formula::StockpileDataLoader` (Formula.h): the four vectors built by its
constructor. -/
structure StockpileDataLoader where
  s_InputResources : List String
  s_OutputResources : List String
  s_InputQuantities : List Nat
  s_OutputQuantities : List Nat
  deriving DecidableEq, Repr

/-- Embeds `StockpileDataLoader (Formula s_Formula)`: the argument is passed by value (copy
constructor, `CopyData`), then each vector is built from the range
`[pointer, pointer + size)`; both quantity vectors use the size of the resource
array.  `none`: a range leaves an allocation. -/
def StockpileDataLoader.ctor (f : Formula) : Option StockpileDataLoader :=
  match Formula.CopyData f with
  | none => none
  | some s_Formula =>
    match copyArray s_Formula.InputResourcesSize s_Formula.InputResources,
          copyArray s_Formula.OutputResourcesSize s_Formula.OutputResources,
          copyArray s_Formula.InputResourcesSize s_Formula.InputQuantities,
          copyArray s_Formula.OutputResourcesSize s_Formula.OutputQuantities with
    | some ir, some or_, some iq, some oq => some ⟨ir, or_, iq, oq⟩
    | _, _, _, _ => none

/-- The loop of `DecreaseQuantity` calls in `PlanApply (StockpilePtr)`; an exception
leaves the loop with the ledger as mutated so far. -/
def decreaseAll : List (String × Nat) → Stockpile → Res Stockpile
  | [], s => ⟨s, none⟩
  | (name, q) :: rest, s =>
    let r := Stockpile.DecreaseQuantity name q s
    match r.thrown with
    | some e => ⟨r.state, some e⟩
    | none => decreaseAll rest r.state

/-- The loop of `IncreaseQuantity` calls in `PlanApply (StockpilePtr)`. -/
def increaseAll : List (String × Nat) → Stockpile → Res Stockpile
  | [], s => ⟨s, none⟩
  | (name, q) :: rest, s =>
    let r := Stockpile.IncreaseQuantity name q s
    match r.thrown with
    | some e => ⟨r.state, some e⟩
    | none => increaseAll rest r.state

/-- Body of the loop of `ExecutablePlan::PlanApply (StockpilePtr)` for the slot
holding `f`, on the ledger `s`; `RandomValue` is the draw of `Apply`. -/
def ExecutablePlan.applySlot (bo : ByteOrder) (RandomValue : ℚ) (f : Formula) (s : Stockpile) :
    Res (Formula × Stockpile) :=
  match StockpileDataLoader.ctor f with
  | none => ⟨(f, s), some Exn.undefined⟩
  | some s_Data =>
    let QuantitiesAreSufficient :=
      (List.zip s_Data.s_InputResources s_Data.s_InputQuantities).all fun rq =>
        s.HasResource rq.1 && decide (s.GetResourceQuantity rq.1 ≥ rq.2)
    if QuantitiesAreSufficient then
      let applied := Formula.Apply bo RandomValue f
      match applied.thrown with
      | some e => ⟨(applied.state, s), some e⟩
      | none =>
        let decreased :=
          decreaseAll (List.zip s_Data.s_InputResources s_Data.s_InputQuantities) s
        match decreased.thrown with
        | some e => ⟨(applied.state, decreased.state), some e⟩
        | none =>
          match copyArray applied.state.OutputResourcesSize applied.state.OutputResources,
                copyArray applied.state.OutputResourcesSize applied.state.OutputQuantities with
          | some names, some quantities =>
            let increased := increaseAll (List.zip names quantities) decreased.state
            ⟨(applied.state, increased.state), increased.thrown⟩
          | _, _ => ⟨(applied.state, decreased.state), some Exn.undefined⟩
    else ⟨(f, s), none⟩

/-- The loop `for (i = ...; i < Size; i++)` of `PlanApply (StockpilePtr)` from slot
`i` with `k` iterations left; slot `i` uses the draw `draws i`. -/
def ExecutablePlan.PlanApplyLoop (bo : ByteOrder) (draws : Nat → ℚ) :
    Nat → Nat → ExecutablePlan × Stockpile → Res (ExecutablePlan × Stockpile)
  | 0, _, st => ⟨st, none⟩
  | k + 1, i, (xp, s) =>
    match xp.FormulaArray[i]? with
    | none => ⟨(xp, s), some Exn.undefined⟩
    | some f =>
      let r := ExecutablePlan.applySlot bo (draws i) f s
      let st : ExecutablePlan × Stockpile :=
        ({ xp with FormulaArray := xp.FormulaArray.set i r.state.1 }, r.state.2)
      match r.thrown with
      | some e => ⟨st, some e⟩
      | none => ExecutablePlan.PlanApplyLoop bo draws k (i + 1) st

/-- Embeds `ExecutablePlan::PlanApply (StockpilePtr)`.  The returned pointer is
`StockpilePtr` itself, so the ledger of the final state is the value returned. -/
def ExecutablePlan.PlanApplyStockpile (bo : ByteOrder) (draws : Nat → ℚ)
    (StockpilePtr : Option Stockpile) (xp : ExecutablePlan) :
    Res (ExecutablePlan × Option Stockpile) :=
  match StockpilePtr with
  | none => ⟨(xp, none), some Exn.invalid_argument⟩
  | some s =>
    let r := ExecutablePlan.PlanApplyLoop bo draws xp.Size 0 (xp, s)
    ⟨(r.state.1, some r.state.2), r.thrown⟩

/-! ## Predicates and call sequences used to state the properties -/

/-- The pointer `a` is non-null and its array has exactly `n` cells. -/
def hasSize {α : Type} (n : Nat) (a : Option (List α)) : Bool :=
  match a with
  | some l => l.length == n
  | none => false

/-- An initialised Formula: each of the five arrays is present with the length its
size member states (the result array being sized to the output quantities), and
the output arrays are not empty (file header of Formula.cpp: quantity arrays
"should not be empty"). -/
def Formula.Initialised (f : Formula) : Prop :=
  hasSize f.InputResourcesSize f.InputResources = true
    ∧ hasSize f.InputQuantitiesSize f.InputQuantities = true
    ∧ hasSize f.OutputResourcesSize f.OutputResources = true
    ∧ hasSize f.OutputQuantitiesSize f.OutputQuantities = true
    ∧ hasSize f.OutputQuantitiesSize f.ResultArray = true
    ∧ 0 < f.OutputQuantitiesSize

instance (f : Formula) : Decidable f.Initialised := by
  unfold Formula.Initialised
  exact inferInstance

/-- State of a plan built from `fs` with `Step = 0` after `k` successful
`PlanApply ()` calls: the cursor is `k`, and from slot `k` on the flags are still
false and the Formulas are still those of `fs`. -/
def RunInv (fs : List Formula) (k : Nat) (xp : ExecutablePlan) : Prop :=
  xp.Step = k ∧ xp.Size = fs.length ∧ xp.CompletedArraySize = fs.length
    ∧ (∀ i, k ≤ i → i < fs.length → xp.CompletedArray[i]? = some false)
    ∧ (∀ i, k ≤ i → i < fs.length → xp.FormulaArray[i]? = fs[i]?)

/-- The result array is present and has `len` cells. -/
def resultFits (len : Nat) (x : Option (Option (List Nat))) : Prop :=
  ∃ ra, x = some (some ra) ∧ ra.length = len

/-- The first `k` of a sequence of consecutive `Apply ()` calls on one Formula, the
`j`-th call (from 0) drawing `draws j`; an exception ends the sequence. -/
def Formula.ApplyN (bo : ByteOrder) (draws : Nat → ℚ) : Nat → Formula → Res Formula
  | 0, f => ⟨f, none⟩
  | k + 1, f =>
    let r := Formula.ApplyN bo draws k f
    match r.thrown with
    | some e => ⟨r.state, some e⟩
    | none => Formula.Apply bo (draws k) r.state

/-- The Formula `{A:1, B:2} -> {C:3}` of the ledger example, with a zeroed result
array, as the parameterised constructor returns it. -/
def formulaABC : Formula :=
  { InputResources := some ["A", "B"], InputResourcesSize := 2,
    InputQuantities := some [1, 2], InputQuantitiesSize := 2,
    OutputResources := some ["C"], OutputResourcesSize := 1,
    OutputQuantities := some [3], OutputQuantitiesSize := 1,
    ResultArray := some [0], ProficiencyLevel := 0 }

/-- A Formula `{A:1} -> {C:300}` whose result array already holds 300. -/
def formula300 : Formula :=
  { InputResources := some ["A"], InputResourcesSize := 1,
    InputQuantities := some [1], InputQuantitiesSize := 1,
    OutputResources := some ["C"], OutputResourcesSize := 1,
    OutputQuantities := some [300], OutputQuantitiesSize := 1,
    ResultArray := some [300], ProficiencyLevel := 0 }

/-- The plan that `ExecutablePlan ([formulaABC], 1, 0)` builds. -/
def planABC : ExecutablePlan :=
  { FormulaArray := [formulaABC], Size := 1, Capacity := 1, Step := 0,
    CompletedArray := [false], CompletedArraySize := 1 }

/-- The plan that `ExecutablePlan ([formulaABC, formulaABC], 2, 0)` builds. -/
def planABC2 : ExecutablePlan :=
  { FormulaArray := [formulaABC, formulaABC], Size := 2, Capacity := 2, Step := 0,
    CompletedArray := [false, false], CompletedArraySize := 2 }

/-- The plan `planABC2` after one `PlanApply ()` whose draw was `0.95`: slot 0 holds
the applied Formula and is flagged, the cursor is 1. -/
def planABC2Stepped : ExecutablePlan :=
  { FormulaArray :=
      [{ formulaABC with ResultArray := some [3], ProficiencyLevel := 1 }, formulaABC],
    Size := 2, Capacity := 2, Step := 1,
    CompletedArray := [true, false], CompletedArraySize := 2 }

/-- A Formula whose five arrays are present with the lengths its size members state
(the result array being sized to the output quantities); the arrays may be empty. -/
def Formula.Sized (f : Formula) : Prop :=
  hasSize f.InputResourcesSize f.InputResources = true
    ∧ hasSize f.InputQuantitiesSize f.InputQuantities = true
    ∧ hasSize f.OutputResourcesSize f.OutputResources = true
    ∧ hasSize f.OutputQuantitiesSize f.OutputQuantities = true
    ∧ hasSize f.OutputQuantitiesSize f.ResultArray = true

instance (f : Formula) : Decidable f.Sized := by
  unfold Formula.Sized
  exact inferInstance

/-- The Formula `{A:1} -> {C:10}` of the forced-draw examples, with a zeroed result
array, as the parameterised constructor returns it. -/
def formula10 : Formula :=
  { InputResources := some ["A"], InputResourcesSize := 1,
    InputQuantities := some [1], InputQuantitiesSize := 1,
    OutputResources := some ["C"], OutputResourcesSize := 1,
    OutputQuantities := some [10], OutputQuantitiesSize := 1,
    ResultArray := some [0], ProficiencyLevel := 0 }

/-- Every draw is `0.95`. -/
def constDraws : Nat → ℚ := fun _ => 95 / 100

/-- The first `k` of a sequence of consecutive `PlanApply ()` calls on one plan, the
`j`-th call (from 0) drawing `draws j`; an exception ends the sequence. -/
def ExecutablePlan.PlanApplyN (bo : ByteOrder) (draws : Nat → ℚ) :
    Nat → ExecutablePlan → Res ExecutablePlan
  | 0, xp => ⟨xp, none⟩
  | k + 1, xp =>
    let r := ExecutablePlan.PlanApplyN bo draws k xp
    match r.thrown with
    | some e => ⟨r.state, some e⟩
    | none => ExecutablePlan.PlanApply bo (draws k) r.state

/-- The first `k` of a sequence of consecutive `PlanApply ()` calls on one object in a
store, the `j`-th call (from 0) drawing `draws j`; an exception ends the
sequence. -/
def ExecutablePlanObj.PlanApplyN (bo : ByteOrder) (draws : Nat → ℚ) :
    Nat → BoolStore × ExecutablePlanObj → Res (BoolStore × ExecutablePlanObj)
  | 0, st => ⟨st, none⟩
  | k + 1, st =>
    let r := ExecutablePlanObj.PlanApplyN bo draws k st
    match r.thrown with
    | some e => ⟨r.state, some e⟩
    | none => ExecutablePlanObj.PlanApply bo (draws k) r.state

/-- The size checks of the parameterised constructor of `Formula`: as many input
quantities as input names, as many output quantities as output names. -/
def Formula.Paired (f : Formula) : Prop :=
  f.InputResourcesSize = f.InputQuantitiesSize ∧ f.OutputResourcesSize = f.OutputQuantitiesSize

instance (f : Formula) : Decidable f.Paired := by
  unfold Formula.Paired
  exact inferInstance

/-- Some input name of `f` is not a key of the ledger `s`, or is held in a quantity
below the one `f` requires. -/
def insufficientFor (s : Stockpile) (f : Formula) : Bool :=
  match f.InputResources, f.InputQuantities with
  | some names, some quantities =>
    (List.zip names quantities).any fun rq =>
      !s.HasResource rq.1 || decide (s.GetResourceQuantity rq.1 < rq.2)
  | _, _ => false

/-- Every cell in use of the plan holds a Formula whose arrays have the stated
sizes, paired as the constructor of `Formula` requires. -/
def ExecutablePlan.SlotsSized (xp : ExecutablePlan) : Prop :=
  ∀ j, j < xp.Size → ∃ f, xp.FormulaArray[j]? = some f ∧ f.Sized ∧ f.Paired

/-- A store holding one flag array, `[false]`, at address 0. -/
def storeABC : BoolStore := ⟨[[false]]⟩

/-- The object in `storeABC` that stands for `planABC`: its `CompletedArray` is the
address 0. -/
def objABC : ExecutablePlanObj :=
  { toPlan := planABC.toPlan, Step := 0, CompletedArray := 0, CompletedArraySize := 1 }

/-- The ledger `{A:1, B:2, C:0}`. -/
def ledgerABC0 : Stockpile := ⟨[("A", 1), ("B", 2), ("C", 0)]⟩

/-- The ledger `{A:1, B:2, C:3}`. -/
def ledgerABC3 : Stockpile := ⟨[("A", 1), ("B", 2), ("C", 3)]⟩

/-- The test of the Failure tier in `Formula::Apply ()`:
`RandomValue < ChanceOfFailure`. -/
def Formula.FailureTest (RandomValue : ℚ) (c : OutcomeModifiers) : Prop :=
  RandomValue < c.Failure

/-- The test of the Partial tier in `Formula::Apply ()`:
`RandomValue > ChanceOfFailure && RandomValue < (ChanceOfPartial + ChanceOfFailure)`. -/
def Formula.PartialTest (RandomValue : ℚ) (c : OutcomeModifiers) : Prop :=
  RandomValue > c.Failure ∧ RandomValue < c.Partial + c.Failure

/-- The test of the Bonus tier in `Formula::Apply ()`:
`RandomValue > (ChanceOfPartial + ChanceOfFailure) && RandomValue < ChanceOfNormal`. -/
def Formula.BonusTest (RandomValue : ℚ) (c : OutcomeModifiers) : Prop :=
  RandomValue > c.Partial + c.Failure ∧ RandomValue < c.Normal

/-- The test of the Normal tier in `Formula::Apply ()`:
`RandomValue > (ChanceOfFailure + ChanceOfBonus + ChanceOfPartial) && RandomValue < UpperBound`
with `UpperBound = 1`. -/
def Formula.NormalTest (RandomValue : ℚ) (c : OutcomeModifiers) : Prop :=
  RandomValue > c.Failure + c.Bonus + c.Partial ∧ RandomValue < 1

/-- The four pointers that `Formula::Apply ()` tests against null are not null. -/
def Formula.NonNull (f : Formula) : Prop :=
  f.InputQuantities.isSome = true ∧ f.OutputQuantities.isSome = true
    ∧ f.InputResources.isSome = true ∧ f.OutputResources.isSome = true

/-- The Plans a program can hold: built by `Plan ()` or by
`Plan (InitialSequence, InitialSize)`, then changed by calls of `AddFormula`,
`RemoveLastFormula` and `ReplaceFormula`.  A call that throws leaves the Plan as
`Res.state` gives it; a call that reaches undefined behaviour leads nowhere. -/
inductive Plan.Reachable : Plan → Prop
  | byDefault : Plan.Reachable Plan.default
  | byCtor (InitialSequence : List Formula) (InitialSize : Nat) (p : Plan) :
      Plan.ctor InitialSequence InitialSize = Except.ok p → Plan.Reachable p
  | byAdd (NewFormula : Formula) (p : Plan) :
      Plan.Reachable p → (Plan.AddFormula NewFormula p).thrown ≠ some Exn.undefined →
      Plan.Reachable (Plan.AddFormula NewFormula p).state
  | byRemove (p : Plan) :
      Plan.Reachable p → Plan.Reachable (Plan.RemoveLastFormula p).state
  | byReplace (NewFormula : Formula) (Index : Nat) (p : Plan) :
      Plan.Reachable p → (Plan.ReplaceFormula NewFormula Index p).thrown ≠ some Exn.undefined →
      Plan.Reachable (Plan.ReplaceFormula NewFormula Index p).state

/-- The states of an `ExecutablePlan` a program can reach from the parameterised
constructor by calls of `AddFormula`, `RemoveLastFormula`, `ReplaceFormula`,
`PlanApply ()` and `PlanApply (StockpilePtr)`, whatever the draws and the ledgers.
A call that throws leaves the object as `Res.state` gives it; a call that reaches
undefined behaviour leads nowhere. -/
inductive ExecutablePlan.Reachable : ExecutablePlan → Prop
  | byCtor (FormulaArray_ : List Formula) (Size_ CurrentStep : Nat) (xp : ExecutablePlan) :
      ExecutablePlan.ctor FormulaArray_ Size_ CurrentStep = Except.ok xp →
      ExecutablePlan.Reachable xp
  | byAdd (NewFormula : Formula) (xp : ExecutablePlan) :
      ExecutablePlan.Reachable xp →
      (ExecutablePlan.AddFormula NewFormula xp).thrown ≠ some Exn.undefined →
      ExecutablePlan.Reachable (ExecutablePlan.AddFormula NewFormula xp).state
  | byRemove (xp : ExecutablePlan) :
      ExecutablePlan.Reachable xp →
      (ExecutablePlan.RemoveLastFormula xp).thrown ≠ some Exn.undefined →
      ExecutablePlan.Reachable (ExecutablePlan.RemoveLastFormula xp).state
  | byReplace (NewFormula : Formula) (Index : Nat) (xp : ExecutablePlan) :
      ExecutablePlan.Reachable xp →
      (ExecutablePlan.ReplaceFormula NewFormula Index xp).thrown ≠ some Exn.undefined →
      ExecutablePlan.Reachable (ExecutablePlan.ReplaceFormula NewFormula Index xp).state
  | byApply (bo : ByteOrder) (RandomValue : ℚ) (xp : ExecutablePlan) :
      ExecutablePlan.Reachable xp →
      (ExecutablePlan.PlanApply bo RandomValue xp).thrown ≠ some Exn.undefined →
      ExecutablePlan.Reachable (ExecutablePlan.PlanApply bo RandomValue xp).state
  | byApplyLedger (bo : ByteOrder) (draws : Nat → ℚ) (StockpilePtr : Option Stockpile)
      (xp : ExecutablePlan) :
      ExecutablePlan.Reachable xp →
      (ExecutablePlan.PlanApplyStockpile bo draws StockpilePtr xp).thrown
        ≠ some Exn.undefined →
      ExecutablePlan.Reachable
        (ExecutablePlan.PlanApplyStockpile bo draws StockpilePtr xp).state.1

instance (r : ℚ) (c : OutcomeModifiers) : Decidable (Formula.FailureTest r c) := by
  unfold Formula.FailureTest
  exact inferInstance

instance (r : ℚ) (c : OutcomeModifiers) : Decidable (Formula.PartialTest r c) := by
  unfold Formula.PartialTest
  exact inferInstance

instance (r : ℚ) (c : OutcomeModifiers) : Decidable (Formula.BonusTest r c) := by
  unfold Formula.BonusTest
  exact inferInstance

instance (r : ℚ) (c : OutcomeModifiers) : Decidable (Formula.NormalTest r c) := by
  unfold Formula.NormalTest
  exact inferInstance

instance (f : Formula) : Decidable f.NonNull := by
  unfold Formula.NonNull
  exact inferInstance

/-- A well-formed Plan: the size is within the capacity, the capacity is positive and
is the length of the allocation, and every cell in use holds a Formula whose
arrays have the stated sizes. -/
def Plan.WellFormed (p : Plan) : Prop :=
  p.Size ≤ p.Capacity ∧ 0 < p.Capacity ∧ p.FormulaArray.length = p.Capacity
    ∧ ∀ i, i < p.Size → ∃ f, p.FormulaArray[i]? = some f ∧ f.Sized

/-- Every cell in use of the Plan holds a Formula with non-null pointers. -/
def Plan.SlotsNonNull (p : Plan) : Prop :=
  ∀ i f, i < p.Size → p.FormulaArray[i]? = some f → f.NonNull

/-- The invariant of the one-shot cursor: the cells in use hold Formulas with
non-null pointers and, as long as the flag count is within the range of
`unsigned int`, `Step` is at most the flag count and every flag that is set lies
below `Step`. -/
def ExecutablePlan.CursorInv (xp : ExecutablePlan) : Prop :=
  xp.toPlan.SlotsNonNull
    ∧ (xp.CompletedArraySize < UINT_MOD →
        xp.Step ≤ xp.CompletedArraySize
          ∧ ∀ i, xp.CompletedArray[i]? = some true → i < xp.Step)

/-- The ledger `{A:1, B:2, C:10}`. -/
def ledgerABC10 : Stockpile := ⟨[("A", 1), ("B", 2), ("C", 10)]⟩

/-! ## Binary32 arithmetic and the tiers of Apply in binary32 -/

/-- A finite `float` value (IEEE 754 binary32), kept as the integer `units` with value
`units * 2 ^ (-149)`: every finite binary32 value is an integer multiple of the
least subnormal `2 ^ (-149)`.  The operations below round to nearest, a tie to
the even significand, and stay inside the finite range for the operands that
`Formula::Apply ()` gives them. -/
structure Binary32 where
  units : Int
  deriving DecidableEq, Repr

instance : LT Binary32 := ⟨fun a b => a.units < b.units⟩

instance (a b : Binary32) : Decidable (a < b) :=
  inferInstanceAs (Decidable (a.units < b.units))

/-- Number of units in `1.0f`. -/
def Binary32.SCALE : Nat := 2 ^ 149

/-- One step of the bisection of `Binary32.excessBits`: `s + k` when `n` has at least
`24 + s + k` bits, else `s`. -/
def Binary32.excessStep (n k s : Nat) : Nat :=
  if 2 ^ (24 + s + k - 1) ≤ n then s + k else s

/-- The number of low bits of `n` that a significand of 24 bits cannot hold: the least
`t` with `n < 2 ^ (24 + t)`, found by bisection in `0 .. 255`, which covers the
finite range. -/
def Binary32.excessBits (n : Nat) : Nat :=
  Binary32.excessStep n 1 (Binary32.excessStep n 2 (Binary32.excessStep n 4
    (Binary32.excessStep n 8 (Binary32.excessStep n 16 (Binary32.excessStep n 32
      (Binary32.excessStep n 64 (Binary32.excessStep n 128 0)))))))

/-- The quotient `n / d` rounded to the nearest integer, a tie to the even one. -/
def Binary32.roundHalfEven (n d : Nat) : Nat :=
  let q := n / d
  let r := n % d
  if 2 * r < d then q
  else if d < 2 * r then q + 1
  else if q % 2 = 0 then q else q + 1

/-- The quotient `n / d` rounded to the nearest natural number of at most 24
significant bits, a tie to the even significand. -/
def Binary32.roundMagnitude (n d : Nat) : Nat :=
  let s := Binary32.excessBits (n / d)
  Binary32.roundHalfEven n (d * 2 ^ s) * 2 ^ s

/-- The binary32 value nearest to the rational `num / den`. -/
def Binary32.round (num : Int) (den : Nat) : Binary32 :=
  if num < 0 then ⟨-(Binary32.roundMagnitude (num.natAbs * Binary32.SCALE) den : Nat)⟩
  else ⟨(Binary32.roundMagnitude (num.natAbs * Binary32.SCALE) den : Nat)⟩

/-- A decimal literal with the suffix `f`: `0.05f` is `Binary32.literal 5 100`. -/
def Binary32.literal (num den : Nat) : Binary32 := Binary32.round num den

/-- The conversion `static_cast<float> (n)` of an unsigned value. -/
def Binary32.ofNat (n : Nat) : Binary32 := Binary32.round n 1

/-- The sum `a + b` of two `float` values. -/
def Binary32.add (a b : Binary32) : Binary32 :=
  Binary32.round (a.units + b.units) Binary32.SCALE

/-- The difference `a - b` of two `float` values. -/
def Binary32.sub (a b : Binary32) : Binary32 :=
  Binary32.round (a.units - b.units) Binary32.SCALE

/-- The product `a * b` of two `float` values. -/
def Binary32.mul (a b : Binary32) : Binary32 :=
  Binary32.round (a.units * b.units) (Binary32.SCALE * Binary32.SCALE)

/-- The quotient `a / b` of two `float` values, `b` not zero. -/
def Binary32.div (a b : Binary32) : Binary32 :=
  Binary32.round (a.units * Int.sign b.units) b.units.natAbs

/-- The integer `std::floor (a)`. -/
def Binary32.floor (a : Binary32) : Int := a.units / (Binary32.SCALE : Int)

/-- The integer `std::ceil (a)`. -/
def Binary32.ceil (a : Binary32) : Int :=
  (a.units + (Binary32.SCALE : Int) - 1) / (Binary32.SCALE : Int)

/-- The conversion `static_cast<unsigned int> (x)` of a `float` with the integer value
`z`.  `none`: the value is outside the range of `unsigned int`, the conversion is
undefined. -/
def toUnsigned (z : Int) : Option Nat :=
  if 0 ≤ z ∧ z < 2 ^ 32 then some z.toNat else none

/-- The members of `struct OutcomeModifiers` (Formula.h) as `float` values. -/
structure OutcomeModifiersF32 where
  Failure : Binary32
  Partial : Binary32
  Bonus : Binary32
  Normal : Binary32
  deriving DecidableEq

/-- Embeds `Formula::GetOutcomeChances (Level)` with its `float` arithmetic in
binary32. -/
def Formula.GetOutcomeChancesF32 (Level : Nat) : OutcomeModifiersF32 :=
  let DefaultFailureConst := Binary32.literal 25 100
  let DefaultPartialConst := Binary32.literal 2 10
  let DefaultBonusConst := Binary32.literal 5 100
  let DefaultNormalConst := Binary32.literal 5 10
  let InitialValues : OutcomeModifiersF32 :=
    ⟨DefaultFailureConst, DefaultPartialConst, DefaultBonusConst, DefaultNormalConst⟩
  if Level = 0 then InitialValues
  else
    let ModifiedFailure :=
      Binary32.sub InitialValues.Failure
        (Binary32.mul (Binary32.ofNat Level) (Binary32.literal 5 100))
    let ModifiedPartial :=
      Binary32.sub InitialValues.Partial
        (Binary32.mul (Binary32.ofNat Level) (Binary32.literal 5 100))
    let ModifiedBonus :=
      Binary32.add InitialValues.Bonus
        (Binary32.mul (Binary32.ofNat Level) (Binary32.literal 5 100))
    let ModifiedNormal :=
      Binary32.add InitialValues.Normal
        (Binary32.mul (Binary32.ofNat Level) (Binary32.literal 5 100))
    ⟨ModifiedFailure, ModifiedPartial, ModifiedBonus, ModifiedNormal⟩

/-- The value `GetRandomFloat` returns when `std::round (RandomValue * 100.0f)` is `k`:
the binary32 quotient `k / 100.0f`. -/
def Formula.twoDecimalDraw (k : Nat) : Binary32 :=
  Binary32.div (Binary32.ofNat k) (Binary32.literal 100 1)

/-- Cell written on the Partial tier, in binary32:
`static_cast<unsigned int> (std::floor (static_cast<float> (q) * PartialConstModifier))`. -/
def partialCellF32 (q : Nat) : Option Nat :=
  let PartialConstModifier := Binary32.literal 75 100
  toUnsigned (Binary32.floor (Binary32.mul (Binary32.ofNat q) PartialConstModifier))

/-- Cell written on the Bonus tier, in binary32:
`static_cast<unsigned int> (std::ceil (static_cast<float> (q) * BonusConstModifier))`. -/
def bonusCellF32 (q : Nat) : Option Nat :=
  let BonusConstModifier := Binary32.literal 11 10
  toUnsigned (Binary32.ceil (Binary32.mul (Binary32.ofNat q) BonusConstModifier))

/-- The cells `g q` for the quantities `q` of a list, in order.  `none`: a conversion
is undefined. -/
def castCells (g : Nat → Option Nat) : List Nat → Option (List Nat)
  | [] => some []
  | q :: rest =>
    match g q with
    | none => none
    | some c =>
      match castCells g rest with
      | none => none
      | some cs => some (c :: cs)

/-- The loop `for (i = 0; i < n; ++i) ResultArray[i] = g (OutputQuantities[i])` for a
cell `g` that ends in a conversion to `unsigned int`.  Outer `none`: an index
leaves one of the two allocations, or a conversion is undefined. -/
def storeCastCells (g : Nat → Option Nat) (n : Nat) (src : List Nat) :
    Option (List Nat) → Option (Option (List Nat))
  | none => if n = 0 then some none else none
  | some dst =>
    if n ≤ src.length ∧ n ≤ dst.length then
      match castCells g (src.take n) with
      | none => none
      | some cells => some (some (cells ++ dst.drop n))
    else none

/-- The four tier tests of `Formula::Apply ()` and their writes to `ResultArray`, run in
source order as independent `if`s, with the draw, the modifiers, their sums and
the cells in binary32.  The last comparison, `RandomValue < static_cast<double> (UpperBound)`,
is made in `double`, to which the draw converts exactly: it is the comparison with
`1.0f`.  Outer `none`: a write or read left an allocation, or a conversion to
`unsigned int` is undefined. -/
def Formula.ApplyTiersF32 (bo : ByteOrder) (RandomValue : Binary32)
    (OutcomeChances : OutcomeModifiersF32) (OutputQuantitiesSize : Nat)
    (OutputQuantities : List Nat) (ResultArray : Option (List Nat)) :
    Option (Option (List Nat)) :=
  let ChanceOfFailure := OutcomeChances.Failure
  let ChanceOfPartial := OutcomeChances.Partial
  let ChanceOfBonus := OutcomeChances.Bonus
  let ChanceOfNormal := OutcomeChances.Normal
  let UpperBound : Nat := 1
  let afterFailure : Option (Option (List Nat)) :=
    if RandomValue < ChanceOfFailure then memsetResult bo ResultArray
    else some ResultArray
  let afterPartial : Option (Option (List Nat)) :=
    afterFailure.bind fun ra =>
      if RandomValue > ChanceOfFailure
          ∧ RandomValue < Binary32.add ChanceOfPartial ChanceOfFailure then
        storeCastCells partialCellF32 OutputQuantitiesSize OutputQuantities ra
      else some ra
  let afterBonus : Option (Option (List Nat)) :=
    afterPartial.bind fun ra =>
      if RandomValue > Binary32.add ChanceOfPartial ChanceOfFailure
          ∧ RandomValue < ChanceOfNormal then
        storeCastCells bonusCellF32 OutputQuantitiesSize OutputQuantities ra
      else some ra
  afterBonus.bind fun ra =>
    if RandomValue > Binary32.add (Binary32.add ChanceOfFailure ChanceOfBonus) ChanceOfPartial
        ∧ RandomValue < Binary32.ofNat UpperBound then
      storeCells id OutputQuantitiesSize OutputQuantities ra
    else some ra

/-- Embeds `Formula::Apply ()` with its `float` arithmetic in binary32; `RandomValue` is
the value returned by `GetRandomFloat`. -/
def Formula.ApplyF32 (bo : ByteOrder) (RandomValue : Binary32) (f : Formula) : Res Formula :=
  match f.InputQuantities, f.OutputQuantities, f.InputResources, f.OutputResources with
  | some _, some OutputQuantities, some _, some _ =>
    let OutcomeChances := Formula.GetOutcomeChancesF32 f.ProficiencyLevel
    let Count : Nat := 0
    let IncrementProficiencyLevel := Formula.IncrementProficiencyLevel Count
    match Formula.ApplyTiersF32 bo RandomValue OutcomeChances f.OutputQuantitiesSize
        OutputQuantities f.ResultArray with
    | none => ⟨f, some Exn.undefined⟩
    | some ra =>
      let _Count := Count + 1
      ⟨{ f with ResultArray := ra,
                ProficiencyLevel := IncrementProficiencyLevel f.ProficiencyLevel }, none⟩
  | _, _, _, _ => ⟨f, some Exn.invalid_argument⟩

/-- The test of the Failure branch of `Apply`, in binary32. -/
def Formula.FailureTestF32 (RandomValue : Binary32) (c : OutcomeModifiersF32) : Prop :=
  RandomValue < c.Failure

/-- The test of the Partial branch of `Apply`, in binary32. -/
def Formula.PartialTestF32 (RandomValue : Binary32) (c : OutcomeModifiersF32) : Prop :=
  RandomValue > c.Failure ∧ RandomValue < Binary32.add c.Partial c.Failure

/-- The test of the Bonus branch of `Apply`, in binary32. -/
def Formula.BonusTestF32 (RandomValue : Binary32) (c : OutcomeModifiersF32) : Prop :=
  RandomValue > Binary32.add c.Partial c.Failure ∧ RandomValue < c.Normal

/-- The test of the Normal branch of `Apply`, in binary32. -/
def Formula.NormalTestF32 (RandomValue : Binary32) (c : OutcomeModifiersF32) : Prop :=
  RandomValue > Binary32.add (Binary32.add c.Failure c.Bonus) c.Partial
    ∧ RandomValue < Binary32.ofNat 1

instance (r : Binary32) (c : OutcomeModifiersF32) : Decidable (Formula.FailureTestF32 r c) := by
  unfold Formula.FailureTestF32
  exact inferInstance

instance (r : Binary32) (c : OutcomeModifiersF32) : Decidable (Formula.PartialTestF32 r c) := by
  unfold Formula.PartialTestF32
  exact inferInstance

instance (r : Binary32) (c : OutcomeModifiersF32) : Decidable (Formula.BonusTestF32 r c) := by
  unfold Formula.BonusTestF32
  exact inferInstance

instance (r : Binary32) (c : OutcomeModifiersF32) : Decidable (Formula.NormalTestF32 r c) := by
  unfold Formula.NormalTestF32
  exact inferInstance

/-- A Formula `{A:1} -> {C:q}` at level 0 with the result array `[0]`. -/
def formulaOfQuantity (q : Nat) : Formula :=
  { InputResources := some ["A"], InputResourcesSize := 1,
    InputQuantities := some [1], InputQuantitiesSize := 1,
    OutputResources := some ["C"], OutputResourcesSize := 1,
    OutputQuantities := some [q], OutputQuantitiesSize := 1,
    ResultArray := some [0], ProficiencyLevel := 0 }

/-! ## Lemmas on the embedding -/

theorem hasSize_iff {α : Type} (n : Nat) (a : Option (List α)) :
    hasSize n a = true ↔ ∃ l, a = some l ∧ l.length = n := by
  cases a <;> simp [hasSize]

theorem copyArray_of_hasSize {α : Type} (n : Nat) (a : Option (List α))
    (h : hasSize n a = true) : copyArray n a = a := by
  obtain ⟨l, rfl, hl⟩ := (hasSize_iff n a).1 h
  simp [copyArray, hl.symm]

theorem CopyData_of_Initialised (f : Formula) (h : f.Initialised) :
    Formula.CopyData f = some f := by
  obtain ⟨h1, h2, h3, h4, h5, _⟩ := h
  have e1 := copyArray_of_hasSize _ _ h1
  have e2 := copyArray_of_hasSize _ _ h2
  have e3 := copyArray_of_hasSize _ _ h3
  have e4 := copyArray_of_hasSize _ _ h4
  have e5 := copyArray_of_hasSize _ _ h5
  obtain ⟨l1, q1, hl1⟩ := (hasSize_iff _ _).1 h1
  obtain ⟨l2, q2, hl2⟩ := (hasSize_iff _ _).1 h2
  obtain ⟨l3, q3, hl3⟩ := (hasSize_iff _ _).1 h3
  obtain ⟨l4, q4, hl4⟩ := (hasSize_iff _ _).1 h4
  obtain ⟨l5, q5, hl5⟩ := (hasSize_iff _ _).1 h5
  unfold Formula.CopyData
  rw [e1, e2, e3, e4, e5]
  cases f
  simp_all

theorem copyFormulas_of_Initialised (fs : List Formula) (h : ∀ f ∈ fs, f.Initialised) :
    copyFormulas fs = some fs := by
  induction fs with
  | nil => rfl
  | cons f rest ih =>
    have hf := CopyData_of_Initialised f (h f (List.mem_cons_self _ _))
    have hr := ih (fun g hg => h g (List.mem_cons_of_mem _ hg))
    simp [copyFormulas, hf, hr]

theorem Plan_ctor_of_Initialised (fs : List Formula) (hne : fs ≠ [])
    (h : ∀ f ∈ fs, f.Initialised) :
    Plan.ctor fs fs.length = Except.ok { FormulaArray := fs, Size := fs.length, Capacity := fs.length } := by
  have hpos : 0 < fs.length := List.length_pos.2 hne
  have hcopy := copyFormulas_of_Initialised fs h
  simp [Plan.ctor, assignFormulas, hcopy, Nat.pos_iff_ne_zero.1 hpos]

theorem ExecutablePlan_ctor_of_Initialised (fs : List Formula) (hne : fs ≠ [])
    (h : ∀ f ∈ fs, f.Initialised) :
    ExecutablePlan.ctor fs fs.length 0 = Except.ok
      { FormulaArray := fs, Size := fs.length, Capacity := fs.length, Step := 0,
        CompletedArray := List.replicate fs.length false, CompletedArraySize := fs.length } := by
  have hpos : 0 < fs.length := List.length_pos.2 hne
  simp [ExecutablePlan.ctor, Plan_ctor_of_Initialised fs hne h, Nat.pos_iff_ne_zero.1 hpos]

theorem memsetResult_fits (bo : ByteOrder) (ra : List Nat) (hpos : 0 < ra.length) :
    resultFits ra.length (memsetResult bo (some ra)) := by
  cases ra with
  | nil => simp at hpos
  | cons v rest => exact ⟨_, rfl, by simp⟩

theorem storeCells_fits (g : Nat → Nat) (n : Nat) (src ra : List Nat)
    (hsrc : n ≤ src.length) (hn : n ≤ ra.length) :
    resultFits ra.length (storeCells g n src (some ra)) := by
  refine ⟨(src.take n).map g ++ ra.drop n, ?_, ?_⟩
  · simp [storeCells, hsrc, hn]
  · simp [List.length_take, Nat.min_eq_left hsrc]; omega

theorem bind_fits (n len : Nat) (x : Option (Option (List Nat))) (c : Prop) [Decidable c]
    (g : Nat → Nat) (src : List Nat) (hsrc : n ≤ src.length) (hn : n ≤ len)
    (hx : resultFits len x) :
    resultFits len (x.bind fun ra => if c then storeCells g n src ra else some ra) := by
  obtain ⟨ra, rfl, hlen⟩ := hx
  subst hlen
  by_cases hc : c
  · simpa [hc] using storeCells_fits g n src ra hsrc hn
  · simp only [Option.some_bind, hc, if_false]
    exact ⟨ra, rfl, rfl⟩

theorem ApplyTiers_fits (bo : ByteOrder) (r : ℚ) (c : OutcomeModifiers) (n : Nat)
    (src ra : List Nat) (hsrc : n ≤ src.length) (hn : n ≤ ra.length) (hpos : 0 < ra.length) :
    resultFits ra.length (Formula.ApplyTiers bo r c n src (some ra)) := by
  unfold Formula.ApplyTiers
  dsimp only
  apply bind_fits _ _ _ _ _ _ hsrc hn
  apply bind_fits _ _ _ _ _ _ hsrc hn
  apply bind_fits _ _ _ _ _ _ hsrc hn
  by_cases hc : r < c.Failure
  · simpa [hc] using memsetResult_fits bo ra hpos
  · simp only [hc, if_false]
    exact ⟨ra, rfl, rfl⟩

/-- `Apply` on an initialised Formula returns normally; it rewrites the result
array, keeping its length, and sets the level to `IncrementProficiencyLevel 0` of
the old one. -/
theorem Apply_of_Initialised (bo : ByteOrder) (r : ℚ) (f : Formula) (h : f.Initialised) :
    ∃ ra, ra.length = f.OutputQuantitiesSize ∧
      Formula.Apply bo r f =
        ⟨{ f with ResultArray := some ra,
                  ProficiencyLevel := Formula.IncrementProficiencyLevel 0 f.ProficiencyLevel },
          none⟩ := by
  obtain ⟨h1, h2, h3, h4, h5, hpos⟩ := h
  obtain ⟨l1, q1, hl1⟩ := (hasSize_iff _ _).1 h1
  obtain ⟨l2, q2, hl2⟩ := (hasSize_iff _ _).1 h2
  obtain ⟨l3, q3, hl3⟩ := (hasSize_iff _ _).1 h3
  obtain ⟨l4, q4, hl4⟩ := (hasSize_iff _ _).1 h4
  obtain ⟨l5, q5, hl5⟩ := (hasSize_iff _ _).1 h5
  obtain ⟨ra, hra, hlen⟩ :=
    ApplyTiers_fits bo r (Formula.GetOutcomeChances f.ProficiencyLevel)
      f.OutputQuantitiesSize l4 l5 (by omega) (by omega) (by omega)
  refine ⟨ra, by omega, ?_⟩
  unfold Formula.Apply
  rw [q5] 
  simp only [q1, q2, q3, q4, hra]

theorem Apply_Initialised (bo : ByteOrder) (r : ℚ) (f : Formula) (h : f.Initialised) :
    (Formula.Apply bo r f).state.Initialised := by
  obtain ⟨ra, hlen, heq⟩ := Apply_of_Initialised bo r f h
  rw [heq]
  obtain ⟨h1, h2, h3, h4, h5, hpos⟩ := h
  refine ⟨h1, h2, h3, h4, ?_, hpos⟩
  simp [hasSize, hlen]

theorem PlanApply_step (bo : ByteOrder) (r : ℚ) (xp : ExecutablePlan) (f : Formula)
    (h1 : xp.Step < xp.CompletedArraySize) (h2 : xp.CompletedArray[xp.Step]? = some false)
    (h3 : xp.Step < xp.Size) (h4 : xp.FormulaArray[xp.Step]? = some f) (hf : f.Initialised) :
    xp.PlanApply bo r =
      ⟨{ xp with FormulaArray := xp.FormulaArray.set xp.Step (Formula.Apply bo r f).state,
                 CompletedArray := xp.CompletedArray.set xp.Step true,
                 Step := (xp.Step + 1) % UINT_MOD }, none⟩ := by
  obtain ⟨ra, _, heq⟩ := Apply_of_Initialised bo r f hf
  unfold ExecutablePlan.PlanApply
  rw [if_neg (by omega), h2]
  simp only [if_neg (show ¬ xp.Step ≥ xp.Size by omega), h4, heq]

theorem PlanApply_past_end (bo : ByteOrder) (r : ℚ) (xp : ExecutablePlan)
    (h : xp.CompletedArraySize ≤ xp.Step) :
    xp.PlanApply bo r = ⟨xp, some Exn.out_of_range⟩ := by
  unfold ExecutablePlan.PlanApply
  rw [if_pos h]

theorem RunInv_init (fs : List Formula) :
    RunInv fs 0
      { FormulaArray := fs, Size := fs.length, Capacity := fs.length, Step := 0,
        CompletedArray := List.replicate fs.length false, CompletedArraySize := fs.length } := by
  refine ⟨rfl, rfl, rfl, ?_, ?_⟩
  · intro i _ hi
    simp [List.getElem?_replicate, hi]
  · intro i _ _
    rfl

theorem RunInv_step (bo : ByteOrder) (r : ℚ) (fs : List Formula) (k : Nat)
    (xp : ExecutablePlan) (hinit : ∀ f ∈ fs, f.Initialised) (hk : k < fs.length)
    (hlen : fs.length < UINT_MOD) (h : RunInv fs k xp) :
    (xp.PlanApply bo r).thrown = none ∧ RunInv fs (k + 1) (xp.PlanApply bo r).state := by
  obtain ⟨hs, hsz, hcs, hflags, hforms⟩ := h
  have hf : xp.FormulaArray[xp.Step]? = some (fs.get ⟨k, hk⟩) := by
    rw [hs, hforms k (Nat.le_refl k) hk]
    simp [List.getElem?_eq_getElem hk]
  have hfi : (fs.get ⟨k, hk⟩).Initialised := hinit _ (List.get_mem fs k hk)
  have hstep := PlanApply_step bo r xp _ (by omega) (by rw [hs]; exact hflags k (Nat.le_refl k) hk)
    (by omega) hf hfi
  rw [hstep]
  refine ⟨rfl, ?_, hsz, hcs, ?_, ?_⟩
  · show (xp.Step + 1) % UINT_MOD = k + 1
    rw [hs]
    exact Nat.mod_eq_of_lt (by omega)
  · intro i hi hi2
    show (xp.CompletedArray.set xp.Step true)[i]? = some false
    rw [List.getElem?_set_ne (by omega)]
    exact hflags i (by omega) hi2
  · intro i hi hi2
    show (xp.FormulaArray.set xp.Step _)[i]? = fs[i]?
    rw [List.getElem?_set_ne (by omega)]
    exact hforms i (by omega) hi2

theorem RunInv_run (bo : ByteOrder) (draws : Nat → ℚ) (fs : List Formula)
    (xp0 : ExecutablePlan) (hinit : ∀ f ∈ fs, f.Initialised)
    (hlen : fs.length < UINT_MOD) (h0 : RunInv fs 0 xp0) (k : Nat) (hk : k ≤ fs.length) :
    (ExecutablePlan.PlanApplyN bo draws k xp0).thrown = none
      ∧ RunInv fs k (ExecutablePlan.PlanApplyN bo draws k xp0).state := by
  induction k with
  | zero => exact ⟨rfl, h0⟩
  | succ k ih =>
    obtain ⟨hthrown, hinv⟩ := ih (by omega)
    have hstep := RunInv_step bo (draws k) fs k _ hinit (by omega) hlen hinv
    have hunf : ExecutablePlan.PlanApplyN bo draws (k + 1) xp0
        = ExecutablePlan.PlanApply bo (draws k) (ExecutablePlan.PlanApplyN bo draws k xp0).state := by
      rw [ExecutablePlan.PlanApplyN]
      simp only [hthrown]
    rw [hunf]
    exact hstep

/-- C2: for every plan built with `Step = 0` from `n >= 1` initialised Formulas
(`n` within the range of the `unsigned int` cursor), the first `n` consecutive
`PlanApply ()` calls all return normally and the cursor is `k` after `k` of them
(`0 -> 1 -> ... -> n`); the next call throws `out_of_range` and leaves the whole
object (cursor, flags, Formulas) as it was. -/
theorem PlanApply_sequence_C2 (bo : ByteOrder) (draws : Nat → ℚ) (fs : List Formula)
    (hne : fs ≠ []) (hlen : fs.length < UINT_MOD) (hinit : ∀ f ∈ fs, f.Initialised) :
    ∃ xp0, ExecutablePlan.ctor fs fs.length 0 = Except.ok xp0 ∧ xp0.Step = 0 ∧
      (∀ k, k ≤ fs.length →
        (ExecutablePlan.PlanApplyN bo draws k xp0).thrown = none ∧
        (ExecutablePlan.PlanApplyN bo draws k xp0).state.Step = k) ∧
      ExecutablePlan.PlanApply bo (draws fs.length)
          (ExecutablePlan.PlanApplyN bo draws fs.length xp0).state
        = ⟨(ExecutablePlan.PlanApplyN bo draws fs.length xp0).state, some Exn.out_of_range⟩ := by
  refine ⟨_, ExecutablePlan_ctor_of_Initialised fs hne hinit, rfl, ?_, ?_⟩
  · intro k hk
    have h := RunInv_run bo draws fs _ hinit hlen (RunInv_init fs) k hk
    exact ⟨h.1, h.2.1⟩
  · have h := RunInv_run bo draws fs _ hinit hlen (RunInv_init fs) fs.length (Nat.le_refl _)
    apply PlanApply_past_end
    rw [h.2.2.2.1, h.2.1]

theorem ApplyN_of_Initialised (bo : ByteOrder) (draws : Nat → ℚ) (f : Formula)
    (h : f.Initialised) (k : Nat) :
    (Formula.ApplyN bo draws k f).thrown = none
      ∧ (Formula.ApplyN bo draws k f).state.Initialised
      ∧ (Formula.ApplyN bo draws k f).state.ProficiencyLevel
          = (Formula.IncrementProficiencyLevel 0)^[k] f.ProficiencyLevel := by
  induction k with
  | zero => exact ⟨rfl, h, rfl⟩
  | succ k ih =>
    obtain ⟨ht, hi, hl⟩ := ih
    have hunf : Formula.ApplyN bo draws (k + 1) f
        = Formula.Apply bo (draws k) (Formula.ApplyN bo draws k f).state := by
      rw [Formula.ApplyN]
      simp only [ht]
    obtain ⟨ra, _, heq⟩ := Apply_of_Initialised bo (draws k) _ hi
    refine ⟨?_, ?_, ?_⟩
    · rw [hunf, heq]
    · rw [hunf]
      exact Apply_Initialised bo (draws k) _ hi
    · rw [hunf, heq, Function.iterate_succ_apply']
      show Formula.IncrementProficiencyLevel 0 _ = _
      rw [hl]

/-- The level after `k` runs of the lambda (which always sees `Count = 0`) from a
level `p <= 6` is `min 6 (p + k)`. -/
theorem IncrementProficiencyLevel_iterate (k p : Nat) (hp : p ≤ 6) :
    (Formula.IncrementProficiencyLevel 0)^[k] p = min 6 (p + k) := by
  induction k generalizing p with
  | zero => simp [Nat.min_eq_right hp]
  | succ k ih =>
    rw [Function.iterate_succ_apply]
    by_cases h5 : p ≤ 5
    · have : Formula.IncrementProficiencyLevel 0 p = p + 1 := by
        simp [Formula.IncrementProficiencyLevel, h5]
      rw [this, ih (p + 1) (by omega)]
      congr 1
      omega
    · have : Formula.IncrementProficiencyLevel 0 p = p := by
        simp [Formula.IncrementProficiencyLevel, h5]
      rw [this, ih p hp]
      omega

/-- Whenever the cursor is at the end of a non-empty plan (`Step = Size`, within
the range of `unsigned int`), `RemoveLastFormula ()` returns normally and only
decrements `Size`, whatever the flags. -/
theorem RemoveLastFormula_at_end (xp : ExecutablePlan) (hs : xp.Step = xp.Size)
    (hpos : 0 < xp.Size) (hlt : xp.Size < UINT_MOD) :
    xp.RemoveLastFormula = ⟨{ xp with Size := xp.Size - 1 }, none⟩ := by
  have hne : (xp.Step + UINT_MOD - 1) % UINT_MOD ≠ xp.Size % UINT_MOD := by
    rw [hs, Nat.mod_eq_of_lt hlt]
    have : xp.Size + UINT_MOD - 1 = (xp.Size - 1) + UINT_MOD := by omega
    rw [this, Nat.add_mod_right, Nat.mod_eq_of_lt (by omega)]
    omega
  unfold ExecutablePlan.RemoveLastFormula
  simp only [if_neg hne, Plan.RemoveLastFormula, if_neg (show ¬ xp.Size ≤ 0 by omega)]

/-- At level 0 a draw below `0.25` runs the `memset` and no other tier: the first
result cell loses its first byte and the other cells are kept. -/
theorem Apply_failure_tier_level0 (bo : ByteOrder) (r : ℚ) (f : Formula) (v : Nat)
    (rest : List Nat) (hf : f.Initialised) (hl : f.ProficiencyLevel = 0)
    (hr : r < 25 / 100) (hra : f.ResultArray = some (v :: rest)) :
    (Formula.Apply bo r f).thrown = none
      ∧ (Formula.Apply bo r f).state.ResultArray = some (clearFirstByte bo v :: rest) := by
  obtain ⟨h1, h2, h3, h4, h5, hpos⟩ := hf
  obtain ⟨l1, q1, hl1⟩ := (hasSize_iff _ _).1 h1
  obtain ⟨l2, q2, hl2⟩ := (hasSize_iff _ _).1 h2
  obtain ⟨l3, q3, hl3⟩ := (hasSize_iff _ _).1 h3
  obtain ⟨l4, q4, hl4⟩ := (hasSize_iff _ _).1 h4
  have e1 : ¬ (25 / 100 < r ∧ r < 2 / 10 + 25 / 100) := fun h => by linarith [h.1]
  have e2 : ¬ (2 / 10 + 25 / 100 < r ∧ r < 5 / 10) := fun h => by linarith [h.1]
  have e3 : ¬ (25 / 100 + 5 / 100 + 2 / 10 < r ∧ r < 1) := fun h => by linarith [h.1]
  have ht : Formula.ApplyTiers bo r (Formula.GetOutcomeChances f.ProficiencyLevel)
      f.OutputQuantitiesSize l4 f.ResultArray = some (some (clearFirstByte bo v :: rest)) := by
    rw [hl, hra]
    simp only [Formula.ApplyTiers, Formula.GetOutcomeChances, if_true, if_pos hr, memsetResult,
      Option.some_bind, gt_iff_lt, if_neg e1, if_neg e2, if_neg e3]
  unfold Formula.Apply
  simp only [q1, q2, q3, q4, ht, and_self]

/-- C1 (failing input): `formula300` is what the parameterised constructor returns
for outputs `[300]` and a result array holding `[300]`; it is at proficiency 0 and
the draw `0.10` is below `Failure = 0.25`.  `Apply` returns normally, and the
first result cell is 256 on a little-endian machine and 300 on a big-endian one:
the `memset` of one byte does not zero the cell. -/
theorem Apply_failure_clears_one_byte_C1 :
    Formula.ctor (some ["A"]) 1 (some [1]) 1 (some ["C"]) 1 (some [300]) 1 (some [300]) 0
        = Except.ok formula300
      ∧ (10 / 100 : ℚ) < (Formula.GetOutcomeChances formula300.ProficiencyLevel).Failure
      ∧ (Formula.Apply ByteOrder.little (10 / 100) formula300).thrown = none
      ∧ (Formula.Apply ByteOrder.little (10 / 100) formula300).state.ResultArray = some [256]
      ∧ (Formula.Apply ByteOrder.big (10 / 100) formula300).thrown = none
      ∧ (Formula.Apply ByteOrder.big (10 / 100) formula300).state.ResultArray = some [300] := by
  refine ⟨rfl, ?_, ?_, ?_, ?_, ?_⟩
  · norm_num [Formula.GetOutcomeChances, formula300]
  all_goals
    simp [Formula.Apply, Formula.ApplyTiers, formula300, Formula.GetOutcomeChances,
      memsetResult, clearFirstByte]
  all_goals norm_num

/-- C8 (failing input): the first application of the level-0 Formula `formulaABC`
returns normally and leaves it at level 1, whatever the byte order and the draw;
the level does not wait for a fifth application. -/
theorem Apply_raises_level_every_call_C8 (bo : ByteOrder) (r : ℚ) :
    (Formula.Apply bo r formulaABC).thrown = none
      ∧ (Formula.Apply bo r formulaABC).state.ProficiencyLevel = 1 := by
  obtain ⟨ra, _, heq⟩ := Apply_of_Initialised bo r formulaABC (by decide)
  rw [heq]
  exact ⟨rfl, rfl⟩

/-- C9 (failing input): six consecutive applications of `formulaABC`, built at
level 0, all return normally and leave it at level 6, whatever the byte order and
the draws; the level leaves the range 0..5. -/
theorem Apply_level_reaches_six_C9 (bo : ByteOrder) (draws : Nat → ℚ) :
    (Formula.ApplyN bo draws 6 formulaABC).thrown = none
      ∧ (Formula.ApplyN bo draws 6 formulaABC).state.ProficiencyLevel = 6 := by
  obtain ⟨ht, _, hl⟩ := ApplyN_of_Initialised bo draws formulaABC (by decide) 6
  refine ⟨ht, ?_⟩
  rw [hl]
  rfl

/-- C5 (failing input): on the one-slot plan `planABC`, `PlanApply ()` returns
normally with `Step = 1 = Size` and the only slot flagged; `RemoveLastFormula ()`
on that state does not throw: it returns normally with `Size = 0`, the applied slot
discarded. -/
theorem RemoveLastFormula_discards_applied_slot_C5 (bo : ByteOrder) (r : ℚ) :
    ExecutablePlan.ctor [formulaABC] 1 0 = Except.ok planABC
      ∧ (planABC.PlanApply bo r).thrown = none
      ∧ (planABC.PlanApply bo r).state.Step = 1
      ∧ (planABC.PlanApply bo r).state.Size = 1
      ∧ (planABC.PlanApply bo r).state.CompletedArray = [true]
      ∧ (planABC.PlanApply bo r).state.RemoveLastFormula.thrown = none
      ∧ (planABC.PlanApply bo r).state.RemoveLastFormula.state.Size = 0
      ∧ (planABC.PlanApply bo r).state.RemoveLastFormula.state.Step = 1 := by
  have h1 : planABC.Step < planABC.CompletedArraySize := by decide
  have h2 : planABC.CompletedArray[planABC.Step]? = some false := by decide
  have h3 : planABC.Step < planABC.Size := by decide
  have h4 : planABC.FormulaArray[planABC.Step]? = some formulaABC := by decide
  have h5 : formulaABC.Initialised := by decide
  rw [PlanApply_step bo r planABC formulaABC h1 h2 h3 h4 h5]
  refine ⟨rfl, rfl, rfl, rfl, rfl, ?_, ?_, ?_⟩ <;>
    simp [ExecutablePlan.RemoveLastFormula, Plan.RemoveLastFormula, UINT_MOD, planABC]

/-- C6 (failing input): on the two-slot plan `planABC2`, two `PlanApply ()` calls
return normally with `Step = 2 = Size`; `RemoveLastFormula ()` then returns
normally with `Step = 2` and `Size = 1`, so `Step <= Size` no longer holds. -/
theorem RemoveLastFormula_leaves_cursor_past_end_C6 (bo : ByteOrder) (draws : Nat → ℚ) :
    ExecutablePlan.ctor [formulaABC, formulaABC] 2 0 = Except.ok planABC2
      ∧ (ExecutablePlan.PlanApplyN bo draws 2 planABC2).thrown = none
      ∧ (ExecutablePlan.PlanApplyN bo draws 2 planABC2).state.Step = 2
      ∧ (ExecutablePlan.PlanApplyN bo draws 2 planABC2).state.Size = 2
      ∧ (ExecutablePlan.PlanApplyN bo draws 2 planABC2).state.RemoveLastFormula.thrown = none
      ∧ (ExecutablePlan.PlanApplyN bo draws 2 planABC2).state.RemoveLastFormula.state.Step = 2
      ∧ (ExecutablePlan.PlanApplyN bo draws 2 planABC2).state.RemoveLastFormula.state.Size = 1 := by
  have h := RunInv_run bo draws [formulaABC, formulaABC] planABC2 (by decide) (by decide)
    (RunInv_init _) 2 (by decide)
  obtain ⟨ht, hs, hsz, hcs, _, _⟩ := h
  have hsz2 : (ExecutablePlan.PlanApplyN bo draws 2 planABC2).state.Size = 2 := hsz
  refine ⟨rfl, ht, hs, hsz2, ?_, ?_, ?_⟩
  · simp [ExecutablePlan.RemoveLastFormula, Plan.RemoveLastFormula, hs, hsz2, UINT_MOD]
  · simp [ExecutablePlan.RemoveLastFormula, Plan.RemoveLastFormula, hs, hsz2, UINT_MOD]
  · simp [ExecutablePlan.RemoveLastFormula, Plan.RemoveLastFormula, hs, hsz2, UINT_MOD]

/-- C7 (failing input): `RemoveLastFormula ()` on the freshly built two-slot plan
`planABC2` returns normally with `Size = 1` while `CompletedArraySize` is still 2
and the flag array still has two cells. -/
theorem RemoveLastFormula_keeps_flag_length_C7 :
    ExecutablePlan.ctor [formulaABC, formulaABC] 2 0 = Except.ok planABC2
      ∧ planABC2.RemoveLastFormula.thrown = none
      ∧ planABC2.RemoveLastFormula.state.Size = 1
      ∧ planABC2.RemoveLastFormula.state.CompletedArraySize = 2
      ∧ planABC2.RemoveLastFormula.state.CompletedArray = [false, false] := by
  refine ⟨rfl, ?_, ?_, ?_, ?_⟩ <;> decide

/-- C3 (failing input): one ledger-gated application of the one-slot plan `planABC`
(Formula `{A:1, B:2} -> {C:3}`), whatever the byte order and the draw.  On the
ledger `{A:1, B:2, C:0}` the call returns normally with `A = 1, B = 2, C = 3`: the
inputs are not debited.  On the ledger `{A:1, B:2}` `A` and `B` are again left at
1 and 2 and the credit of `C` reads through `end ()`: no entry `C` appears. -/
theorem PlanApplyStockpile_sets_targets_C3 (bo : ByteOrder) (draws : Nat → ℚ) :
    ExecutablePlan.ctor [formulaABC] 1 0 = Except.ok planABC
      ∧ (planABC.PlanApplyStockpile bo draws (some ⟨[("A", 1), ("B", 2), ("C", 0)]⟩)).thrown
          = none
      ∧ (planABC.PlanApplyStockpile bo draws (some ⟨[("A", 1), ("B", 2), ("C", 0)]⟩)).state.2
          = some ⟨[("A", 1), ("B", 2), ("C", 3)]⟩
      ∧ (planABC.PlanApplyStockpile bo draws (some ⟨[("A", 1), ("B", 2)]⟩)).thrown
          = some Exn.undefined
      ∧ (planABC.PlanApplyStockpile bo draws (some ⟨[("A", 1), ("B", 2)]⟩)).state.2
          = some ⟨[("A", 1), ("B", 2)]⟩ := by
  obtain ⟨ra, _, heq⟩ := Apply_of_Initialised bo (draws 0) formulaABC (by decide)
  have hload : StockpileDataLoader.ctor formulaABC = some ⟨["A", "B"], ["C"], [1, 2], [3]⟩ := by
    rfl
  have hslot1 : ExecutablePlan.applySlot bo (draws 0) formulaABC ⟨[("A", 1), ("B", 2), ("C", 0)]⟩
      = ⟨((Formula.Apply bo (draws 0) formulaABC).state, ⟨[("A", 1), ("B", 2), ("C", 3)]⟩),
          none⟩ := by
    simp only [ExecutablePlan.applySlot, hload, heq]
    rfl
  have hslot2 : ExecutablePlan.applySlot bo (draws 0) formulaABC ⟨[("A", 1), ("B", 2)]⟩
      = ⟨((Formula.Apply bo (draws 0) formulaABC).state, ⟨[("A", 1), ("B", 2)]⟩),
          some Exn.undefined⟩ := by
    simp only [ExecutablePlan.applySlot, hload, heq]
    rfl
  refine ⟨rfl, ?_, ?_, ?_, ?_⟩
  all_goals
    simp only [ExecutablePlan.PlanApplyStockpile, ExecutablePlan.PlanApplyLoop, planABC,
      List.getElem?_cons_zero, hslot1, hslot2]

/-- C10: in exact arithmetic, for every level `L` in 0..5 the modifiers returned by
`GetOutcomeChances (L)` are `Failure = 0.25 - 0.05 L`, `Partial = 0.20 - 0.05 L`,
`Bonus = 0.05 + 0.05 L`, `Normal = 0.50 + 0.05 L`, hence
`Failure + Partial = 0.45 - 0.10 L` and `Bonus + Normal = 0.55 + 0.10 L`. -/
theorem GetOutcomeChances_exact_C10 (L : Nat) (hL : L ≤ 5) :
    (Formula.GetOutcomeChances L).Failure = 25 / 100 - 5 / 100 * (L : ℚ)
      ∧ (Formula.GetOutcomeChances L).Partial = 20 / 100 - 5 / 100 * (L : ℚ)
      ∧ (Formula.GetOutcomeChances L).Bonus = 5 / 100 + 5 / 100 * (L : ℚ)
      ∧ (Formula.GetOutcomeChances L).Normal = 50 / 100 + 5 / 100 * (L : ℚ)
      ∧ (Formula.GetOutcomeChances L).Failure + (Formula.GetOutcomeChances L).Partial
          = 45 / 100 - 10 / 100 * (L : ℚ)
      ∧ (Formula.GetOutcomeChances L).Bonus + (Formula.GetOutcomeChances L).Normal
          = 55 / 100 + 10 / 100 * (L : ℚ) := by
  unfold Formula.GetOutcomeChances
  by_cases h0 : L = 0
  · subst h0
    norm_num
  · simp only [if_neg h0]
    refine ⟨?_, ?_, ?_, ?_, ?_, ?_⟩ <;> ring

/-- Witness of C10 at level 3. -/
theorem GetOutcomeChances_exact_C10_witness :
    (3 : Nat) ≤ 5
      ∧ ((Formula.GetOutcomeChances 3).Failure = 25 / 100 - 5 / 100 * ((3 : Nat) : ℚ)
      ∧ (Formula.GetOutcomeChances 3).Partial = 20 / 100 - 5 / 100 * ((3 : Nat) : ℚ)
      ∧ (Formula.GetOutcomeChances 3).Bonus = 5 / 100 + 5 / 100 * ((3 : Nat) : ℚ)
      ∧ (Formula.GetOutcomeChances 3).Normal = 50 / 100 + 5 / 100 * ((3 : Nat) : ℚ)
      ∧ (Formula.GetOutcomeChances 3).Failure + (Formula.GetOutcomeChances 3).Partial
          = 45 / 100 - 10 / 100 * ((3 : Nat) : ℚ)
      ∧ (Formula.GetOutcomeChances 3).Bonus + (Formula.GetOutcomeChances 3).Normal
          = 55 / 100 + 10 / 100 * ((3 : Nat) : ℚ)) :=
  ⟨by decide, GetOutcomeChances_exact_C10 3 (by decide)⟩

/-- C4: for every plan, Formula and index, `ReplaceFormula (NewFormula, Index)` throws
whenever `Index < Step` (`invalid_argument`, whatever the flag of that slot) and
also whenever the slot at `Index` is flagged completed (`logic_error` when
`Index >= Step`); in both cases the object the call leaves behind is the one it
found: Formulas, flags and `Step` are unchanged. -/
theorem ReplaceFormula_refuses_C4 (xp : ExecutablePlan) (NewFormula : Formula) (Index : Nat)
    (h : Index < xp.Step
      ∨ (Index < xp.CompletedArraySize ∧ xp.CompletedArray[Index]? = some true)) :
    xp.ReplaceFormula NewFormula Index
      = ⟨xp, some (if Index < xp.Step then Exn.invalid_argument else Exn.logic_error)⟩ := by
  unfold ExecutablePlan.ReplaceFormula
  by_cases hs : Index < xp.Step
  · simp only [if_pos hs]
  · simp only [if_neg hs]
    rcases h with h | ⟨hlt, hflag⟩
    · exact absurd h hs
    · obtain ⟨k, hk⟩ : ∃ k, xp.CompletedArraySize = k + 1 := ⟨xp.CompletedArraySize - 1, by omega⟩
      rw [hk, ExecutablePlan.ReplaceLoop]
      simp only [hflag]

/-- Witness of C4: slot 0 of `planABC2Stepped` lies behind the cursor. -/
theorem ReplaceFormula_refuses_C4_witness :
    (0 < planABC2Stepped.Step
        ∨ (0 < planABC2Stepped.CompletedArraySize
            ∧ planABC2Stepped.CompletedArray[0]? = some true))
      ∧ planABC2Stepped.ReplaceFormula formulaABC 0
          = ⟨planABC2Stepped,
              some (if 0 < planABC2Stepped.Step then Exn.invalid_argument
                else Exn.logic_error)⟩ :=
  ⟨Or.inl (by decide), ReplaceFormula_refuses_C4 planABC2Stepped formulaABC 0 (Or.inl (by decide))⟩

/-- Witness of C2 at the spec's length 3. -/
theorem PlanApply_sequence_C2_witness :
    [formulaABC, formulaABC, formulaABC] ≠ []
      ∧ [formulaABC, formulaABC, formulaABC].length < UINT_MOD
      ∧ (∀ f ∈ [formulaABC, formulaABC, formulaABC], f.Initialised)
      ∧ ∃ xp0, ExecutablePlan.ctor [formulaABC, formulaABC, formulaABC]
            [formulaABC, formulaABC, formulaABC].length 0 = Except.ok xp0 ∧ xp0.Step = 0 ∧
          (∀ k, k ≤ [formulaABC, formulaABC, formulaABC].length →
            (ExecutablePlan.PlanApplyN ByteOrder.little constDraws k xp0).thrown = none ∧
            (ExecutablePlan.PlanApplyN ByteOrder.little constDraws k xp0).state.Step = k) ∧
          ExecutablePlan.PlanApply ByteOrder.little
              (constDraws [formulaABC, formulaABC, formulaABC].length)
              (ExecutablePlan.PlanApplyN ByteOrder.little constDraws
                [formulaABC, formulaABC, formulaABC].length xp0).state
            = ⟨(ExecutablePlan.PlanApplyN ByteOrder.little constDraws
                  [formulaABC, formulaABC, formulaABC].length xp0).state,
                some Exn.out_of_range⟩ :=
  ⟨by decide, by decide, by decide,
    PlanApply_sequence_C2 ByteOrder.little constDraws [formulaABC, formulaABC, formulaABC]
      (by decide) (by decide) (by decide)⟩

/-- The state `planABC2Stepped` is the one `PlanApply ()` leaves on `planABC2` when
the draw is `0.95` (Normal tier at level 0). -/
theorem planABC2_PlanApply :
    planABC2.PlanApply ByteOrder.little (95 / 100) = ⟨planABC2Stepped, none⟩ := by
  have h1 : planABC2.Step < planABC2.CompletedArraySize := by decide
  have h2 : planABC2.CompletedArray[planABC2.Step]? = some false := by decide
  have h3 : planABC2.Step < planABC2.Size := by decide
  have h4 : planABC2.FormulaArray[planABC2.Step]? = some formulaABC := by decide
  have h5 : formulaABC.Initialised := by decide
  rw [PlanApply_step ByteOrder.little (95 / 100) planABC2 formulaABC h1 h2 h3 h4 h5]
  have ha : (Formula.Apply ByteOrder.little (95 / 100) formulaABC).state
      = { formulaABC with ResultArray := some [3], ProficiencyLevel := 1 } := by
    simp [Formula.Apply, Formula.ApplyTiers, formulaABC, Formula.GetOutcomeChances,
      storeCells, Formula.IncrementProficiencyLevel]
    norm_num
  rw [ha]
  simp [planABC2, planABC2Stepped, UINT_MOD]

/-! ## Outcome tiers, constructors and single-step mutations -/

/-- The Partial cell in integer arithmetic: `floor (0.75 q) = floor (3 q / 4)`. -/
theorem partialCell_eq (q : Nat) : partialCell q = 3 * q / 4 := by
  unfold partialCell
  have h : (q : ℚ) * (75 / 100) = ((3 * q : ℕ) : ℚ) / ((4 : ℕ) : ℚ) := by
    push_cast
    ring
  simp only [h]
  exact Nat.floor_div_eq_div (3 * q) 4

/-- The Bonus cell in integer arithmetic: `ceil (1.1 q) = ceil (11 q / 10)`. -/
theorem bonusCell_eq (q : Nat) : bonusCell q = (11 * q + 9) / 10 := by
  unfold bonusCell
  have h : (q : ℚ) * (11 / 10) = ((11 * q : ℕ) : ℚ) / 10 := by
    push_cast
    ring
  simp only [h]
  apply le_antisymm
  · rw [Nat.ceil_le, div_le_iff₀ (by norm_num)]
    have : 11 * q ≤ (11 * q + 9) / 10 * 10 := by omega
    exact_mod_cast this
  · by_cases hz : (11 * q + 9) / 10 = 0
    · rw [hz]; exact Nat.zero_le _
    · have hlt : (11 * q + 9) / 10 - 1 < ⌈((11 * q : ℕ) : ℚ) / 10⌉₊ := by
        rw [Nat.lt_ceil, lt_div_iff₀ (by norm_num)]
        have : ((11 * q + 9) / 10 - 1) * 10 < 11 * q := by omega
        exact_mod_cast this
      omega

/-- Last write wins: on a result array as long as the output quantities (and not
empty), the four tiers leave the Normal cells if the Normal test holds, else the
Bonus cells if the Bonus test holds, else the Partial cells if the Partial test
holds, else the array with the first byte of its first cell cleared if the
Failure test holds, else the array as it was. -/
theorem ApplyTiers_eq (bo : ByteOrder) (r : ℚ) (c : OutcomeModifiers) (src : List Nat)
    (v : Nat) (rest : List Nat) (hlen : (v :: rest).length = src.length) :
    Formula.ApplyTiers bo r c src.length src (some (v :: rest)) =
      some (some
        (if r > c.Failure + c.Bonus + c.Partial ∧ r < 1 then src
         else if r > c.Partial + c.Failure ∧ r < c.Normal then src.map bonusCell
         else if r > c.Failure ∧ r < c.Partial + c.Failure then src.map partialCell
         else if r < c.Failure then clearFirstByte bo v :: rest
         else v :: rest)) := by
  have hst : ∀ (g : Nat → Nat) (dst : List Nat), dst.length = src.length →
      storeCells g src.length src (some dst) = some (some (src.map g)) := by
    intro g dst hd
    simp [storeCells, hd]
  have hl1 : (clearFirstByte bo v :: rest).length = src.length := by simpa using hlen
  unfold Formula.ApplyTiers
  by_cases hF : r < c.Failure <;> by_cases hP : (r > c.Failure ∧ r < c.Partial + c.Failure)
    <;> by_cases hB : (r > c.Partial + c.Failure ∧ r < c.Normal)
    <;> by_cases hN : (r > c.Failure + c.Bonus + c.Partial ∧ r < 1)
    <;> simp only [if_pos, if_neg, hF, hP, hB, hN, not_false_eq_true, and_self, if_true, if_false,
      memsetResult, Option.some_bind, hst _ _ hlen, hst _ _ hl1, hst _ _ (List.length_map _ _),
      List.map_id]

/-- `Apply` on an initialised Formula, in closed form: the call returns normally, the
result array is the one the last tier whose test holds has written, and the level
is `IncrementProficiencyLevel 0` of the old one. -/
theorem Apply_eq_of_Initialised (bo : ByteOrder) (r : ℚ) (f : Formula) (outQ : List Nat)
    (v : Nat) (rest : List Nat) (hf : f.Initialised) (hq : f.OutputQuantities = some outQ)
    (hra : f.ResultArray = some (v :: rest)) :
    Formula.Apply bo r f =
      ⟨{ f with
          ResultArray := some
            (if r > (Formula.GetOutcomeChances f.ProficiencyLevel).Failure
                  + (Formula.GetOutcomeChances f.ProficiencyLevel).Bonus
                  + (Formula.GetOutcomeChances f.ProficiencyLevel).Partial ∧ r < 1 then outQ
             else if r > (Formula.GetOutcomeChances f.ProficiencyLevel).Partial
                  + (Formula.GetOutcomeChances f.ProficiencyLevel).Failure
                ∧ r < (Formula.GetOutcomeChances f.ProficiencyLevel).Normal then
               outQ.map bonusCell
             else if r > (Formula.GetOutcomeChances f.ProficiencyLevel).Failure
                ∧ r < (Formula.GetOutcomeChances f.ProficiencyLevel).Partial
                  + (Formula.GetOutcomeChances f.ProficiencyLevel).Failure then
               outQ.map partialCell
             else if r < (Formula.GetOutcomeChances f.ProficiencyLevel).Failure then
               clearFirstByte bo v :: rest
             else v :: rest),
          ProficiencyLevel := Formula.IncrementProficiencyLevel 0 f.ProficiencyLevel },
        none⟩ := by
  obtain ⟨h1, h2, h3, h4, h5, hpos⟩ := hf
  obtain ⟨l1, q1, hl1⟩ := (hasSize_iff _ _).1 h1
  obtain ⟨l2, q2, hl2⟩ := (hasSize_iff _ _).1 h2
  obtain ⟨l3, q3, hl3⟩ := (hasSize_iff _ _).1 h3
  obtain ⟨l4, q4, hl4⟩ := (hasSize_iff _ _).1 h4
  obtain ⟨l5, q5, hl5⟩ := (hasSize_iff _ _).1 h5
  have e4 : l4 = outQ := by rw [hq] at q4; exact (Option.some.inj q4).symm
  have e5 : l5 = v :: rest := by rw [hra] at q5; exact (Option.some.inj q5).symm
  subst e4 e5
  have hlen : (v :: rest).length = l4.length := by rw [hl5, hl4]
  have ht := ApplyTiers_eq bo r (Formula.GetOutcomeChances f.ProficiencyLevel) l4 v rest hlen
  rw [hl4] at ht
  unfold Formula.Apply
  simp only [q1, q2, q3, hq, hra, ht]

/-- An initialised Formula has a non-empty result array. -/
theorem Initialised_result_cons (f : Formula) (hf : f.Initialised) :
    ∃ v rest, f.ResultArray = some (v :: rest) := by
  obtain ⟨_, _, _, _, h5, hpos⟩ := hf
  obtain ⟨l5, q5, hl5⟩ := (hasSize_iff _ _).1 h5
  cases l5 with
  | nil => simp at hl5; omega
  | cons v rest => exact ⟨v, rest, q5⟩

/-- An initialised Formula has an array of output quantities. -/
theorem Initialised_output_some (f : Formula) (hf : f.Initialised) :
    ∃ outQ, f.OutputQuantities = some outQ := by
  obtain ⟨_, _, _, h4, _, _⟩ := hf
  obtain ⟨l4, q4, _⟩ := (hasSize_iff _ _).1 h4
  exact ⟨l4, q4⟩

/-- C13: for every initialised Formula (at any level, in particular 0..5) and every
draw `r` with `Failure + Bonus + Partial < r < 1`, `Apply` returns normally and the
result array equals the array of nominal output quantities. -/
theorem Apply_normal_tier_C13 (bo : ByteOrder) (r : ℚ) (f : Formula) (hf : f.Initialised)
    (h1 : (Formula.GetOutcomeChances f.ProficiencyLevel).Failure
            + (Formula.GetOutcomeChances f.ProficiencyLevel).Bonus
            + (Formula.GetOutcomeChances f.ProficiencyLevel).Partial < r)
    (h2 : r < 1) :
    (Formula.Apply bo r f).thrown = none
      ∧ (Formula.Apply bo r f).state.ResultArray = f.OutputQuantities := by
  obtain ⟨v, rest, hra⟩ := Initialised_result_cons f hf
  obtain ⟨outQ, hq⟩ := Initialised_output_some f hf
  rw [Apply_eq_of_Initialised bo r f outQ v rest hf hq hra, hq]
  refine ⟨rfl, ?_⟩
  simp only [if_pos (show _ ∧ r < 1 from ⟨h1, h2⟩)]

/-- Witness of C13: level 0, draw `0.95`, outputs `[10]` give the result `[10]`. -/
theorem Apply_normal_tier_C13_witness :
    formula10.Initialised
      ∧ (Formula.GetOutcomeChances formula10.ProficiencyLevel).Failure
            + (Formula.GetOutcomeChances formula10.ProficiencyLevel).Bonus
            + (Formula.GetOutcomeChances formula10.ProficiencyLevel).Partial < 95 / 100
      ∧ (95 / 100 : ℚ) < 1
      ∧ (Formula.Apply ByteOrder.little (95 / 100) formula10).thrown = none
      ∧ (Formula.Apply ByteOrder.little (95 / 100) formula10).state.ResultArray = some [10] := by
  have ha : (Formula.GetOutcomeChances formula10.ProficiencyLevel).Failure
      + (Formula.GetOutcomeChances formula10.ProficiencyLevel).Bonus
      + (Formula.GetOutcomeChances formula10.ProficiencyLevel).Partial < 95 / 100 := by
    norm_num [Formula.GetOutcomeChances, formula10]
  have hb : (95 / 100 : ℚ) < 1 := by norm_num
  have h := Apply_normal_tier_C13 ByteOrder.little (95 / 100) formula10 (by decide) ha hb
  exact ⟨by decide, ha, hb, h.1, h.2⟩

/-- C11 (counterexample): at level 5, inside the range 0..5, `GetOutcomeChances`
returns `Partial = -0.05`, which is not in `[0, 1]`. -/
theorem GetOutcomeChances_partial_negative_C11 :
    (5 : Nat) ≤ 5
      ∧ (Formula.GetOutcomeChances 5).Partial = -(5 / 100)
      ∧ ¬ (0 ≤ (Formula.GetOutcomeChances 5).Partial
            ∧ (Formula.GetOutcomeChances 5).Partial ≤ 1) := by
  refine ⟨Nat.le_refl 5, ?_, ?_⟩ <;> norm_num [Formula.GetOutcomeChances]

/-- C11 (amended): for every level `L` in 0..5, `Failure`, `Bonus` and `Normal`
returned by `GetOutcomeChances (L)` lie in `[0, 1]` and `Partial` lies in
`[-0.05, 1]`; `Partial` is non-negative exactly for `L <= 4`. -/
theorem GetOutcomeChances_ranges_C11 (L : Nat) (hL : L ≤ 5) :
    (0 ≤ (Formula.GetOutcomeChances L).Failure ∧ (Formula.GetOutcomeChances L).Failure ≤ 1)
      ∧ (0 ≤ (Formula.GetOutcomeChances L).Bonus ∧ (Formula.GetOutcomeChances L).Bonus ≤ 1)
      ∧ (0 ≤ (Formula.GetOutcomeChances L).Normal ∧ (Formula.GetOutcomeChances L).Normal ≤ 1)
      ∧ (-(5 / 100) ≤ (Formula.GetOutcomeChances L).Partial
          ∧ (Formula.GetOutcomeChances L).Partial ≤ 1)
      ∧ (0 ≤ (Formula.GetOutcomeChances L).Partial ↔ L ≤ 4) := by
  interval_cases L <;> norm_num [Formula.GetOutcomeChances]

/-- Witness of the amended C11 at level 5. -/
theorem GetOutcomeChances_ranges_C11_witness :
    (5 : Nat) ≤ 5
      ∧ ((0 ≤ (Formula.GetOutcomeChances 5).Failure ∧ (Formula.GetOutcomeChances 5).Failure ≤ 1)
      ∧ (0 ≤ (Formula.GetOutcomeChances 5).Bonus ∧ (Formula.GetOutcomeChances 5).Bonus ≤ 1)
      ∧ (0 ≤ (Formula.GetOutcomeChances 5).Normal ∧ (Formula.GetOutcomeChances 5).Normal ≤ 1)
      ∧ (-(5 / 100) ≤ (Formula.GetOutcomeChances 5).Partial
          ∧ (Formula.GetOutcomeChances 5).Partial ≤ 1)
      ∧ (0 ≤ (Formula.GetOutcomeChances 5).Partial ↔ 5 ≤ 4)) :=
  ⟨by decide, GetOutcomeChances_ranges_C11 5 (by decide)⟩

/-- The name check of the constructor on a whole array of names: it reports a name
that is empty or made of whitespace only. -/
theorem ContainsNullOrWhiteSpace_length (a : List String) :
    Formula.ContainsNullOrWhiteSpace (some a) a.length
      = some (decide (∃ s ∈ a, s.isEmpty = true ∨ ∀ c ∈ s.toList, isspace c = true)) := by
  have h : (a.any fun str => str.isEmpty || str.toList.all isspace)
      = decide (∃ s ∈ a, s.isEmpty = true ∨ ∀ c ∈ s.toList, isspace c = true) := by
    rw [Bool.eq_iff_iff]
    simp [List.any_eq_true, List.all_eq_true]
  simp only [Formula.ContainsNullOrWhiteSpace, Nat.le_refl, if_true, List.take_length, h]

/-- C15: the parameterised constructor, given its two name arrays with their
lengths, throws `invalid_argument` if and only if some input or output name is
empty or consists only of whitespace, or the stated sizes of input names and input
quantities differ, or those of output names and output quantities differ, or the
proficiency argument exceeds 5; otherwise it returns a Formula. -/
theorem Formula_ctor_validation_C15 (inR outR : List String)
    (InputQuantities_ OutputQuantities_ ResultArray_ : Option (List Nat))
    (InputQuantitiesSize_ OutputQuantitiesSize_ p : Nat) :
    (Formula.ctor (some inR) inR.length InputQuantities_ InputQuantitiesSize_
          (some outR) outR.length OutputQuantities_ OutputQuantitiesSize_ ResultArray_ p
        = Except.error Exn.invalid_argument
      ↔ ((∃ s ∈ inR, s.isEmpty = true ∨ ∀ c ∈ s.toList, isspace c = true)
          ∨ (∃ s ∈ outR, s.isEmpty = true ∨ ∀ c ∈ s.toList, isspace c = true)
          ∨ inR.length ≠ InputQuantitiesSize_
          ∨ outR.length ≠ OutputQuantitiesSize_
          ∨ 5 < p))
      ∧ (Formula.ctor (some inR) inR.length InputQuantities_ InputQuantitiesSize_
            (some outR) outR.length OutputQuantities_ OutputQuantitiesSize_ ResultArray_ p
          ≠ Except.error Exn.invalid_argument →
        ∃ f, Formula.ctor (some inR) inR.length InputQuantities_ InputQuantitiesSize_
            (some outR) outR.length OutputQuantities_ OutputQuantitiesSize_ ResultArray_ p
          = Except.ok f) := by
  unfold Formula.ctor
  rw [ContainsNullOrWhiteSpace_length inR, ContainsNullOrWhiteSpace_length outR]
  by_cases h1 : ∃ s ∈ inR, s.isEmpty = true ∨ ∀ c ∈ s.toList, isspace c = true
  · simp only [decide_eq_true h1]
    exact ⟨⟨fun _ => Or.inl h1, fun _ => trivial⟩, fun h => absurd rfl h⟩
  · simp only [decide_eq_false h1]
    by_cases h2 : ∃ s ∈ outR, s.isEmpty = true ∨ ∀ c ∈ s.toList, isspace c = true
    · simp only [decide_eq_true h2]
      exact ⟨⟨fun _ => Or.inr (Or.inl h2), fun _ => trivial⟩, fun h => absurd rfl h⟩
    · simp only [decide_eq_false h2]
      by_cases h3 : inR.length ≠ InputQuantitiesSize_
      · simp only [if_pos h3]
        exact ⟨⟨fun _ => Or.inr (Or.inr (Or.inl h3)), fun _ => trivial⟩, fun h => absurd rfl h⟩
      · simp only [if_neg h3]
        by_cases h4 : outR.length ≠ OutputQuantitiesSize_
        · simp only [if_pos h4]
          exact ⟨⟨fun _ => Or.inr (Or.inr (Or.inr (Or.inl h4))), fun _ => trivial⟩,
            fun h => absurd rfl h⟩
        · simp only [if_neg h4]
          by_cases h5 : p > 5
          · simp only [if_pos h5]
            exact ⟨⟨fun _ => Or.inr (Or.inr (Or.inr (Or.inr h5))), fun _ => trivial⟩,
              fun h => absurd rfl h⟩
          · simp only [if_neg h5]
            refine ⟨⟨fun h => by simp at h, fun h => ?_⟩, fun _ => ⟨_, rfl⟩⟩
            rcases h with h | h | h | h | h
            · exact absurd h h1
            · exact absurd h h2
            · exact absurd h h3
            · exact absurd h h4
            · exact absurd h h5

/-- C16 (failing input): the constructor called with the valid arguments of
`{A:1, B:2} -> {C:3}` and proficiency argument 3 returns `formulaABC`, whose
proficiency level is 0, not 3. -/
theorem Formula_ctor_drops_level_C16 :
    Formula.ctor (some ["A", "B"]) 2 (some [1, 2]) 2 (some ["C"]) 1 (some [3]) 1 (some [0]) 3
        = Except.ok formulaABC
      ∧ formulaABC.ProficiencyLevel = 0 :=
  ⟨rfl, rfl⟩

/-- Whatever its arguments, a Formula returned by the parameterised constructor is
at level 0. -/
theorem Formula_ctor_level_zero (a : Option (List String)) (na : Nat) (b : Option (List Nat))
    (nb : Nat) (c : Option (List String)) (nc : Nat) (d : Option (List Nat)) (nd : Nat)
    (e : Option (List Nat)) (p : Nat) (f : Formula)
    (h : Formula.ctor a na b nb c nc d nd e p = Except.ok f) : f.ProficiencyLevel = 0 := by
  unfold Formula.ctor at h
  split at h
  · simp at h
  · simp at h
  · split at h
    · simp at h
    · simp at h
    · split_ifs at h
      simp only [Except.ok.injEq] at h
      rw [← h]

/-- The deep copy of a sized Formula is the Formula itself. -/
theorem CopyData_of_Sized (f : Formula) (h : f.Sized) : Formula.CopyData f = some f := by
  obtain ⟨h1, h2, h3, h4, h5⟩ := h
  have e1 := copyArray_of_hasSize _ _ h1
  have e2 := copyArray_of_hasSize _ _ h2
  have e3 := copyArray_of_hasSize _ _ h3
  have e4 := copyArray_of_hasSize _ _ h4
  have e5 := copyArray_of_hasSize _ _ h5
  obtain ⟨l1, q1, hl1⟩ := (hasSize_iff _ _).1 h1
  obtain ⟨l2, q2, hl2⟩ := (hasSize_iff _ _).1 h2
  obtain ⟨l3, q3, hl3⟩ := (hasSize_iff _ _).1 h3
  obtain ⟨l4, q4, hl4⟩ := (hasSize_iff _ _).1 h4
  obtain ⟨l5, q5, hl5⟩ := (hasSize_iff _ _).1 h5
  unfold Formula.CopyData
  rw [e1, e2, e3, e4, e5]
  cases f
  simp_all

/-- An initialised Formula is sized. -/
theorem Sized_of_Initialised (f : Formula) (h : f.Initialised) : f.Sized :=
  ⟨h.1, h.2.1, h.2.2.1, h.2.2.2.1, h.2.2.2.2.1⟩

theorem copyFormulas_of_Sized (fs : List Formula) (h : ∀ f ∈ fs, f.Sized) :
    copyFormulas fs = some fs := by
  induction fs with
  | nil => rfl
  | cons f rest ih =>
    have hf := CopyData_of_Sized f (h f (List.mem_cons_self _ _))
    have hr := ih (fun g hg => h g (List.mem_cons_of_mem _ hg))
    simp [copyFormulas, hf, hr]

/-- C17: building an `ExecutablePlan` from the `n` Formulas of `fs` (each with arrays
of the sizes it states) with `CurrentStep = s` fails if and only if `s >= n`, which
covers every `n = 0`, and then with `invalid_argument`; when `s < n` it returns the
plan whose `Step` is `s`, whose flag vector has length `n` with every flag false,
and whose sequence is `fs` in order (`Size = n`). -/
theorem ExecutablePlan_ctor_C17 (fs : List Formula) (s : Nat) (h : ∀ f ∈ fs, f.Sized) :
    ((∃ e, ExecutablePlan.ctor fs fs.length s = Except.error e) ↔ s ≥ fs.length)
      ∧ (s ≥ fs.length → ExecutablePlan.ctor fs fs.length s = Except.error Exn.invalid_argument)
      ∧ (s < fs.length →
          ExecutablePlan.ctor fs fs.length s = Except.ok
            { FormulaArray := fs, Size := fs.length, Capacity := fs.length, Step := s,
              CompletedArray := List.replicate fs.length false,
              CompletedArraySize := fs.length }) := by
  have hcopy := copyFormulas_of_Sized fs h
  have hfail : s ≥ fs.length →
      ExecutablePlan.ctor fs fs.length s = Except.error Exn.invalid_argument := by
    intro hs
    by_cases h0 : fs.length = 0
    · simp [ExecutablePlan.ctor, Plan.ctor, h0]
    · simp [ExecutablePlan.ctor, Plan.ctor, assignFormulas, hcopy, h0, hs]
  have hok : s < fs.length →
      ExecutablePlan.ctor fs fs.length s = Except.ok
        { FormulaArray := fs, Size := fs.length, Capacity := fs.length, Step := s,
          CompletedArray := List.replicate fs.length false,
          CompletedArraySize := fs.length } := by
    intro hs
    have h0 : fs.length ≠ 0 := by omega
    simp [ExecutablePlan.ctor, Plan.ctor, assignFormulas, hcopy, h0, Nat.not_le.2 hs]
  refine ⟨⟨fun ⟨e, he⟩ => ?_, fun hs => ⟨_, hfail hs⟩⟩, hfail, hok⟩
  by_contra hlt
  rw [hok (by omega)] at he
  simp at he

/-- Witness of C17: two Formulas, `CurrentStep = 1`. -/
theorem ExecutablePlan_ctor_C17_witness :
    (∀ f ∈ [formulaABC, formula10], f.Sized)
      ∧ ((∃ e, ExecutablePlan.ctor [formulaABC, formula10] [formulaABC, formula10].length 1
              = Except.error e) ↔ 1 ≥ [formulaABC, formula10].length)
      ∧ (1 ≥ [formulaABC, formula10].length →
          ExecutablePlan.ctor [formulaABC, formula10] [formulaABC, formula10].length 1
            = Except.error Exn.invalid_argument)
      ∧ (1 < [formulaABC, formula10].length →
          ExecutablePlan.ctor [formulaABC, formula10] [formulaABC, formula10].length 1
            = Except.ok
            { FormulaArray := [formulaABC, formula10],
              Size := [formulaABC, formula10].length,
              Capacity := [formulaABC, formula10].length, Step := 1,
              CompletedArray := List.replicate [formulaABC, formula10].length false,
              CompletedArraySize := [formulaABC, formula10].length }) :=
  ⟨by decide, ExecutablePlan_ctor_C17 [formulaABC, formula10] 1 (by decide)⟩

/-- C18: for every plan with `Step < Size` whose slot at `Step` has a false flag and
holds an initialised Formula `f` (`Step + 1` within the range of `unsigned int`),
`PlanApply ()` returns normally; afterwards the slot at `Step` holds the result
of one `Apply` on `f` and its flag is true, `Step` is larger by exactly 1, and the
size, capacity and flag count, every other flag and every other Formula are
unchanged. -/
theorem PlanApply_success_C18 (bo : ByteOrder) (r : ℚ) (xp : ExecutablePlan) (f : Formula)
    (hstep : xp.Step < xp.Size)
    (hflag : xp.Step < xp.CompletedArraySize ∧ xp.CompletedArray[xp.Step]? = some false)
    (hslot : xp.FormulaArray[xp.Step]? = some f) (hf : f.Initialised)
    (hrange : xp.Step + 1 < UINT_MOD) :
    (xp.PlanApply bo r).thrown = none
      ∧ (xp.PlanApply bo r).state.FormulaArray[xp.Step]? = some (Formula.Apply bo r f).state
      ∧ (xp.PlanApply bo r).state.CompletedArray[xp.Step]? = some true
      ∧ (xp.PlanApply bo r).state.Step = xp.Step + 1
      ∧ (xp.PlanApply bo r).state.Size = xp.Size
      ∧ (xp.PlanApply bo r).state.Capacity = xp.Capacity
      ∧ (xp.PlanApply bo r).state.CompletedArraySize = xp.CompletedArraySize
      ∧ (xp.PlanApply bo r).state.FormulaArray.length = xp.FormulaArray.length
      ∧ (xp.PlanApply bo r).state.CompletedArray.length = xp.CompletedArray.length
      ∧ (∀ i, i ≠ xp.Step →
          (xp.PlanApply bo r).state.CompletedArray[i]? = xp.CompletedArray[i]?)
      ∧ (∀ i, i ≠ xp.Step →
          (xp.PlanApply bo r).state.FormulaArray[i]? = xp.FormulaArray[i]?) := by
  rw [PlanApply_step bo r xp f hflag.1 hflag.2 hstep hslot hf]
  have hl1 : xp.Step < xp.FormulaArray.length := by
    by_contra hc
    rw [List.getElem?_eq_none (by omega)] at hslot
    simp at hslot
  have hl2 : xp.Step < xp.CompletedArray.length := by
    by_contra hc
    have := hflag.2
    rw [List.getElem?_eq_none (by omega)] at this
    simp at this
  refine ⟨rfl, ?_, ?_, ?_, rfl, rfl, rfl, ?_, ?_, ?_, ?_⟩
  · show (xp.FormulaArray.set xp.Step _)[xp.Step]? = _
    rw [List.getElem?_set_self hl1]
  · show (xp.CompletedArray.set xp.Step true)[xp.Step]? = _
    rw [List.getElem?_set_self hl2]
  · show (xp.Step + 1) % UINT_MOD = xp.Step + 1
    exact Nat.mod_eq_of_lt hrange
  · show (xp.FormulaArray.set xp.Step _).length = _
    rw [List.length_set]
  · show (xp.CompletedArray.set xp.Step true).length = _
    rw [List.length_set]
  · intro i hi
    show (xp.CompletedArray.set xp.Step true)[i]? = _
    rw [List.getElem?_set_ne (Ne.symm hi)]
  · intro i hi
    show (xp.FormulaArray.set xp.Step _)[i]? = _
    rw [List.getElem?_set_ne (Ne.symm hi)]

/-- Witness of C18: the first `PlanApply ()` on the one-slot plan `planABC`. -/
theorem PlanApply_success_C18_witness :
    planABC.Step < planABC.Size
      ∧ (planABC.Step < planABC.CompletedArraySize
          ∧ planABC.CompletedArray[planABC.Step]? = some false)
      ∧ planABC.FormulaArray[planABC.Step]? = some formulaABC
      ∧ formulaABC.Initialised
      ∧ planABC.Step + 1 < UINT_MOD
      ∧ (planABC.PlanApply ByteOrder.little (95 / 100)).thrown = none
      ∧ (planABC.PlanApply ByteOrder.little (95 / 100)).state.Step = planABC.Step + 1
      ∧ (planABC.PlanApply ByteOrder.little (95 / 100)).state.CompletedArray[planABC.Step]?
          = some true
      ∧ (planABC.PlanApply ByteOrder.little (95 / 100)).state.Size = planABC.Size := by
  have h1 : planABC.Step < planABC.Size := by decide
  have h2 : planABC.Step < planABC.CompletedArraySize
      ∧ planABC.CompletedArray[planABC.Step]? = some false := by decide
  have h3 : planABC.FormulaArray[planABC.Step]? = some formulaABC := by decide
  have h4 : formulaABC.Initialised := by decide
  have h5 : planABC.Step + 1 < UINT_MOD := by decide
  have h := PlanApply_success_C18 ByteOrder.little (95 / 100) planABC formulaABC h1 h2 h3 h4 h5
  exact ⟨h1, h2, h3, h4, h5, h.1, h.2.2.2.1, h.2.2.1, h.2.2.2.2.1⟩

/-- The loop of `ReplaceFormula` on a slot with a false flag, inside the sequence and
the allocation, for a sized Formula: after at least one iteration the slot holds
the Formula and nothing else has changed. -/
theorem ReplaceLoop_pending (f : Formula) (Index : Nat) (hf : f.Sized) (k : Nat) :
    ∀ xp : ExecutablePlan, Index ≤ xp.Size → Index < xp.FormulaArray.length →
      xp.CompletedArray[Index]? = some false →
      ExecutablePlan.ReplaceLoop f Index (k + 1) xp
        = ⟨{ xp with FormulaArray := xp.FormulaArray.set Index f }, none⟩ := by
  have hcopy := CopyData_of_Sized f hf
  induction k with
  | zero =>
    intro xp h1 h2 h3
    simp only [ExecutablePlan.ReplaceLoop, h3, Plan.ReplaceFormula, if_neg (Nat.not_lt.2 h1),
      assignFormulaAt, if_pos h2, hcopy]
  | succ k ih =>
    intro xp h1 h2 h3
    rw [ExecutablePlan.ReplaceLoop]
    simp only [h3, Plan.ReplaceFormula, if_neg (Nat.not_lt.2 h1), assignFormulaAt, if_pos h2,
      hcopy]
    have hx := ih { xp with FormulaArray := xp.FormulaArray.set Index f } h1
      (by simpa using h2) h3
    exact hx.trans (by simp)

/-- C20: for every plan whose sequence lies inside its allocation, every Formula `f`
with arrays of the sizes it states, and every index with `Step <= Index < Size`
whose slot has a false flag, `ReplaceFormula (f, Index)` returns normally;
afterwards the slot at `Index` holds `f`, every other slot holds the Formula it
held, and the size, capacity, `Step` and all the flags are unchanged. -/
theorem ReplaceFormula_success_C20 (xp : ExecutablePlan) (f : Formula) (Index : Nat)
    (h1 : xp.Step ≤ Index) (h2 : Index < xp.Size)
    (h3 : Index < xp.CompletedArraySize ∧ xp.CompletedArray[Index]? = some false)
    (h4 : xp.Size ≤ xp.FormulaArray.length) (hf : f.Sized) :
    (xp.ReplaceFormula f Index).thrown = none
      ∧ (xp.ReplaceFormula f Index).state.FormulaArray[Index]? = some f
      ∧ (∀ i, i ≠ Index →
          (xp.ReplaceFormula f Index).state.FormulaArray[i]? = xp.FormulaArray[i]?)
      ∧ (xp.ReplaceFormula f Index).state.FormulaArray.length = xp.FormulaArray.length
      ∧ (xp.ReplaceFormula f Index).state.Size = xp.Size
      ∧ (xp.ReplaceFormula f Index).state.Capacity = xp.Capacity
      ∧ (xp.ReplaceFormula f Index).state.Step = xp.Step
      ∧ (xp.ReplaceFormula f Index).state.CompletedArray = xp.CompletedArray
      ∧ (xp.ReplaceFormula f Index).state.CompletedArraySize = xp.CompletedArraySize := by
  obtain ⟨k, hk⟩ : ∃ k, xp.CompletedArraySize = k + 1 :=
    ⟨xp.CompletedArraySize - 1, by omega⟩
  have hloop := ReplaceLoop_pending f Index hf k xp (by omega) (by omega) h3.2
  unfold ExecutablePlan.ReplaceFormula
  rw [if_neg (by omega), hk, hloop]
  refine ⟨rfl, ?_, ?_, ?_, rfl, rfl, rfl, rfl, hk⟩
  · show (xp.FormulaArray.set Index f)[Index]? = some f
    rw [List.getElem?_set_self (by omega)]
  · intro i hi
    show (xp.FormulaArray.set Index f)[i]? = _
    rw [List.getElem?_set_ne (Ne.symm hi)]
  · show (xp.FormulaArray.set Index f).length = _
    rw [List.length_set]

/-- Witness of C20: slot 1 of the fresh two-slot plan `planABC2` is replaced by
`formula10`. -/
theorem ReplaceFormula_success_C20_witness :
    planABC2.Step ≤ 1 ∧ 1 < planABC2.Size
      ∧ (1 < planABC2.CompletedArraySize ∧ planABC2.CompletedArray[1]? = some false)
      ∧ planABC2.Size ≤ planABC2.FormulaArray.length
      ∧ formula10.Sized
      ∧ (planABC2.ReplaceFormula formula10 1).thrown = none
      ∧ (planABC2.ReplaceFormula formula10 1).state.FormulaArray[1]? = some formula10
      ∧ (planABC2.ReplaceFormula formula10 1).state.Size = planABC2.Size
      ∧ (planABC2.ReplaceFormula formula10 1).state.Step = planABC2.Step
      ∧ (planABC2.ReplaceFormula formula10 1).state.CompletedArray
          = planABC2.CompletedArray := by
  have h := ReplaceFormula_success_C20 planABC2 formula10 1 (by decide) (by decide)
    (by decide) (by decide) (by decide)
  exact ⟨by decide, by decide, by decide, by decide, by decide, h.1, h.2.1, h.2.2.2.2.1,
    h.2.2.2.2.2.2.1, h.2.2.2.2.2.2.2.1⟩

/-- Behaviour of `AddFormula` when the allocation still has a free cell and the flag array holds
its `CompletedArraySize` flags: the Formula lands in cell `Size`, `Size` grows by 1,
and a false flag is pushed at index `CompletedArraySize`. -/
theorem AddFormula_no_resize (f : Formula) (xp : ExecutablePlan) (hf : f.Sized)
    (hcap : xp.Size < xp.Capacity) (hlen : xp.Size < xp.FormulaArray.length)
    (hflags : xp.CompletedArraySize ≤ xp.CompletedArray.length) :
    xp.AddFormula f =
      ⟨{ xp with FormulaArray := xp.FormulaArray.set xp.Size f, Size := xp.Size + 1,
                 CompletedArray := xp.CompletedArray.take xp.CompletedArraySize ++ [false],
                 CompletedArraySize := xp.CompletedArraySize + 1 }, none⟩ := by
  have hcopy := CopyData_of_Sized f hf
  simp only [ExecutablePlan.AddFormula, Plan.AddFormula, if_neg (Nat.not_le.2 hcap),
    assignFormulaAt, if_pos hlen, hcopy, ExecutablePlan.PushArrayValue, if_pos hflags]

/-- C19 (failing input): on the one-slot plan `planABC`, `PlanApply ()` then
`RemoveLastFormula ()` then `AddFormula (formulaABC)` all return normally,
whatever the byte order and the draw.  The sequence then has length 1 and its new
last slot, slot 0, holds the appended Formula, but the flag of slot 0 is true: it
is the flag left by the removed slot, and the false flag was pushed at index 1. -/
theorem AddFormula_new_slot_flagged_C19 (bo : ByteOrder) (r : ℚ) :
    (planABC.PlanApply bo r).thrown = none
      ∧ (planABC.PlanApply bo r).state.RemoveLastFormula.thrown = none
      ∧ (planABC.PlanApply bo r).state.RemoveLastFormula.state.Size = 0
      ∧ ((planABC.PlanApply bo r).state.RemoveLastFormula.state.AddFormula formulaABC).thrown
          = none
      ∧ ((planABC.PlanApply bo r).state.RemoveLastFormula.state.AddFormula
            formulaABC).state.Size = 1
      ∧ ((planABC.PlanApply bo r).state.RemoveLastFormula.state.AddFormula
            formulaABC).state.FormulaArray[0]? = some formulaABC
      ∧ ((planABC.PlanApply bo r).state.RemoveLastFormula.state.AddFormula
            formulaABC).state.CompletedArray = [true, false]
      ∧ ((planABC.PlanApply bo r).state.RemoveLastFormula.state.AddFormula
            formulaABC).state.CompletedArraySize = 2 := by
  have h1 : planABC.Step < planABC.CompletedArraySize := by decide
  have h2 : planABC.CompletedArray[planABC.Step]? = some false := by decide
  have h3 : planABC.Step < planABC.Size := by decide
  have h4 : planABC.FormulaArray[planABC.Step]? = some formulaABC := by decide
  have h5 : formulaABC.Initialised := by decide
  have e : (planABC.PlanApply bo r).state
      = { FormulaArray := [(Formula.Apply bo r formulaABC).state], Size := 1, Capacity := 1,
          Step := 1, CompletedArray := [true], CompletedArraySize := 1 } := by
    rw [PlanApply_step bo r planABC formulaABC h1 h2 h3 h4 h5]
    simp [planABC, UINT_MOD]
  have ht : (planABC.PlanApply bo r).thrown = none := by
    rw [PlanApply_step bo r planABC formulaABC h1 h2 h3 h4 h5]
  rw [e]
  have hrem : ExecutablePlan.RemoveLastFormula
        { FormulaArray := [(Formula.Apply bo r formulaABC).state], Size := 1, Capacity := 1,
          Step := 1, CompletedArray := [true], CompletedArraySize := 1 }
      = ⟨{ FormulaArray := [(Formula.Apply bo r formulaABC).state], Size := 0, Capacity := 1,
           Step := 1, CompletedArray := [true], CompletedArraySize := 1 }, none⟩ :=
    RemoveLastFormula_at_end
      { FormulaArray := [(Formula.Apply bo r formulaABC).state], Size := 1, Capacity := 1,
        Step := 1, CompletedArray := [true], CompletedArraySize := 1 }
      rfl (Nat.one_pos) (by simp [UINT_MOD])
  rw [hrem]
  have hadd : ExecutablePlan.AddFormula formulaABC
        { FormulaArray := [(Formula.Apply bo r formulaABC).state], Size := 0, Capacity := 1,
          Step := 1, CompletedArray := [true], CompletedArraySize := 1 }
      = ⟨{ FormulaArray := [formulaABC], Size := 1, Capacity := 1,
           Step := 1, CompletedArray := [true, false], CompletedArraySize := 2 }, none⟩ :=
    AddFormula_no_resize formulaABC
      { FormulaArray := [(Formula.Apply bo r formulaABC).state], Size := 0, Capacity := 1,
        Step := 1, CompletedArray := [true], CompletedArraySize := 1 }
      (by decide) Nat.one_pos (by simp) (by simp)
  refine ⟨ht, rfl, rfl, ?_⟩
  rw [hadd]
  exact ⟨rfl, rfl, rfl, rfl, rfl⟩

/-! ## The ledger and its mutators -/

/-- The lookup of a name finds an entry exactly when the name is a key. -/
theorem lookup_isSome_iff_key (name : String) (m : List (String × Nat)) :
    (m.lookup name).isSome = true ↔ name ∈ m.map Prod.fst := by
  induction m with
  | nil => simp
  | cons e rest ih =>
    obtain ⟨k, v⟩ := e
    by_cases h : name = k
    · subst h
      simp [List.lookup]
    · have hb : (name == k) = false := by simpa using h
      simp [List.lookup, hb, ih, h]

/-- With distinct keys the lookup of a name returns the quantity of its entry. -/
theorem lookup_of_mem_nodup (name : String) (q : Nat) (m : List (String × Nat))
    (hnd : (m.map Prod.fst).Nodup) (hmem : (name, q) ∈ m) : m.lookup name = some q := by
  induction m with
  | nil => simp at hmem
  | cons e rest ih =>
    obtain ⟨k, v⟩ := e
    simp only [List.map_cons, List.nodup_cons] at hnd
    rcases List.mem_cons.1 hmem with h | h
    · cases h
      simp [List.lookup]
    · have hk : name ≠ k := by
        rintro rfl
        exact hnd.1 (List.mem_map.2 ⟨(name, q), h, rfl⟩)
      have hb : (name == k) = false := by simpa using hk
      simp [List.lookup, hb, ih hnd.2 h]

/-- After `it -> second = q` the entry of the name holds `q`. -/
theorem lookup_assignEntry_self (name : String) (q old : Nat) (m : List (String × Nat))
    (h : m.lookup name = some old) : (assignEntry name q m).lookup name = some q := by
  induction m with
  | nil => simp at h
  | cons e rest ih =>
    obtain ⟨k, v⟩ := e
    by_cases hk : name = k
    · subst hk
      simp [assignEntry, List.lookup]
    · have hb : (name == k) = false := by simpa using hk
      simp only [List.lookup, hb] at h
      simp [assignEntry, List.lookup, hb, ih h]

/-- The assignment `it -> second = q` leaves every other name as it was. -/
theorem lookup_assignEntry_ne (name other : String) (q : Nat) (m : List (String × Nat))
    (h : other ≠ name) : (assignEntry name q m).lookup other = m.lookup other := by
  induction m with
  | nil => simp [assignEntry]
  | cons e rest ih =>
    obtain ⟨k, v⟩ := e
    by_cases hk : name = k
    · subst hk
      have hb : (other == name) = false := by simpa using h
      simp [assignEntry, List.lookup, hb]
    · have hb : (name == k) = false := by simpa using hk
      by_cases ho : other = k
      · subst ho
        simp [assignEntry, List.lookup, hb]
      · have hb2 : (other == k) = false := by simpa using ho
        simp [assignEntry, List.lookup, hb, hb2, ih]

/-- The assignment `it -> second = q` leaves the keys as they were. -/
theorem keys_assignEntry (name : String) (q : Nat) (m : List (String × Nat)) :
    (assignEntry name q m).map Prod.fst = m.map Prod.fst := by
  induction m with
  | nil => simp [assignEntry]
  | cons e rest ih =>
    obtain ⟨k, v⟩ := e
    by_cases hk : name = k
    · subst hk
      simp [assignEntry]
    · have hb : (name == k) = false := by simpa using hk
      simp [assignEntry, hb, ih]

/-- Closed form of `IncreaseQuantity` on a name that is a key. -/
theorem IncreaseQuantity_of_key (name : String) (q old : Nat) (s : Stockpile)
    (h : s.ResourcesMap.lookup name = some old) :
    Stockpile.IncreaseQuantity name q s =
      if q < old then ⟨s, some Exn.runtime_error, none⟩
      else ⟨{ ResourcesMap := assignEntry name q s.ResourcesMap }, none, some true⟩ := by
  unfold Stockpile.IncreaseQuantity
  rw [h]
  by_cases hq : q < old
  · simp [hq]
  · simp [hq, Nat.le_of_not_lt hq]

/-- Closed form of `DecreaseQuantity` on a name that is a key. -/
theorem DecreaseQuantity_of_key (name : String) (q old : Nat) (s : Stockpile)
    (h : s.ResourcesMap.lookup name = some old) :
    Stockpile.DecreaseQuantity name q s =
      if q > old then ⟨s, some Exn.runtime_error, none⟩
      else ⟨{ ResourcesMap := assignEntry name q s.ResourcesMap }, none,
              some (decide (q = old))⟩ := by
  unfold Stockpile.DecreaseQuantity
  rw [h]
  by_cases hq : q > old
  · simp [hq]
  · have hle : q ≤ old := Nat.le_of_not_lt hq
    have : decide (q ≥ old) = decide (q = old) := by
      apply decide_eq_decide.2
      constructor
      · intro h1; exact Nat.le_antisymm hle h1
      · intro h1; exact h1 ▸ Nat.le_refl _
    simp [hq, this]

/-- On a name that is not a key `IncreaseQuantity` reaches the read through `end ()`. -/
theorem IncreaseQuantity_of_not_key (name : String) (q : Nat) (s : Stockpile)
    (h : s.ResourcesMap.lookup name = none) :
    Stockpile.IncreaseQuantity name q s = ⟨s, some Exn.undefined, none⟩ := by
  unfold Stockpile.IncreaseQuantity
  rw [h]

/-- On a name that is not a key `DecreaseQuantity` reaches the read through `end ()`. -/
theorem DecreaseQuantity_of_not_key (name : String) (q : Nat) (s : Stockpile)
    (h : s.ResourcesMap.lookup name = none) :
    Stockpile.DecreaseQuantity name q s = ⟨s, some Exn.undefined, none⟩ := by
  unfold Stockpile.DecreaseQuantity
  rw [h]

/-- C24 (failing input): on the ledger `{A:1}`, `IncreaseQuantity ("Z", 5)` for the name
`Z`, which is not a key: the execution reaches the read of `it -> second` through
`end ()`, which precedes the test `it == end ()`; it is an undefined read, not the
`runtime_error` of the statement after it. -/
theorem IncreaseQuantity_unknown_name_C24 :
    (Stockpile.IncreaseQuantity "Z" 5 ⟨[("A", 1)]⟩).thrown = some Exn.undefined
      ∧ (Stockpile.IncreaseQuantity "Z" 5 ⟨[("A", 1)]⟩).thrown ≠ some Exn.runtime_error
      ∧ Stockpile.HasResource "Z" ⟨[("A", 1)]⟩ = false := by
  decide

/-- C25 (failing input): on the ledger `{A:1}`, `DecreaseQuantity ("Z", 0)` for the name
`Z`, which is not a key: the execution reaches the read of `it -> second` through
`end ()`, which precedes the test `it == end ()`; it is an undefined read, not the
`runtime_error` of the statement after it. -/
theorem DecreaseQuantity_unknown_name_C25 :
    (Stockpile.DecreaseQuantity "Z" 0 ⟨[("A", 1)]⟩).thrown = some Exn.undefined
      ∧ (Stockpile.DecreaseQuantity "Z" 0 ⟨[("A", 1)]⟩).thrown ≠ some Exn.runtime_error
      ∧ Stockpile.HasResource "Z" ⟨[("A", 1)]⟩ = false := by
  decide

/-- C26: for every ledger, name and quantity `q`: a call of `IncreaseQuantity` that does
not fail found the name with some quantity `old`, leaves it at `q`, and returns
whether `q ≥ old`, which is `true`; a call of `DecreaseQuantity` that does not fail
likewise returns whether `q ≥ old`, which is `true` exactly when `q = old` and
`false` whenever `q < old`. -/
theorem mutators_return_C26 (name : String) (q : Nat) (s : Stockpile) :
    ((Stockpile.IncreaseQuantity name q s).thrown = none →
        ∃ old, s.ResourcesMap.lookup name = some old
          ∧ (Stockpile.IncreaseQuantity name q s).state.ResourcesMap.lookup name = some q
          ∧ (Stockpile.IncreaseQuantity name q s).value = some (decide (q ≥ old))
          ∧ (Stockpile.IncreaseQuantity name q s).value = some true)
      ∧ ((Stockpile.DecreaseQuantity name q s).thrown = none →
        ∃ old, s.ResourcesMap.lookup name = some old
          ∧ (Stockpile.DecreaseQuantity name q s).state.ResourcesMap.lookup name = some q
          ∧ (Stockpile.DecreaseQuantity name q s).value = some (decide (q ≥ old))
          ∧ (Stockpile.DecreaseQuantity name q s).value = some (decide (q = old))
          ∧ (q < old → (Stockpile.DecreaseQuantity name q s).value = some false)) := by
  constructor
  · intro h
    cases hl : s.ResourcesMap.lookup name with
    | none => rw [IncreaseQuantity_of_not_key name q s hl] at h; cases h
    | some old =>
      rw [IncreaseQuantity_of_key name q old s hl] at h ⊢
      by_cases hq : q < old
      · simp [hq] at h
      · have hle : old ≤ q := Nat.le_of_not_lt hq
        refine ⟨old, rfl, ?_, ?_, ?_⟩
        · simpa [hq] using lookup_assignEntry_self name q old s.ResourcesMap hl
        · simp [hq, hle]
        · simp [hq]
  · intro h
    cases hl : s.ResourcesMap.lookup name with
    | none => rw [DecreaseQuantity_of_not_key name q s hl] at h; cases h
    | some old =>
      rw [DecreaseQuantity_of_key name q old s hl] at h ⊢
      by_cases hq : q > old
      · simp [hq] at h
      · have hle : q ≤ old := Nat.le_of_not_lt hq
        refine ⟨old, rfl, ?_, ?_, ?_, ?_⟩
        · simpa [hq] using lookup_assignEntry_self name q old s.ResourcesMap hl
        · have : (q = old) ↔ old ≤ q := ⟨fun e => e ▸ Nat.le_refl _, fun e => Nat.le_antisymm hle e⟩
          simp [hq, this]
        · simp [hq]
        · intro hlt
          simp [hq, Nat.ne_of_lt hlt]

/-- Witness of C26: on the ledger `{A:1}` the call `IncreaseQuantity ("A", 5)` returns
`true` and the call `DecreaseQuantity ("A", 0)` returns `false`. -/
theorem mutators_return_C26_witness :
    (Stockpile.IncreaseQuantity "A" 5 ⟨[("A", 1)]⟩).value = some true
      ∧ (Stockpile.DecreaseQuantity "A" 0 ⟨[("A", 1)]⟩).value = some false := by
  have h := mutators_return_C26 "A" 5 ⟨[("A", 1)]⟩
  have h0 := mutators_return_C26 "A" 0 ⟨[("A", 1)]⟩
  obtain ⟨_, _, _, _, h1⟩ := h.1 (by decide)
  obtain ⟨old, hold, _, _, _, h2⟩ := h0.2 (by decide)
  have : old = 1 := by
    have : (some 1 : Option Nat) = some old := hold
    exact (Option.some.inj this).symm
  subst this
  exact ⟨h1, h2 (by decide)⟩

/-- C27: for every ledger and name, `HasResource` is true exactly when the name is a
key; the call `GetResourceQuantity` leaves the ledger as it was (no entry is
added), raises nothing and returns the quantity found for a key and 0 for a
name that is not a key. -/
theorem lookups_pure_C27 (name : String) (s : Stockpile) :
    (s.HasResource name = true ↔ name ∈ s.ResourcesMap.map Prod.fst)
      ∧ (Stockpile.GetResourceQuantityCall name s).state = s
      ∧ (Stockpile.GetResourceQuantityCall name s).thrown = none
      ∧ (Stockpile.GetResourceQuantityCall name s).value = some (s.GetResourceQuantity name)
      ∧ (∀ q, s.ResourcesMap.lookup name = some q → s.GetResourceQuantity name = q)
      ∧ ((s.ResourcesMap.map Prod.fst).Nodup →
          ∀ q, (name, q) ∈ s.ResourcesMap → s.GetResourceQuantity name = q)
      ∧ (name ∉ s.ResourcesMap.map Prod.fst → s.GetResourceQuantity name = 0) := by
  have hget : ∀ q, s.ResourcesMap.lookup name = some q → s.GetResourceQuantity name = q := by
    intro q hq
    simp [Stockpile.GetResourceQuantity, hq]
  refine ⟨lookup_isSome_iff_key name s.ResourcesMap, ?_, ?_, ?_, hget, ?_, ?_⟩
  · cases hl : s.ResourcesMap.lookup name <;>
      simp [Stockpile.GetResourceQuantityCall, Stockpile.subscript, hl]
  · cases hl : s.ResourcesMap.lookup name <;>
      simp [Stockpile.GetResourceQuantityCall, hl]
  · cases hl : s.ResourcesMap.lookup name <;>
      simp [Stockpile.GetResourceQuantityCall, Stockpile.subscript,
        Stockpile.GetResourceQuantity, hl]
  · intro hnd q hmem
    exact hget q (lookup_of_mem_nodup name q s.ResourcesMap hnd hmem)
  · intro hk
    have : (s.ResourcesMap.lookup name).isSome ≠ true :=
      fun h => hk ((lookup_isSome_iff_key name s.ResourcesMap).1 h)
    cases hl : s.ResourcesMap.lookup name with
    | none => simp [Stockpile.GetResourceQuantity, hl]
    | some q => simp [hl] at this

/-- Witness of C27: on the ledger `{A:1, B:2}`, `A` is found, `B` is held at 2, the
missing name `Z` gives 0 and its lookup leaves the ledger `{A:1, B:2}`. -/
theorem lookups_pure_C27_witness :
    Stockpile.HasResource "A" ⟨[("A", 1), ("B", 2)]⟩ = true
      ∧ Stockpile.GetResourceQuantity "B" ⟨[("A", 1), ("B", 2)]⟩ = 2
      ∧ Stockpile.GetResourceQuantity "Z" ⟨[("A", 1), ("B", 2)]⟩ = 0
      ∧ (Stockpile.GetResourceQuantityCall "Z" ⟨[("A", 1), ("B", 2)]⟩).state
          = ⟨[("A", 1), ("B", 2)]⟩ :=
  ⟨(lookups_pure_C27 "A" ⟨[("A", 1), ("B", 2)]⟩).1.2 (by decide),
    (lookups_pure_C27 "B" ⟨[("A", 1), ("B", 2)]⟩).2.2.2.2.2.1 (by decide) 2 (by decide),
    (lookups_pure_C27 "Z" ⟨[("A", 1), ("B", 2)]⟩).2.2.2.2.2.2 (by decide),
    (lookups_pure_C27 "Z" ⟨[("A", 1), ("B", 2)]⟩).2.1⟩

/-! ## Ledger-gated apply and the frame of Apply -/

/-- `Apply` writes no member but `ResultArray` and `ProficiencyLevel`. -/
theorem Apply_frame (bo : ByteOrder) (r : ℚ) (f : Formula) :
    (Formula.Apply bo r f).state.InputResources = f.InputResources
      ∧ (Formula.Apply bo r f).state.InputResourcesSize = f.InputResourcesSize
      ∧ (Formula.Apply bo r f).state.InputQuantities = f.InputQuantities
      ∧ (Formula.Apply bo r f).state.InputQuantitiesSize = f.InputQuantitiesSize
      ∧ (Formula.Apply bo r f).state.OutputResources = f.OutputResources
      ∧ (Formula.Apply bo r f).state.OutputResourcesSize = f.OutputResourcesSize
      ∧ (Formula.Apply bo r f).state.OutputQuantities = f.OutputQuantities
      ∧ (Formula.Apply bo r f).state.OutputQuantitiesSize = f.OutputQuantitiesSize := by
  unfold Formula.Apply
  split
  · dsimp only
    split <;> simp
  · simp

/-- The loader of a sized and paired Formula holds its four arrays. -/
theorem loader_of_Sized_Paired (f : Formula) (hs : f.Sized) (hp : f.Paired) :
    ∃ inR inQ outR outQ, f.InputResources = some inR ∧ f.InputQuantities = some inQ
      ∧ f.OutputResources = some outR ∧ f.OutputQuantities = some outQ
      ∧ StockpileDataLoader.ctor f = some ⟨inR, outR, inQ, outQ⟩ := by
  have hc := CopyData_of_Sized f hs
  obtain ⟨h1, h2, h3, h4, _⟩ := hs
  obtain ⟨p1, p2⟩ := hp
  have e1 := copyArray_of_hasSize _ _ h1
  have e2 := copyArray_of_hasSize _ _ h2
  have e3 := copyArray_of_hasSize _ _ h3
  have e4 := copyArray_of_hasSize _ _ h4
  obtain ⟨l1, q1, _⟩ := (hasSize_iff _ _).1 h1
  obtain ⟨l2, q2, _⟩ := (hasSize_iff _ _).1 h2
  obtain ⟨l3, q3, _⟩ := (hasSize_iff _ _).1 h3
  obtain ⟨l4, q4, _⟩ := (hasSize_iff _ _).1 h4
  refine ⟨l1, l2, l3, l4, q1, q2, q3, q4, ?_⟩
  rw [← p1] at e2
  rw [← p2] at e4
  rw [q1] at e1
  rw [q2] at e2
  rw [q3] at e3
  rw [q4] at e4
  unfold StockpileDataLoader.ctor
  rw [hc]
  simp only [q1, q2, q3, q4, e1, e2, e3, e4]

/-- A slot whose Formula is insufficient for the ledger is left as it is, with the
ledger, and without error. -/
theorem applySlot_insufficient (bo : ByteOrder) (r : ℚ) (f : Formula) (s : Stockpile)
    (hs : f.Sized) (hp : f.Paired) (hins : insufficientFor s f = true) :
    ExecutablePlan.applySlot bo r f s = ⟨(f, s), none⟩ := by
  obtain ⟨inR, inQ, outR, outQ, q1, q2, _, _, hload⟩ := loader_of_Sized_Paired f hs hp
  have hall : ((List.zip inR inQ).all fun rq =>
      s.HasResource rq.1 && decide (s.GetResourceQuantity rq.1 ≥ rq.2)) = false := by
    simp only [insufficientFor, q1, q2, List.any_eq_true] at hins
    obtain ⟨p, hp1, hp2⟩ := hins
    apply Bool.eq_false_iff.2
    intro hall
    have := (List.all_eq_true.1 hall) p hp1
    simp only [Bool.and_eq_true, decide_eq_true_eq] at this
    simp only [Bool.or_eq_true, Bool.not_eq_true', decide_eq_true_eq] at hp2
    rcases hp2 with h | h
    · rw [this.1] at h; cases h
    · omega
  unfold ExecutablePlan.applySlot
  rw [hload]
  simp only [hall]
  rfl

/-- Closed form of the loop body for an initialised, paired Formula. -/
theorem applySlot_of_Initialised (bo : ByteOrder) (r : ℚ) (f : Formula) (s : Stockpile)
    (inR : List String) (inQ : List Nat) (outR : List String) (outQ : List Nat)
    (hf : f.Initialised) (hp : f.Paired)
    (q1 : f.InputResources = some inR) (q2 : f.InputQuantities = some inQ)
    (q3 : f.OutputResources = some outR) (q4 : f.OutputQuantities = some outQ) :
    ExecutablePlan.applySlot bo r f s =
      if ((List.zip inR inQ).all fun rq =>
          s.HasResource rq.1 && decide (s.GetResourceQuantity rq.1 ≥ rq.2)) = true then
        match (decreaseAll (List.zip inR inQ) s).thrown with
        | some e => ⟨((Formula.Apply bo r f).state, (decreaseAll (List.zip inR inQ) s).state),
                      some e⟩
        | none =>
          ⟨((Formula.Apply bo r f).state,
             (increaseAll (List.zip outR outQ) (decreaseAll (List.zip inR inQ) s).state).state),
            (increaseAll (List.zip outR outQ) (decreaseAll (List.zip inR inQ) s).state).thrown⟩
      else ⟨(f, s), none⟩ := by
  obtain ⟨inR', inQ', outR', outQ', q1', q2', q3', q4', hload⟩ :=
    loader_of_Sized_Paired f (Sized_of_Initialised f hf) hp
  rw [q1] at q1'; rw [q2] at q2'; rw [q3] at q3'; rw [q4] at q4'
  cases q1'; cases q2'; cases q3'; cases q4'
  obtain ⟨ra, _, heq⟩ := Apply_of_Initialised bo r f hf
  obtain ⟨_, _, h3, h4, _, _⟩ := hf
  have e3 := copyArray_of_hasSize _ _ h3
  have e4 := copyArray_of_hasSize _ _ h4
  rw [← hp.2] at e4
  rw [q3] at e3
  rw [q4] at e4
  unfold ExecutablePlan.applySlot
  rw [hload]
  by_cases hall : ((List.zip inR inQ).all fun rq =>
      s.HasResource rq.1 && decide (s.GetResourceQuantity rq.1 ≥ rq.2)) = true
  · simp only [hall, if_true, heq, q3, q4, e3, e4]
  · simp only [hall]
    try rfl

/-- The errors that leave the ledger through its mutators. -/
theorem IncreaseQuantity_thrown (name : String) (q : Nat) (s : Stockpile) :
    (Stockpile.IncreaseQuantity name q s).thrown = none
      ∨ (Stockpile.IncreaseQuantity name q s).thrown = some Exn.runtime_error
      ∨ (Stockpile.IncreaseQuantity name q s).thrown = some Exn.undefined := by
  unfold Stockpile.IncreaseQuantity
  split
  · simp
  · split <;> simp

/-- The errors that leave `DecreaseQuantity`. -/
theorem DecreaseQuantity_thrown (name : String) (q : Nat) (s : Stockpile) :
    (Stockpile.DecreaseQuantity name q s).thrown = none
      ∨ (Stockpile.DecreaseQuantity name q s).thrown = some Exn.runtime_error
      ∨ (Stockpile.DecreaseQuantity name q s).thrown = some Exn.undefined := by
  unfold Stockpile.DecreaseQuantity
  split
  · simp
  · split <;> simp

/-- The errors that leave the loop of `DecreaseQuantity` calls. -/
theorem decreaseAll_thrown (l : List (String × Nat)) (s : Stockpile) :
    (decreaseAll l s).thrown = none
      ∨ (decreaseAll l s).thrown = some Exn.runtime_error
      ∨ (decreaseAll l s).thrown = some Exn.undefined := by
  induction l generalizing s with
  | nil => simp [decreaseAll]
  | cons e rest ih =>
    obtain ⟨name, q⟩ := e
    unfold decreaseAll
    dsimp only
    cases h : (Stockpile.DecreaseQuantity name q s).thrown with
    | none => exact ih _
    | some e =>
      have := DecreaseQuantity_thrown name q s
      rw [h] at this
      simpa using this

/-- The errors that leave the loop of `IncreaseQuantity` calls. -/
theorem increaseAll_thrown (l : List (String × Nat)) (s : Stockpile) :
    (increaseAll l s).thrown = none
      ∨ (increaseAll l s).thrown = some Exn.runtime_error
      ∨ (increaseAll l s).thrown = some Exn.undefined := by
  induction l generalizing s with
  | nil => simp [increaseAll]
  | cons e rest ih =>
    obtain ⟨name, q⟩ := e
    unfold increaseAll
    dsimp only
    cases h : (Stockpile.IncreaseQuantity name q s).thrown with
    | none => exact ih _
    | some e =>
      have := IncreaseQuantity_thrown name q s
      rw [h] at this
      simpa using this

/-- The loop body on an initialised Formula is left only by an error of the ledger or
by a read outside an allocation. -/
theorem applySlot_thrown (bo : ByteOrder) (r : ℚ) (f : Formula) (s : Stockpile)
    (hf : f.Initialised) :
    (ExecutablePlan.applySlot bo r f s).thrown = none
      ∨ (ExecutablePlan.applySlot bo r f s).thrown = some Exn.runtime_error
      ∨ (ExecutablePlan.applySlot bo r f s).thrown = some Exn.undefined := by
  obtain ⟨ra, _, heq⟩ := Apply_of_Initialised bo r f hf
  unfold ExecutablePlan.applySlot
  split
  · simp
  · rename_i s_Data _
    dsimp only
    split
    · rw [heq]
      dsimp only
      cases hd : (decreaseAll (List.zip s_Data.s_InputResources s_Data.s_InputQuantities)
          s).thrown with
      | some e =>
        have := decreaseAll_thrown (List.zip s_Data.s_InputResources s_Data.s_InputQuantities) s
        rw [hd] at this
        simpa using this
      | none =>
        dsimp only
        split
        · exact increaseAll_thrown _ _
        · simp
    · simp

/-- The loop of the ledger-gated apply over initialised Formulas is left only by an
error of the ledger or by a read outside an allocation. -/
theorem PlanApplyLoop_thrown (bo : ByteOrder) (draws : Nat → ℚ) (k : Nat) :
    ∀ (i : Nat) (xp : ExecutablePlan) (s : Stockpile),
      (∀ j f, i ≤ j → j < i + k → xp.FormulaArray[j]? = some f → f.Initialised) →
      (ExecutablePlan.PlanApplyLoop bo draws k i (xp, s)).thrown = none
        ∨ (ExecutablePlan.PlanApplyLoop bo draws k i (xp, s)).thrown = some Exn.runtime_error
        ∨ (ExecutablePlan.PlanApplyLoop bo draws k i (xp, s)).thrown = some Exn.undefined := by
  induction k with
  | zero => intro i xp s _; simp [ExecutablePlan.PlanApplyLoop]
  | succ k ih =>
    intro i xp s h
    unfold ExecutablePlan.PlanApplyLoop
    cases hslot : xp.FormulaArray[i]? with
    | none => simp
    | some f =>
      dsimp only
      have hfi : f.Initialised := h i f (Nat.le_refl _) (by omega) hslot
      cases ht : (ExecutablePlan.applySlot bo (draws i) f s).thrown with
      | some e =>
        have := applySlot_thrown bo (draws i) f s hfi
        rw [ht] at this
        simpa using this
      | none =>
        dsimp only
        apply ih
        intro j g hij hjk hg
        have hne : i ≠ j := by omega
        rw [List.getElem?_set_ne hne] at hg
        exact h j g (by omega) (by omega) hg

/-- When every remaining slot is insufficient for the ledger the loop changes
neither the plan nor the ledger. -/
theorem PlanApplyLoop_all_insufficient (bo : ByteOrder) (draws : Nat → ℚ) (s : Stockpile)
    (k : Nat) :
    ∀ (i : Nat) (xp : ExecutablePlan),
      (∀ j, i ≤ j → j < i + k →
        ∃ f, xp.FormulaArray[j]? = some f ∧ f.Sized ∧ f.Paired ∧ insufficientFor s f = true) →
      ExecutablePlan.PlanApplyLoop bo draws k i (xp, s) = ⟨(xp, s), none⟩ := by
  induction k with
  | zero => intro i xp _; rfl
  | succ k ih =>
    intro i xp h
    obtain ⟨f, hslot, hs, hp, hins⟩ := h i (Nat.le_refl _) (by omega)
    have hbody := applySlot_insufficient bo (draws i) f s hs hp hins
    have hset : xp.FormulaArray.set i f = xp.FormulaArray := by
      apply List.ext_getElem?
      intro n
      by_cases hn : i = n
      · subst hn
        rw [hslot]
        have hlt : i < xp.FormulaArray.length := by
          rcases Nat.lt_or_ge i xp.FormulaArray.length with h1 | h1
          · exact h1
          · rw [List.getElem?_eq_none h1] at hslot; cases hslot
        simp [hlt]
      · rw [List.getElem?_set_ne hn]
    unfold ExecutablePlan.PlanApplyLoop
    rw [hslot]
    dsimp only
    rw [hbody]
    dsimp only
    rw [hset]
    exact ih (i + 1) xp (fun j h1 h2 => h j (by omega) (by omega))

/-- The ledger-gated apply of a plan with one cell in use is one run of the loop
body. -/
theorem PlanApplyStockpile_single (bo : ByteOrder) (draws : Nat → ℚ) (xp : ExecutablePlan)
    (f : Formula) (s : Stockpile) (hsize : xp.Size = 1) (hslot : xp.FormulaArray[0]? = some f) :
    xp.PlanApplyStockpile bo draws (some s) =
      ⟨({ xp with FormulaArray :=
            xp.FormulaArray.set 0 (ExecutablePlan.applySlot bo (draws 0) f s).state.1 },
         some (ExecutablePlan.applySlot bo (draws 0) f s).state.2),
        (ExecutablePlan.applySlot bo (draws 0) f s).thrown⟩ := by
  have hloop : ∀ n, n = 1 → ExecutablePlan.PlanApplyLoop bo draws n 0 (xp, s)
      = ⟨({ xp with FormulaArray :=
              xp.FormulaArray.set 0 (ExecutablePlan.applySlot bo (draws 0) f s).state.1 },
           (ExecutablePlan.applySlot bo (draws 0) f s).state.2),
          (ExecutablePlan.applySlot bo (draws 0) f s).thrown⟩ := by
    intro n hn
    subst hn
    unfold ExecutablePlan.PlanApplyLoop
    rw [hslot]
    dsimp only
    cases ht : (ExecutablePlan.applySlot bo (draws 0) f s).thrown with
    | some e => rfl
    | none => rfl
  unfold ExecutablePlan.PlanApplyStockpile
  dsimp only
  rw [hloop xp.Size hsize]

/-- One ledger-gated application of an initialised Formula `{A:1, B:2} -> {C:3}` on a
ledger `{A:1, B:2, C:c}` with `c ≤ 3` applies the Formula and leaves `{A:1, B:2, C:3}`. -/
theorem applySlot_ABC (bo : ByteOrder) (r : ℚ) (f : Formula) (c : Nat) (hc : c ≤ 3)
    (hf : f.Initialised) (hp : f.Paired)
    (q1 : f.InputResources = some ["A", "B"]) (q2 : f.InputQuantities = some [1, 2])
    (q3 : f.OutputResources = some ["C"]) (q4 : f.OutputQuantities = some [3]) :
    ExecutablePlan.applySlot bo r f ⟨[("A", 1), ("B", 2), ("C", c)]⟩
      = ⟨((Formula.Apply bo r f).state, ledgerABC3), none⟩ := by
  rw [applySlot_of_Initialised bo r f _ _ _ _ _ hf hp q1 q2 q3 q4]
  have hall : ((List.zip ["A", "B"] [1, 2]).all fun rq =>
      Stockpile.HasResource rq.1 ⟨[("A", 1), ("B", 2), ("C", c)]⟩
        && decide (Stockpile.GetResourceQuantity rq.1 ⟨[("A", 1), ("B", 2), ("C", c)]⟩ ≥ rq.2))
      = true := by
    simp [Stockpile.HasResource, Stockpile.GetResourceQuantity, List.lookup]
  have hdec : decreaseAll (List.zip ["A", "B"] [1, 2]) ⟨[("A", 1), ("B", 2), ("C", c)]⟩
      = ⟨⟨[("A", 1), ("B", 2), ("C", c)]⟩, none⟩ := by
    simp [decreaseAll, Stockpile.DecreaseQuantity, List.lookup, assignEntry]
  have hinc : increaseAll (List.zip ["C"] [3]) ⟨[("A", 1), ("B", 2), ("C", c)]⟩
      = ⟨ledgerABC3, none⟩ := by
    have h3 : ¬ 3 < c := by omega
    simp [increaseAll, Stockpile.IncreaseQuantity, List.lookup, assignEntry, h3, ledgerABC3]
  rw [hall, hdec]
  simp only [if_true, hinc]

/-- C22 (failing input): the one-slot plan `planABC` (Formula `{A:1, B:2} -> {C:3}`) on
the ledger `{A:1, B:2, C:0}`, whatever the byte order and the draws.  The first
ledger-gated application returns normally and leaves `{A:1, B:2, C:3}`: the inputs
are still held at 1 and 2.  The second application, on the resulting plan and
ledger, returns normally too and applies the Formula again: the slot holds the
result of a second `Apply`, whose level is 2 after 1. -/
theorem PlanApplyStockpile_second_application_C22 (bo : ByteOrder) (draws draws2 : Nat → ℚ) :
    (planABC.PlanApplyStockpile bo draws (some ledgerABC0)).thrown = none
      ∧ (planABC.PlanApplyStockpile bo draws (some ledgerABC0)).state.2 = some ledgerABC3
      ∧ (planABC.PlanApplyStockpile bo draws (some ledgerABC0)).state.1.FormulaArray
          = [(Formula.Apply bo (draws 0) formulaABC).state]
      ∧ ((planABC.PlanApplyStockpile bo draws (some ledgerABC0)).state.1.PlanApplyStockpile
            bo draws2 (planABC.PlanApplyStockpile bo draws (some ledgerABC0)).state.2).thrown
          = none
      ∧ ((planABC.PlanApplyStockpile bo draws (some ledgerABC0)).state.1.PlanApplyStockpile
            bo draws2 (planABC.PlanApplyStockpile bo draws (some ledgerABC0)).state.2).state.2
          = some ledgerABC3
      ∧ ((planABC.PlanApplyStockpile bo draws (some ledgerABC0)).state.1.PlanApplyStockpile
            bo draws2
            (planABC.PlanApplyStockpile bo draws (some ledgerABC0)).state.2).state.1.FormulaArray
          = [(Formula.Apply bo (draws2 0) (Formula.Apply bo (draws 0) formulaABC).state).state]
      ∧ (Formula.Apply bo (draws 0) formulaABC).state.ProficiencyLevel = 1
      ∧ (Formula.Apply bo (draws2 0)
            (Formula.Apply bo (draws 0) formulaABC).state).state.ProficiencyLevel = 2 := by
  have hi0 : formulaABC.Initialised := by decide
  have hfr := Apply_frame bo (draws 0) formulaABC
  have hi1 := Apply_Initialised bo (draws 0) formulaABC hi0
  have hp1 : (Formula.Apply bo (draws 0) formulaABC).state.Paired := by
    unfold Formula.Paired
    rw [hfr.2.1, hfr.2.2.2.1, hfr.2.2.2.2.2.1, hfr.2.2.2.2.2.2.2]
    decide
  have hslot1 := applySlot_ABC bo (draws 0) formulaABC 0 (by decide) hi0 (by decide)
    rfl rfl rfl rfl
  have hslot2 := applySlot_ABC bo (draws2 0) (Formula.Apply bo (draws 0) formulaABC).state 3
    (by decide) hi1 hp1 (hfr.1.trans rfl) (hfr.2.2.1.trans rfl) (hfr.2.2.2.2.1.trans rfl)
    (hfr.2.2.2.2.2.2.1.trans rfl)
  have hfirst : planABC.PlanApplyStockpile bo draws (some ledgerABC0)
      = ⟨({ planABC with FormulaArray := [(Formula.Apply bo (draws 0) formulaABC).state] },
           some ledgerABC3), none⟩ := by
    rw [PlanApplyStockpile_single bo draws planABC formulaABC ledgerABC0 rfl rfl]
    unfold ledgerABC0
    rw [hslot1]
    rfl
  have hsecond : ExecutablePlan.PlanApplyStockpile bo draws2 (some ledgerABC3)
        { planABC with FormulaArray := [(Formula.Apply bo (draws 0) formulaABC).state] }
      = ⟨({ planABC with FormulaArray :=
              [(Formula.Apply bo (draws2 0) (Formula.Apply bo (draws 0) formulaABC).state).state] },
           some ledgerABC3), none⟩ := by
    rw [PlanApplyStockpile_single bo draws2
      { planABC with FormulaArray := [(Formula.Apply bo (draws 0) formulaABC).state] }
      (Formula.Apply bo (draws 0) formulaABC).state ledgerABC3 rfl rfl]
    unfold ledgerABC3 at hslot2 ⊢
    rw [hslot2]
    rfl
  obtain ⟨ra, _, heq⟩ := Apply_of_Initialised bo (draws 0) formulaABC hi0
  obtain ⟨ra2, _, heq2⟩ := Apply_of_Initialised bo (draws2 0) _ hi1
  have hl1 : (Formula.Apply bo (draws 0) formulaABC).state.ProficiencyLevel = 1 := by
    rw [heq]
    simp [Formula.IncrementProficiencyLevel, formulaABC]
  have hl2 : (Formula.Apply bo (draws2 0)
      (Formula.Apply bo (draws 0) formulaABC).state).state.ProficiencyLevel = 2 := by
    rw [heq2]
    dsimp only
    rw [hl1]
    simp [Formula.IncrementProficiencyLevel]
  rw [hfirst]
  dsimp only
  rw [hsecond]
  exact ⟨rfl, rfl, rfl, rfl, rfl, rfl, hl1, hl2⟩

/-- C21: for every plan whose cells in use hold Formulas with arrays of the stated,
paired sizes, every ledger, byte order and draws.  A slot one of whose input
names is not a key of the ledger, or is held below the required quantity, goes
through the loop body without error, with its Formula (result array and level
included) and the ledger as they were, and the loop goes on to the next slot
from the same plan and ledger.  If every slot in use is such a slot, the call
returns normally with the plan and the ledger unchanged. -/
theorem PlanApplyStockpile_skips_insufficient_C21 (bo : ByteOrder) (draws : Nat → ℚ)
    (xp : ExecutablePlan) (hwf : xp.SlotsSized) :
    (∀ (s : Stockpile) (j : Nat) (f : Formula), j < xp.Size → xp.FormulaArray[j]? = some f →
        insufficientFor s f = true →
        ExecutablePlan.applySlot bo (draws j) f s = ⟨(f, s), none⟩
          ∧ ∀ k, ExecutablePlan.PlanApplyLoop bo draws (k + 1) j (xp, s)
              = ExecutablePlan.PlanApplyLoop bo draws k (j + 1) (xp, s))
      ∧ (∀ s : Stockpile,
          (∀ (j : Nat) (f : Formula), j < xp.Size → xp.FormulaArray[j]? = some f →
            insufficientFor s f = true) →
          xp.PlanApplyStockpile bo draws (some s) = ⟨(xp, some s), none⟩) := by
  constructor
  · intro s j f hj hslot hins
    obtain ⟨g, hg, hs, hp⟩ := hwf j hj
    rw [hslot] at hg
    cases hg
    have hbody := applySlot_insufficient bo (draws j) f s hs hp hins
    refine ⟨hbody, ?_⟩
    intro k
    have hset : xp.FormulaArray.set j f = xp.FormulaArray := by
      apply List.ext_getElem?
      intro n
      by_cases hn : j = n
      · subst hn
        rw [hslot]
        have hlt : j < xp.FormulaArray.length := by
          rcases Nat.lt_or_ge j xp.FormulaArray.length with h1 | h1
          · exact h1
          · rw [List.getElem?_eq_none h1] at hslot; cases hslot
        simp [hlt]
      · rw [List.getElem?_set_ne hn]
    conv_lhs => unfold ExecutablePlan.PlanApplyLoop
    rw [hslot]
    dsimp only
    rw [hbody]
    dsimp only
    rw [hset]
  · intro s hall
    have hloop := PlanApplyLoop_all_insufficient bo draws s xp.Size 0 xp (by
      intro j _ hj
      obtain ⟨f, hf, hs, hp⟩ := hwf j (by omega)
      exact ⟨f, hf, hs, hp, hall j f (by omega) hf⟩)
    unfold ExecutablePlan.PlanApplyStockpile
    dsimp only
    rw [hloop]

/-- Witness of C21: on the ledger `{A:0, B:2}` the one-slot plan `planABC`, whose
Formula needs `A:1`, comes back unchanged with the ledger unchanged. -/
theorem PlanApplyStockpile_skips_insufficient_C21_witness :
    planABC.PlanApplyStockpile ByteOrder.little constDraws (some ⟨[("A", 0), ("B", 2)]⟩)
      = ⟨(planABC, some ⟨[("A", 0), ("B", 2)]⟩), none⟩ :=
  (PlanApplyStockpile_skips_insufficient_C21 ByteOrder.little constDraws planABC
    (by
      intro j hj
      have hj0 : j = 0 := by
        have : j < 1 := hj
        omega
      subst hj0
      exact ⟨formulaABC, rfl, by decide, by decide⟩)).2 ⟨[("A", 0), ("B", 2)]⟩
    (by
      intro j f hj hslot
      have hj0 : j = 0 := by
        have : j < 1 := hj
        omega
      subst hj0
      have hf : f = formulaABC := by
        have : some formulaABC = some f := hslot
        exact (Option.some.inj this).symm
      subst hf
      decide)

/-- C23 (counterexample): the one-slot plan `planABC` holds an initialised Formula, and
with a present ledger the ledger-gated apply still fails: on `{A:1, B:2, C:10}` it is
left by the `runtime_error` of `IncreaseQuantity ("C", 3)`, and on `{A:1, B:2}` by the
read of the missing name `C`. -/
theorem PlanApplyStockpile_present_ledger_fails_C23 :
    (∀ j f, j < planABC.Size → planABC.FormulaArray[j]? = some f → f.Initialised)
      ∧ (planABC.PlanApplyStockpile ByteOrder.little constDraws
            (some ⟨[("A", 1), ("B", 2), ("C", 10)]⟩)).thrown = some Exn.runtime_error
      ∧ (planABC.PlanApplyStockpile ByteOrder.little constDraws
            (some ⟨[("A", 1), ("B", 2)]⟩)).thrown = some Exn.undefined := by
  have hslot := fun s => applySlot_of_Initialised ByteOrder.little (constDraws 0) formulaABC s
    ["A", "B"] [1, 2] ["C"] [3] (by decide) (by decide) rfl rfl rfl rfl
  refine ⟨?_, ?_, ?_⟩
  · intro j f hj hf
    have hj0 : j = 0 := by
      have : j < 1 := hj
      omega
    subst hj0
    have : some formulaABC = some f := hf
    cases this
    decide
  · rw [PlanApplyStockpile_single ByteOrder.little constDraws planABC formulaABC _ rfl rfl,
      hslot]
    rfl
  · rw [PlanApplyStockpile_single ByteOrder.little constDraws planABC formulaABC _ rfl rfl,
      hslot]
    rfl

/-- C28: for every Formula (initialised or not), byte order and draw, `Apply` leaves the
input names, input quantities, output names and output quantities and the four
size members as they were. -/
theorem Apply_frame_C28 (bo : ByteOrder) (r : ℚ) (f : Formula) :
    (Formula.Apply bo r f).state.InputResources = f.InputResources
      ∧ (Formula.Apply bo r f).state.InputResourcesSize = f.InputResourcesSize
      ∧ (Formula.Apply bo r f).state.InputQuantities = f.InputQuantities
      ∧ (Formula.Apply bo r f).state.InputQuantitiesSize = f.InputQuantitiesSize
      ∧ (Formula.Apply bo r f).state.OutputResources = f.OutputResources
      ∧ (Formula.Apply bo r f).state.OutputResourcesSize = f.OutputResourcesSize
      ∧ (Formula.Apply bo r f).state.OutputQuantities = f.OutputQuantities
      ∧ (Formula.Apply bo r f).state.OutputQuantitiesSize = f.OutputQuantitiesSize :=
  Apply_frame bo r f

/-- C29 (failing input): move construction from any source, `formulaABC` for one,
leaves the new Formula in the default state (null arrays, sizes 0, level 0), and
the source as well: the new Formula does not hold the data of `formulaABC`. -/
theorem Formula_moveCtor_empties_both_C29 :
    (∀ other : Formula, Formula.moveCtor other = (Formula.default, Formula.default))
      ∧ (Formula.moveCtor formulaABC).1.InputResources = none
      ∧ (Formula.moveCtor formulaABC).1.OutputQuantities = none
      ∧ (Formula.moveCtor formulaABC).1 ≠ formulaABC := by
  refine ⟨fun other => rfl, rfl, rfl, by decide⟩

/-! ## Copy isolation on the store of flag arrays -/

/-- `PlanApply ()` on an object keeps the address of its flag array and writes the
store at that address only. -/
theorem PlanApplyObj_frame (bo : ByteOrder) (r : ℚ) (st : BoolStore × ExecutablePlanObj) :
    (ExecutablePlanObj.PlanApply bo r st).state.2.CompletedArray = st.2.CompletedArray
      ∧ ∀ a, a ≠ st.2.CompletedArray →
          (ExecutablePlanObj.PlanApply bo r st).state.1.cells[a]? = st.1.cells[a]? := by
  unfold ExecutablePlanObj.PlanApply
  cases ExecutablePlanObj.load st.1 st.2 with
  | none => exact ⟨rfl, fun _ _ => rfl⟩
  | some xp =>
    refine ⟨rfl, ?_⟩
    intro a ha
    dsimp only
    rw [List.getElem?_set_ne (Ne.symm ha)]

/-- A sequence of `PlanApply ()` calls on an object keeps the address of its flag array
and writes the store at that address only. -/
theorem PlanApplyNObj_frame (bo : ByteOrder) (draws : Nat → ℚ) (k : Nat)
    (st : BoolStore × ExecutablePlanObj) :
    (ExecutablePlanObj.PlanApplyN bo draws k st).state.2.CompletedArray = st.2.CompletedArray
      ∧ ∀ a, a ≠ st.2.CompletedArray →
          (ExecutablePlanObj.PlanApplyN bo draws k st).state.1.cells[a]? = st.1.cells[a]? := by
  induction k with
  | zero => exact ⟨rfl, fun _ _ => rfl⟩
  | succ k ih =>
    unfold ExecutablePlanObj.PlanApplyN
    dsimp only
    cases ht : (ExecutablePlanObj.PlanApplyN bo draws k st).thrown with
    | some e => exact ih
    | none =>
      dsimp only
      obtain ⟨h1, h2⟩ := PlanApplyObj_frame bo (draws k)
        (ExecutablePlanObj.PlanApplyN bo draws k st).state
      refine ⟨h1.trans ih.1, ?_⟩
      intro a ha
      rw [h2 a (by rw [ih.1]; exact ha)]
      exact ih.2 a ha

/-- The copy constructor of `Plan` on a plan whose cells in use lie in the allocation
and hold sized Formulas. -/
theorem CopyPlanData_of_Sized (p : Plan) (h1 : p.Size ≤ p.FormulaArray.length)
    (h2 : p.Size ≤ p.Capacity) (h3 : ∀ f ∈ p.FormulaArray.take p.Size, f.Sized) :
    Plan.CopyPlanData p =
      some { FormulaArray := p.FormulaArray.take p.Size
                ++ (List.replicate p.Capacity Formula.default).drop p.Size,
             Size := p.Size, Capacity := p.Capacity } := by
  have hcopy := copyFormulas_of_Sized (p.FormulaArray.take p.Size) h3
  unfold Plan.CopyPlanData assignFormulas
  simp [h1, h2, hcopy]

/-- C30: for every object in a store that stands for a plan `xp` whose cells in use lie
in the allocation (`Size` within the allocation and the capacity) and hold
Formulas with arrays of the stated sizes, and whose flags in use lie in the flag
array.  The copy constructor returns an object with a flag array of its own;
the copy has the size, the Formulas in use, the `Step`, the flag count and the
flags in use of `xp`; and after any number of `PlanApply ()` calls on the copy,
whatever the draws, the original object still stands for `xp`: its `Step` and
flags are what they were. -/
theorem copy_isolation_C30 (bo : ByteOrder) (draws : Nat → ℚ) (st : BoolStore)
    (o : ExecutablePlanObj) (xp : ExecutablePlan)
    (hload : ExecutablePlanObj.load st o = some xp)
    (h1 : xp.Size ≤ xp.FormulaArray.length) (h2 : xp.Size ≤ xp.Capacity)
    (h3 : ∀ f ∈ xp.FormulaArray.take xp.Size, f.Sized)
    (h4 : xp.CompletedArraySize ≤ xp.CompletedArray.length) :
    ∃ st1 c xc, ExecutablePlanObj.copyCtor st o = some (st1, c)
      ∧ ExecutablePlanObj.load st1 c = some xc
      ∧ c.CompletedArray ≠ o.CompletedArray
      ∧ xc.Size = xp.Size
      ∧ xc.FormulaArray.take xc.Size = xp.FormulaArray.take xp.Size
      ∧ xc.Step = xp.Step
      ∧ xc.CompletedArraySize = xp.CompletedArraySize
      ∧ xc.CompletedArray = xp.CompletedArray.take xp.CompletedArraySize
      ∧ ∀ k, ExecutablePlanObj.load
            (ExecutablePlanObj.PlanApplyN bo draws k (st1, c)).state.1 o = some xp := by
  unfold ExecutablePlanObj.load at hload
  cases hflags : st.cells[o.CompletedArray]? with
  | none => rw [hflags] at hload; cases hload
  | some flags =>
    rw [hflags] at hload
    have hxp : xp = { toPlan := o.toPlan, Step := o.Step, CompletedArray := flags,
                      CompletedArraySize := o.CompletedArraySize } :=
      (Option.some.inj hload).symm
    subst hxp
    dsimp only at h1 h2 h3 h4
    have haddr : o.CompletedArray < st.cells.length := by
      rcases Nat.lt_or_ge o.CompletedArray st.cells.length with h | h
      · exact h
      · rw [List.getElem?_eq_none h] at hflags; cases hflags
    have hplan := CopyPlanData_of_Sized o.toPlan h1 h2 h3
    have hfresh : copyArray o.CompletedArraySize (some flags)
        = some (flags.take o.CompletedArraySize) := by
      simp [copyArray, h4]
    refine ⟨{ cells := st.cells ++ [flags.take o.CompletedArraySize] },
      { toPlan := { FormulaArray := o.FormulaArray.take o.Size
                      ++ (List.replicate o.Capacity Formula.default).drop o.Size,
                    Size := o.Size, Capacity := o.Capacity },
        Step := o.Step, CompletedArray := st.cells.length,
        CompletedArraySize := o.CompletedArraySize },
      { toPlan := { FormulaArray := o.FormulaArray.take o.Size
                      ++ (List.replicate o.Capacity Formula.default).drop o.Size,
                    Size := o.Size, Capacity := o.Capacity },
        Step := o.Step, CompletedArray := flags.take o.CompletedArraySize,
        CompletedArraySize := o.CompletedArraySize }, ?_, ?_, ?_, rfl, ?_, rfl, rfl, rfl, ?_⟩
    · unfold ExecutablePlanObj.copyCtor
      rw [hflags]
      dsimp only
      rw [hplan, hfresh]
    · unfold ExecutablePlanObj.load
      simp
    · exact Nat.ne_of_gt haddr
    · dsimp only
      rw [List.take_append_of_le_length (by simp [h1])]
      simp
    · intro k
      obtain ⟨_, hk⟩ := PlanApplyNObj_frame bo draws k
        ({ cells := st.cells ++ [flags.take o.CompletedArraySize] },
          { toPlan := { FormulaArray := o.FormulaArray.take o.Size
                          ++ (List.replicate o.Capacity Formula.default).drop o.Size,
                        Size := o.Size, Capacity := o.Capacity },
            Step := o.Step, CompletedArray := st.cells.length,
            CompletedArraySize := o.CompletedArraySize })
      have := hk o.CompletedArray (Nat.ne_of_lt haddr)
      dsimp only at this
      rw [List.getElem?_append_left haddr, hflags] at this
      unfold ExecutablePlanObj.load
      rw [this]

/-- On `storeABC` the copy of `objABC` gets its own flag array at address 1, and one
`PlanApply ()` on the copy moves the copy to Step 1 with its flag set. -/
theorem copyABC_advances (bo : ByteOrder) (draws : Nat → ℚ) :
    ExecutablePlanObj.copyCtor storeABC objABC
        = some (⟨[[false], [false]]⟩, { objABC with CompletedArray := 1 })
      ∧ (ExecutablePlanObj.PlanApplyN bo draws 1
          (⟨[[false], [false]]⟩, { objABC with CompletedArray := 1 })).state.1
        = ⟨[[false], [true]]⟩
      ∧ (ExecutablePlanObj.PlanApplyN bo draws 1
          (⟨[[false], [false]]⟩, { objABC with CompletedArray := 1 })).state.2.Step = 1 := by
  have hstep := PlanApply_step bo (draws 0) planABC formulaABC (by decide) (by decide)
    (by decide) rfl (by decide)
  have hload : ExecutablePlanObj.load ⟨[[false], [false]]⟩ { objABC with CompletedArray := 1 }
      = some planABC := rfl
  have happly : ExecutablePlanObj.PlanApplyN bo draws 1
      (⟨[[false], [false]]⟩, { objABC with CompletedArray := 1 })
      = ExecutablePlanObj.PlanApply bo (draws 0)
          (⟨[[false], [false]]⟩, { objABC with CompletedArray := 1 }) := rfl
  refine ⟨rfl, ?_, ?_⟩
  · rw [happly]
    unfold ExecutablePlanObj.PlanApply
    rw [hload]
    dsimp only
    rw [hstep]
    rfl
  · rw [happly]
    unfold ExecutablePlanObj.PlanApply
    rw [hload]
    dsimp only
    rw [hstep]
    simp [planABC, UINT_MOD]

/-- Witness of C30: the object `objABC` in `storeABC` stands for `planABC`; its copy has
the data of `planABC` and no sequence of `PlanApply ()` calls on the copy changes
what `objABC` stands for. -/
theorem copy_isolation_C30_witness :
    ExecutablePlanObj.load storeABC objABC = some planABC
      ∧ ∃ st1 c xc, ExecutablePlanObj.copyCtor storeABC objABC = some (st1, c)
        ∧ ExecutablePlanObj.load st1 c = some xc
        ∧ c.CompletedArray ≠ objABC.CompletedArray
        ∧ xc.Size = planABC.Size
        ∧ xc.FormulaArray.take xc.Size = planABC.FormulaArray.take planABC.Size
        ∧ xc.Step = planABC.Step
        ∧ xc.CompletedArraySize = planABC.CompletedArraySize
        ∧ xc.CompletedArray = planABC.CompletedArray.take planABC.CompletedArraySize
        ∧ ∀ k, ExecutablePlanObj.load
              (ExecutablePlanObj.PlanApplyN ByteOrder.little constDraws k (st1, c)).state.1 objABC
            = some planABC :=
  ⟨rfl, copy_isolation_C30 ByteOrder.little constDraws storeABC objABC planABC rfl
    (by decide) (by decide) (by decide) (by decide)⟩

/-! ## The tiers of Apply and the modifiers -/

/-- C40: in exact arithmetic, for every level `L` (0..5 and beyond) the four modifiers
returned by `GetOutcomeChances (L)` add up to 1. -/
theorem GetOutcomeChances_sum_C40 (L : Nat) :
    (Formula.GetOutcomeChances L).Failure + (Formula.GetOutcomeChances L).Partial
      + (Formula.GetOutcomeChances L).Bonus + (Formula.GetOutcomeChances L).Normal = 1 := by
  unfold Formula.GetOutcomeChances
  by_cases hL : L = 0
  · simp only [hL, if_true]
    norm_num
  · simp only [hL, if_false]
    ring

/-- The modifiers of level `L` in closed form. -/
theorem GetOutcomeChances_closed (L : Nat) :
    (Formula.GetOutcomeChances L).Failure = 1 / 4 - (L : ℚ) / 20
      ∧ (Formula.GetOutcomeChances L).Partial = 1 / 5 - (L : ℚ) / 20
      ∧ (Formula.GetOutcomeChances L).Bonus = 1 / 20 + (L : ℚ) / 20
      ∧ (Formula.GetOutcomeChances L).Normal = 1 / 2 + (L : ℚ) / 20 := by
  unfold Formula.GetOutcomeChances
  by_cases hL : L = 0
  · subst hL
    simp only [if_true]
    norm_num
  · simp only [hL, if_false]
    refine ⟨?_, ?_, ?_, ?_⟩ <;> ring

/-- C34: in exact arithmetic.  At level 0 no two of the four tier tests hold for the
same draw.  At every level 1..5 the two-decimal draw 0.50 satisfies the Bonus and
the Normal test.  At every level 0..5 and for every draw in `[0, 1]` no other pair
of tests holds together.  For every initialised Formula and every draw that
satisfies the Bonus and the Normal test, `Apply` returns normally with the result
array equal to the output quantities: the Normal branch, run last, wins. -/
theorem Apply_tier_overlap_C34 (bo : ByteOrder) :
    (∀ r : ℚ,
        ¬ (Formula.FailureTest r (Formula.GetOutcomeChances 0)
            ∧ Formula.PartialTest r (Formula.GetOutcomeChances 0))
          ∧ ¬ (Formula.FailureTest r (Formula.GetOutcomeChances 0)
            ∧ Formula.BonusTest r (Formula.GetOutcomeChances 0))
          ∧ ¬ (Formula.FailureTest r (Formula.GetOutcomeChances 0)
            ∧ Formula.NormalTest r (Formula.GetOutcomeChances 0))
          ∧ ¬ (Formula.PartialTest r (Formula.GetOutcomeChances 0)
            ∧ Formula.BonusTest r (Formula.GetOutcomeChances 0))
          ∧ ¬ (Formula.PartialTest r (Formula.GetOutcomeChances 0)
            ∧ Formula.NormalTest r (Formula.GetOutcomeChances 0))
          ∧ ¬ (Formula.BonusTest r (Formula.GetOutcomeChances 0)
            ∧ Formula.NormalTest r (Formula.GetOutcomeChances 0)))
      ∧ (∀ L : Nat, 1 ≤ L → L ≤ 5 →
          Formula.BonusTest (50 / 100) (Formula.GetOutcomeChances L)
            ∧ Formula.NormalTest (50 / 100) (Formula.GetOutcomeChances L))
      ∧ (∀ (L : Nat) (r : ℚ), L ≤ 5 → 0 ≤ r → r ≤ 1 →
          ¬ (Formula.FailureTest r (Formula.GetOutcomeChances L)
              ∧ Formula.PartialTest r (Formula.GetOutcomeChances L))
            ∧ ¬ (Formula.FailureTest r (Formula.GetOutcomeChances L)
              ∧ Formula.BonusTest r (Formula.GetOutcomeChances L))
            ∧ ¬ (Formula.FailureTest r (Formula.GetOutcomeChances L)
              ∧ Formula.NormalTest r (Formula.GetOutcomeChances L))
            ∧ ¬ (Formula.PartialTest r (Formula.GetOutcomeChances L)
              ∧ Formula.BonusTest r (Formula.GetOutcomeChances L))
            ∧ ¬ (Formula.PartialTest r (Formula.GetOutcomeChances L)
              ∧ Formula.NormalTest r (Formula.GetOutcomeChances L)))
      ∧ (∀ (r : ℚ) (f : Formula) (outQ : List Nat), f.Initialised →
          f.OutputQuantities = some outQ →
          Formula.BonusTest r (Formula.GetOutcomeChances f.ProficiencyLevel) →
          Formula.NormalTest r (Formula.GetOutcomeChances f.ProficiencyLevel) →
          (Formula.Apply bo r f).thrown = none
            ∧ (Formula.Apply bo r f).state.ResultArray = some outQ) := by
  refine ⟨?_, ?_, ?_, ?_⟩
  · intro r
    obtain ⟨hF, hP, hB, hN⟩ := GetOutcomeChances_closed 0
    unfold Formula.FailureTest Formula.PartialTest Formula.BonusTest Formula.NormalTest
    rw [hF, hP, hB, hN]
    norm_num
    refine ⟨?_, ?_, ?_, ?_, ?_, ?_⟩ <;> intros <;> linarith
  · intro L h1 h5
    obtain ⟨hF, hP, hB, hN⟩ := GetOutcomeChances_closed L
    have c1 : (1 : ℚ) ≤ (L : ℚ) := by exact_mod_cast h1
    have c5 : (L : ℚ) ≤ 5 := by exact_mod_cast h5
    unfold Formula.BonusTest Formula.NormalTest
    rw [hF, hP, hB, hN]
    refine ⟨⟨?_, ?_⟩, ⟨?_, ?_⟩⟩ <;> linarith
  · intro L r h5 h0 h1
    obtain ⟨hF, hP, hB, hN⟩ := GetOutcomeChances_closed L
    have c0 : (0 : ℚ) ≤ (L : ℚ) := Nat.cast_nonneg L
    have c5 : (L : ℚ) ≤ 5 := by exact_mod_cast h5
    unfold Formula.FailureTest Formula.PartialTest Formula.BonusTest Formula.NormalTest
    rw [hF, hP, hB, hN]
    refine ⟨?_, ?_, ?_, ?_, ?_⟩ <;> rintro ⟨ha, hb⟩ <;> rcases hb with ⟨hb1, hb2⟩
    · linarith
    · rcases Nat.lt_or_ge L 5 with h4 | h4
      · have c4 : (L : ℚ) ≤ 4 := by exact_mod_cast Nat.lt_succ_iff.1 h4
        linarith
      · have e5 : (L : ℚ) = 5 := by exact_mod_cast Nat.le_antisymm h5 h4
        rw [e5] at ha
        linarith
    · linarith
    · linarith [ha.2]
    · linarith [ha.2]
  · intro r f outQ hf hq _ hN
    obtain ⟨v, rest, hra⟩ := Initialised_result_cons f hf
    rw [Apply_eq_of_Initialised bo r f outQ v rest hf hq hra]
    unfold Formula.NormalTest at hN
    refine ⟨rfl, ?_⟩
    dsimp only
    rw [if_pos hN]

/-- Witness of C34: at level 1 the draw 0.50 satisfies the Bonus and the Normal test,
and `Apply` on `{A:1, B:2} -> {C:3}` at that level leaves the result array `[3]`. -/
theorem Apply_tier_overlap_C34_witness :
    Formula.BonusTest (50 / 100) (Formula.GetOutcomeChances 1)
      ∧ Formula.NormalTest (50 / 100) (Formula.GetOutcomeChances 1)
      ∧ (Formula.Apply ByteOrder.little (50 / 100)
          { formulaABC with ProficiencyLevel := 1 }).state.ResultArray = some [3] :=
  ⟨((Apply_tier_overlap_C34 ByteOrder.little).2.1 1 (by decide) (by decide)).1,
    ((Apply_tier_overlap_C34 ByteOrder.little).2.1 1 (by decide) (by decide)).2,
    ((Apply_tier_overlap_C34 ByteOrder.little).2.2.2 (50 / 100)
      { formulaABC with ProficiencyLevel := 1 } [3] (by decide) rfl
      ((Apply_tier_overlap_C34 ByteOrder.little).2.1 1 (by decide) (by decide)).1
      ((Apply_tier_overlap_C34 ByteOrder.little).2.1 1 (by decide) (by decide)).2).2⟩

/-! ## Plan equality and the index range of ReplaceFormula -/

/-- The loop of `PlanArraysAreEqual` never yields `true`. -/
theorem PlanArraysLoop_ne_true (p q : Plan) (k : Nat) :
    ∀ i, Plan.PlanArraysLoop p q k i ≠ some true := by
  induction k with
  | zero => intro i h; cases h
  | succ k ih =>
    intro i
    unfold Plan.PlanArraysLoop
    split
    · split
      · intro h; cases h
      · intro h; cases h
      · exact ih (i + 1)
    · intro h; cases h

/-- C33 (failing input): for all Plans `p`, `q` the function `PlanArraysAreEqual` never
returns `true`, so `p == q` never returns `true` and `p != q` never returns `false`.  For
the Plan of `planABC`, whose one Formula equals itself under `Formula::operator==`,
`p == p` returns `false` and `p != p` returns `true`. -/
theorem Plan_equality_never_true_C33 :
    (∀ p q : Plan, Plan.PlanArraysAreEqual p q ≠ some true ∧ Plan.operatorEq p q ≠ some true
        ∧ Plan.operatorNe p q ≠ some false)
      ∧ Formula.operatorEq formulaABC formulaABC = some true
      ∧ Plan.operatorEq planABC.toPlan planABC.toPlan = some false
      ∧ Plan.operatorNe planABC.toPlan planABC.toPlan = some true := by
  refine ⟨?_, by decide, by decide, by decide⟩
  intro p q
  have h := PlanArraysLoop_ne_true p q p.Size 0
  have h1 : Plan.PlanArraysAreEqual p q ≠ some true := h
  have h2 : Plan.operatorNe p q ≠ some false := by
    unfold Plan.operatorNe
    split
    · intro h; cases h
    · rename_i heq
      exact absurd heq h1
    · intro h; cases h
  refine ⟨h1, ?_, h2⟩
  unfold Plan.operatorEq
  split
  · rename_i b heq
    intro hb
    have : b = false := by
      cases b
      · rfl
      · cases hb
    subst this
    exact h2 heq
  · intro h; cases h

/-- C32 (failing input): for every Plan and Formula, `ReplaceFormula` at `Index = Size`
does not throw `out_of_range`.  On the default Plan (size 0, capacity 2) the call
with index 0 returns normally and has written the Formula into cell 0; on the
Plan of `planABC` (size 1, capacity 1) the call with index 1 writes outside the
allocation. -/
theorem Plan_ReplaceFormula_index_size_C32 :
    (∀ (p : Plan) (f : Formula),
        (Plan.ReplaceFormula f p.Size p).thrown ≠ some Exn.out_of_range)
      ∧ Plan.ReplaceFormula formulaABC 0 Plan.default
          = ⟨{ FormulaArray := [formulaABC, Formula.default], Size := 0, Capacity := 2 }, none⟩
      ∧ (Plan.ReplaceFormula formulaABC 1 planABC.toPlan).thrown = some Exn.undefined := by
  refine ⟨?_, rfl, rfl⟩
  intro p f
  unfold Plan.ReplaceFormula
  rw [if_neg (Nat.lt_irrefl _)]
  split
  · intro h; cases h
  · intro h; cases h

/-- `Plan::ReplaceFormula` outside `[0, Size]` and inside `[0, Size - 1]`. -/
theorem Plan_ReplaceFormula_other_indices (p : Plan) (f : Formula) (Index : Nat) :
    (p.Size < Index → Plan.ReplaceFormula f Index p = ⟨p, some Exn.out_of_range⟩)
      ∧ (Index < p.Size → p.Size ≤ p.FormulaArray.length → f.Sized →
          Plan.ReplaceFormula f Index p
            = ⟨{ p with FormulaArray := p.FormulaArray.set Index f }, none⟩) := by
  constructor
  · intro h
    unfold Plan.ReplaceFormula
    rw [if_pos h]
  · intro h hlen hf
    unfold Plan.ReplaceFormula assignFormulaAt
    rw [if_neg (by omega), if_pos (by omega), CopyData_of_Sized f hf]

/-! ## Ledger-gated apply: frame, failures and absolute quantities -/

/-- The loop of the ledger-gated apply writes no member of the plan but the cells of
`FormulaArray`. -/
theorem PlanApplyLoop_frame (bo : ByteOrder) (draws : Nat → ℚ) (k : Nat) :
    ∀ (i : Nat) (xp : ExecutablePlan) (s : Stockpile),
      (ExecutablePlan.PlanApplyLoop bo draws k i (xp, s)).state.1.Step = xp.Step
        ∧ (ExecutablePlan.PlanApplyLoop bo draws k i (xp, s)).state.1.CompletedArray
            = xp.CompletedArray
        ∧ (ExecutablePlan.PlanApplyLoop bo draws k i (xp, s)).state.1.CompletedArraySize
            = xp.CompletedArraySize
        ∧ (ExecutablePlan.PlanApplyLoop bo draws k i (xp, s)).state.1.Size = xp.Size
        ∧ (ExecutablePlan.PlanApplyLoop bo draws k i (xp, s)).state.1.Capacity = xp.Capacity := by
  induction k with
  | zero => intro i xp s; exact ⟨rfl, rfl, rfl, rfl, rfl⟩
  | succ k ih =>
    intro i xp s
    unfold ExecutablePlan.PlanApplyLoop
    cases hslot : xp.FormulaArray[i]? with
    | none => exact ⟨rfl, rfl, rfl, rfl, rfl⟩
    | some f =>
      dsimp only
      cases ht : (ExecutablePlan.applySlot bo (draws i) f s).thrown with
      | some e => exact ⟨rfl, rfl, rfl, rfl, rfl⟩
      | none => exact ih _ _ _

/-- The loop of the ledger-gated apply reads no member of the plan but the cells of
`FormulaArray`. -/
theorem PlanApplyLoop_reads_formulas (bo : ByteOrder) (draws : Nat → ℚ) (k : Nat) :
    ∀ (i : Nat) (xp xq : ExecutablePlan) (s : Stockpile),
      xp.FormulaArray = xq.FormulaArray →
      (ExecutablePlan.PlanApplyLoop bo draws k i (xp, s)).state.1.FormulaArray
          = (ExecutablePlan.PlanApplyLoop bo draws k i (xq, s)).state.1.FormulaArray
        ∧ (ExecutablePlan.PlanApplyLoop bo draws k i (xp, s)).state.2
          = (ExecutablePlan.PlanApplyLoop bo draws k i (xq, s)).state.2
        ∧ (ExecutablePlan.PlanApplyLoop bo draws k i (xp, s)).thrown
          = (ExecutablePlan.PlanApplyLoop bo draws k i (xq, s)).thrown := by
  induction k with
  | zero => intro i xp xq s h; exact ⟨h, rfl, rfl⟩
  | succ k ih =>
    intro i xp xq s h
    unfold ExecutablePlan.PlanApplyLoop
    rw [← h]
    cases hslot : xp.FormulaArray[i]? with
    | none => exact ⟨h, rfl, rfl⟩
    | some f =>
      dsimp only
      cases ht : (ExecutablePlan.applySlot bo (draws i) f s).thrown with
      | some e => exact ⟨rfl, rfl, rfl⟩
      | none => exact ih _ _ _ _ rfl

/-- C38: for every byte order, draws, ledger handle and plan, the ledger-gated apply
leaves `Step`, the flag array and the flag count as they were; the Formulas,
the ledger and the error it leaves do not depend on `Step` nor on the flags.
On `planABC`: after `PlanApply ()` has completed slot 0, a ledger-gated apply on
`{A:1, B:2, C:0}` applies the Formula of slot 0 again; and after a ledger-gated
apply, `PlanApply ()` returns normally and applies the Formula of slot 0 again. -/
theorem PlanApplyStockpile_ignores_flags_C38 (bo : ByteOrder) (draws : Nat → ℚ) :
    (∀ (StockpilePtr : Option Stockpile) (xp : ExecutablePlan),
        (xp.PlanApplyStockpile bo draws StockpilePtr).state.1.Step = xp.Step
          ∧ (xp.PlanApplyStockpile bo draws StockpilePtr).state.1.CompletedArray
              = xp.CompletedArray
          ∧ (xp.PlanApplyStockpile bo draws StockpilePtr).state.1.CompletedArraySize
              = xp.CompletedArraySize)
      ∧ (∀ (StockpilePtr : Option Stockpile) (xp : ExecutablePlan) (Step_ : Nat)
          (CompletedArray_ : List Bool) (CompletedArraySize_ : Nat),
          (ExecutablePlan.PlanApplyStockpile bo draws StockpilePtr
              { xp with Step := Step_, CompletedArray := CompletedArray_,
                        CompletedArraySize := CompletedArraySize_ }).state.1.FormulaArray
            = (xp.PlanApplyStockpile bo draws StockpilePtr).state.1.FormulaArray
          ∧ (ExecutablePlan.PlanApplyStockpile bo draws StockpilePtr
              { xp with Step := Step_, CompletedArray := CompletedArray_,
                        CompletedArraySize := CompletedArraySize_ }).state.2
            = (xp.PlanApplyStockpile bo draws StockpilePtr).state.2
          ∧ (ExecutablePlan.PlanApplyStockpile bo draws StockpilePtr
              { xp with Step := Step_, CompletedArray := CompletedArray_,
                        CompletedArraySize := CompletedArraySize_ }).thrown
            = (xp.PlanApplyStockpile bo draws StockpilePtr).thrown)
      ∧ (∀ r : ℚ,
          (planABC.PlanApply bo r).state.CompletedArray = [true]
            ∧ (ExecutablePlan.PlanApplyStockpile bo draws (some ledgerABC0)
                (planABC.PlanApply bo r).state).thrown = none
            ∧ (ExecutablePlan.PlanApplyStockpile bo draws (some ledgerABC0)
                (planABC.PlanApply bo r).state).state.1.FormulaArray
              = [(Formula.Apply bo (draws 0) (Formula.Apply bo r formulaABC).state).state])
      ∧ (∀ r : ℚ,
          (ExecutablePlan.PlanApply bo r
              (planABC.PlanApplyStockpile bo draws (some ledgerABC0)).state.1).thrown = none
            ∧ (ExecutablePlan.PlanApply bo r
                (planABC.PlanApplyStockpile bo draws (some ledgerABC0)).state.1).state.FormulaArray
              = [(Formula.Apply bo r (Formula.Apply bo (draws 0) formulaABC).state).state]) := by
  have hi0 : formulaABC.Initialised := by decide
  have hABC : ∀ (r r2 : ℚ) (c : Nat), c ≤ 3 →
      ExecutablePlan.applySlot bo r2 (Formula.Apply bo r formulaABC).state
          ⟨[("A", 1), ("B", 2), ("C", c)]⟩
        = ⟨((Formula.Apply bo r2 (Formula.Apply bo r formulaABC).state).state, ledgerABC3),
            none⟩ := by
    intro r r2 c hc
    have hfr := Apply_frame bo r formulaABC
    have hi1 := Apply_Initialised bo r formulaABC hi0
    have hp1 : (Formula.Apply bo r formulaABC).state.Paired := by
      unfold Formula.Paired
      rw [hfr.2.1, hfr.2.2.2.1, hfr.2.2.2.2.2.1, hfr.2.2.2.2.2.2.2]
      decide
    exact applySlot_ABC bo r2 (Formula.Apply bo r formulaABC).state c hc hi1 hp1
      (hfr.1.trans rfl) (hfr.2.2.1.trans rfl) (hfr.2.2.2.2.1.trans rfl)
      (hfr.2.2.2.2.2.2.1.trans rfl)
  refine ⟨?_, ?_, ?_, ?_⟩
  · intro ptr xp
    cases ptr with
    | none => exact ⟨rfl, rfl, rfl⟩
    | some s =>
      obtain ⟨h1, h2, h3, _, _⟩ := PlanApplyLoop_frame bo draws xp.Size 0 xp s
      exact ⟨h1, h2, h3⟩
  · intro ptr xp st fl n
    cases ptr with
    | none => exact ⟨rfl, rfl, rfl⟩
    | some s =>
      obtain ⟨h1, h2, h3⟩ := PlanApplyLoop_reads_formulas bo draws xp.Size 0
        { xp with Step := st, CompletedArray := fl, CompletedArraySize := n } xp s rfl
      unfold ExecutablePlan.PlanApplyStockpile
      dsimp only
      exact ⟨h1, by rw [h2], h3⟩
  · intro r
    have hstep := PlanApply_step bo r planABC formulaABC (by decide) (by decide)
      (by decide) rfl hi0
    rw [hstep]
    refine ⟨rfl, ?_⟩
    rw [PlanApplyStockpile_single bo draws
      { planABC with
        FormulaArray := planABC.FormulaArray.set planABC.Step (Formula.Apply bo r formulaABC).state,
        CompletedArray := planABC.CompletedArray.set planABC.Step true,
        Step := (planABC.Step + 1) % UINT_MOD }
      (Formula.Apply bo r formulaABC).state ledgerABC0 rfl rfl]
    unfold ledgerABC0
    rw [hABC r (draws 0) 0 (by decide)]
    exact ⟨rfl, rfl⟩
  · intro r
    have hfirst : planABC.PlanApplyStockpile bo draws (some ledgerABC0)
        = ⟨({ planABC with FormulaArray := [(Formula.Apply bo (draws 0) formulaABC).state] },
             some ledgerABC3), none⟩ := by
      rw [PlanApplyStockpile_single bo draws planABC formulaABC ledgerABC0 rfl rfl]
      unfold ledgerABC0
      rw [applySlot_ABC bo (draws 0) formulaABC 0 (by decide) hi0 (by decide) rfl rfl rfl rfl]
      rfl
    rw [hfirst]
    have hstep := PlanApply_step bo r
      { planABC with FormulaArray := [(Formula.Apply bo (draws 0) formulaABC).state] }
      (Formula.Apply bo (draws 0) formulaABC).state (show (0 : Nat) < 1 from Nat.zero_lt_one)
      rfl (show (0 : Nat) < 1 from Nat.zero_lt_one) rfl
      (Apply_Initialised bo (draws 0) formulaABC hi0)
    dsimp only
    rw [hstep]
    exact ⟨rfl, rfl⟩

/-- A failing `IncreaseQuantity` leaves the ledger as it was. -/
theorem IncreaseQuantity_failure_state (name : String) (q : Nat) (s : Stockpile)
    (h : (Stockpile.IncreaseQuantity name q s).thrown ≠ none) :
    (Stockpile.IncreaseQuantity name q s).state = s := by
  unfold Stockpile.IncreaseQuantity at h ⊢
  split
  · rfl
  · split
    · rfl
    · rename_i hq
      rename_i old hl
      simp [hl, hq] at h

/-- A failing `DecreaseQuantity` leaves the ledger as it was. -/
theorem DecreaseQuantity_failure_state (name : String) (q : Nat) (s : Stockpile)
    (h : (Stockpile.DecreaseQuantity name q s).thrown ≠ none) :
    (Stockpile.DecreaseQuantity name q s).state = s := by
  unfold Stockpile.DecreaseQuantity at h ⊢
  split
  · rfl
  · split
    · rfl
    · rename_i hq
      rename_i old hl
      simp [hl, hq] at h

/-- When the loop body on an initialised, paired Formula fails, the Formula has been
applied. -/
theorem applySlot_failure_applied (bo : ByteOrder) (r : ℚ) (f : Formula) (s : Stockpile)
    (hf : f.Initialised) (hp : f.Paired)
    (h : (ExecutablePlan.applySlot bo r f s).thrown ≠ none) :
    (ExecutablePlan.applySlot bo r f s).state.1 = (Formula.Apply bo r f).state := by
  obtain ⟨inR, inQ, outR, outQ, q1, q2, q3, q4, _⟩ :=
    loader_of_Sized_Paired f (Sized_of_Initialised f hf) hp
  rw [applySlot_of_Initialised bo r f s inR inQ outR outQ hf hp q1 q2 q3 q4] at h ⊢
  split
  · split <;> rfl
  · rename_i hall
    rw [if_neg hall] at h
    exact absurd rfl h

/-- A run of `DecreaseQuantity` calls on distinct names, each a key held at no less
than its target: no call fails, every name ends at its target, every other name
and the keys are as before. -/
theorem decreaseAll_targets (l : List (String × Nat)) :
    ∀ s : Stockpile, (l.map Prod.fst).Nodup →
      (∀ p ∈ l, ∃ old, s.ResourcesMap.lookup p.1 = some old ∧ p.2 ≤ old) →
      (decreaseAll l s).thrown = none
        ∧ (∀ p ∈ l, (decreaseAll l s).state.ResourcesMap.lookup p.1 = some p.2)
        ∧ (∀ n, n ∉ l.map Prod.fst →
            (decreaseAll l s).state.ResourcesMap.lookup n = s.ResourcesMap.lookup n) := by
  induction l with
  | nil =>
    intro s _ _
    refine ⟨rfl, ?_, fun _ _ => rfl⟩
    intro p hp
    exact absurd hp (List.not_mem_nil p)
  | cons e rest ih =>
    intro s hnd h
    obtain ⟨name, q⟩ := e
    simp only [List.map_cons, List.nodup_cons] at hnd
    obtain ⟨old, hold, hle⟩ := h (name, q) (List.mem_cons_self _ _)
    have hcall := DecreaseQuantity_of_key name q old s hold
    rw [if_neg (by omega)] at hcall
    have hrest : ∀ p ∈ rest, ∃ o,
        ({ ResourcesMap := assignEntry name q s.ResourcesMap } : Stockpile).ResourcesMap.lookup p.1
          = some o ∧ p.2 ≤ o := by
      intro p hp
      obtain ⟨o, ho, hpo⟩ := h p (List.mem_cons_of_mem _ hp)
      refine ⟨o, ?_, hpo⟩
      have hne : p.1 ≠ name := by
        intro heq
        exact hnd.1 (heq ▸ List.mem_map_of_mem Prod.fst hp)
      show (assignEntry name q s.ResourcesMap).lookup p.1 = some o
      rw [lookup_assignEntry_ne name p.1 q s.ResourcesMap hne]
      exact ho
    obtain ⟨i1, i2, i3⟩ := ih { ResourcesMap := assignEntry name q s.ResourcesMap } hnd.2 hrest
    have hunf : decreaseAll ((name, q) :: rest) s
        = decreaseAll rest { ResourcesMap := assignEntry name q s.ResourcesMap } := by
      conv_lhs => unfold decreaseAll
      rw [hcall]
    rw [hunf]
    refine ⟨i1, ?_, ?_⟩
    · intro p hp
      rcases List.mem_cons.1 hp with hp | hp
      · subst hp
        rw [i3 name hnd.1]
        exact lookup_assignEntry_self name q old s.ResourcesMap hold
      · exact i2 p hp
    · intro n hn
      simp only [List.map_cons, List.mem_cons, not_or] at hn
      rw [i3 n hn.2]
      exact lookup_assignEntry_ne name n q s.ResourcesMap hn.1

/-- A run of `IncreaseQuantity` calls on distinct names, each a key held at no more
than its target: no call fails, every name ends at its target, every other name
is as before. -/
theorem increaseAll_targets (l : List (String × Nat)) :
    ∀ s : Stockpile, (l.map Prod.fst).Nodup →
      (∀ p ∈ l, ∃ old, s.ResourcesMap.lookup p.1 = some old ∧ old ≤ p.2) →
      (increaseAll l s).thrown = none
        ∧ (∀ p ∈ l, (increaseAll l s).state.ResourcesMap.lookup p.1 = some p.2)
        ∧ (∀ n, n ∉ l.map Prod.fst →
            (increaseAll l s).state.ResourcesMap.lookup n = s.ResourcesMap.lookup n) := by
  induction l with
  | nil =>
    intro s _ _
    refine ⟨rfl, ?_, fun _ _ => rfl⟩
    intro p hp
    exact absurd hp (List.not_mem_nil p)
  | cons e rest ih =>
    intro s hnd h
    obtain ⟨name, q⟩ := e
    simp only [List.map_cons, List.nodup_cons] at hnd
    obtain ⟨old, hold, hle⟩ := h (name, q) (List.mem_cons_self _ _)
    have hcall := IncreaseQuantity_of_key name q old s hold
    rw [if_neg (by omega)] at hcall
    have hrest : ∀ p ∈ rest, ∃ o,
        ({ ResourcesMap := assignEntry name q s.ResourcesMap } : Stockpile).ResourcesMap.lookup p.1
          = some o ∧ o ≤ p.2 := by
      intro p hp
      obtain ⟨o, ho, hpo⟩ := h p (List.mem_cons_of_mem _ hp)
      refine ⟨o, ?_, hpo⟩
      have hne : p.1 ≠ name := by
        intro heq
        exact hnd.1 (heq ▸ List.mem_map_of_mem Prod.fst hp)
      show (assignEntry name q s.ResourcesMap).lookup p.1 = some o
      rw [lookup_assignEntry_ne name p.1 q s.ResourcesMap hne]
      exact ho
    obtain ⟨i1, i2, i3⟩ := ih { ResourcesMap := assignEntry name q s.ResourcesMap } hnd.2 hrest
    have hunf : increaseAll ((name, q) :: rest) s
        = increaseAll rest { ResourcesMap := assignEntry name q s.ResourcesMap } := by
      conv_lhs => unfold increaseAll
      rw [hcall]
    rw [hunf]
    refine ⟨i1, ?_, ?_⟩
    · intro p hp
      rcases List.mem_cons.1 hp with hp | hp
      · subst hp
        rw [i3 name hnd.1]
        exact lookup_assignEntry_self name q old s.ResourcesMap hold
      · exact i2 p hp
    · intro n hn
      simp only [List.map_cons, List.mem_cons, not_or] at hn
      rw [i3 n hn.2]
      exact lookup_assignEntry_ne name n q s.ResourcesMap hn.1

/-- A name held by the ledger, with its quantity, as a lookup. -/
theorem lookup_of_held (s : Stockpile) (name : String) (h : s.HasResource name = true) :
    s.ResourcesMap.lookup name = some (s.GetResourceQuantity name) := by
  unfold Stockpile.HasResource at h
  unfold Stockpile.GetResourceQuantity
  cases hl : s.ResourcesMap.lookup name with
  | none => rw [hl] at h; cases h
  | some q => rfl

/-- C39: for every plan with one cell in use that holds an initialised, paired Formula
whose input and output names are pairwise distinct, and every ledger that
holds every input name at no less than the input quantity and every output
name at no more than the output quantity.  The ledger-gated apply returns
normally, the Formula has been applied, and in the ledger handed back every
input name is held at exactly the input quantity, every output name at exactly
the output quantity, and every other name as before. -/
theorem PlanApplyStockpile_absolute_quantities_C39 (bo : ByteOrder) (draws : Nat → ℚ)
    (xp : ExecutablePlan) (f : Formula) (s : Stockpile)
    (inR : List String) (inQ : List Nat) (outR : List String) (outQ : List Nat)
    (hsize : xp.Size = 1) (hslot : xp.FormulaArray[0]? = some f)
    (hf : f.Initialised) (hp : f.Paired)
    (q1 : f.InputResources = some inR) (q2 : f.InputQuantities = some inQ)
    (q3 : f.OutputResources = some outR) (q4 : f.OutputQuantities = some outQ)
    (hdistinct : (inR ++ outR).Nodup)
    (hin : ∀ p ∈ List.zip inR inQ,
      s.HasResource p.1 = true ∧ p.2 ≤ s.GetResourceQuantity p.1)
    (hout : ∀ p ∈ List.zip outR outQ,
      s.HasResource p.1 = true ∧ s.GetResourceQuantity p.1 ≤ p.2) :
    (xp.PlanApplyStockpile bo draws (some s)).thrown = none
      ∧ (xp.PlanApplyStockpile bo draws (some s)).state.1.FormulaArray[0]?
          = some (Formula.Apply bo (draws 0) f).state
      ∧ ∃ t, (xp.PlanApplyStockpile bo draws (some s)).state.2 = some t
        ∧ (∀ p ∈ List.zip inR inQ,
            t.HasResource p.1 = true ∧ t.GetResourceQuantity p.1 = p.2)
        ∧ (∀ p ∈ List.zip outR outQ,
            t.HasResource p.1 = true ∧ t.GetResourceQuantity p.1 = p.2)
        ∧ (∀ n, n ∉ inR ++ outR → t.ResourcesMap.lookup n = s.ResourcesMap.lookup n) := by
  have hlt : 0 < xp.FormulaArray.length := by
    rcases Nat.lt_or_ge 0 xp.FormulaArray.length with h1 | h1
    · exact h1
    · rw [List.getElem?_eq_none h1] at hslot; cases hslot
  obtain ⟨h1, h2, h3, h4, _, _⟩ := hf
  obtain ⟨l1, e1, n1⟩ := (hasSize_iff _ _).1 h1
  obtain ⟨l2, e2, n2⟩ := (hasSize_iff _ _).1 h2
  obtain ⟨l3, e3, n3⟩ := (hasSize_iff _ _).1 h3
  obtain ⟨l4, e4, n4⟩ := (hasSize_iff _ _).1 h4
  rw [q1] at e1; rw [q2] at e2; rw [q3] at e3; rw [q4] at e4
  cases e1; cases e2; cases e3; cases e4
  have hlenI : inR.length ≤ inQ.length := by rw [n1, n2, hp.1]
  have hlenO : outR.length ≤ outQ.length := by rw [n3, n4, hp.2]
  have hfI : (List.zip inR inQ).map Prod.fst = inR := List.map_fst_zip _ _ hlenI
  have hfO : (List.zip outR outQ).map Prod.fst = outR := List.map_fst_zip _ _ hlenO
  obtain ⟨hndI, hndO, hdisj⟩ := List.nodup_append.1 hdistinct
  have hall : ((List.zip inR inQ).all fun rq =>
      s.HasResource rq.1 && decide (s.GetResourceQuantity rq.1 ≥ rq.2)) = true := by
    rw [List.all_eq_true]
    intro p hpm
    obtain ⟨a, b⟩ := hin p hpm
    simp [a, b]
  obtain ⟨d1, d2, d3⟩ := decreaseAll_targets (List.zip inR inQ) s (by rw [hfI]; exact hndI)
    (fun p hpm => ⟨_, lookup_of_held s p.1 (hin p hpm).1, (hin p hpm).2⟩)
  have houtD : ∀ p ∈ List.zip outR outQ, ∃ old,
      (decreaseAll (List.zip inR inQ) s).state.ResourcesMap.lookup p.1 = some old
        ∧ old ≤ p.2 := by
    intro p hpm
    have hmem : p.1 ∈ outR := by
      rw [← hfO]
      exact List.mem_map_of_mem Prod.fst hpm
    have hnot : p.1 ∉ (List.zip inR inQ).map Prod.fst := by
      rw [hfI]
      intro hmi
      exact hdisj hmi hmem
    refine ⟨_, ?_, (hout p hpm).2⟩
    rw [d3 p.1 hnot]
    exact lookup_of_held s p.1 (hout p hpm).1
  obtain ⟨i1, i2, i3⟩ := increaseAll_targets (List.zip outR outQ)
    (decreaseAll (List.zip inR inQ) s).state (by rw [hfO]; exact hndO) houtD
  have hbody := applySlot_of_Initialised bo (draws 0) f s inR inQ outR outQ
    ⟨h1, h2, h3, h4, by assumption, by assumption⟩ hp q1 q2 q3 q4
  rw [if_pos hall, d1] at hbody
  dsimp only at hbody
  rw [PlanApplyStockpile_single bo draws xp f s hsize hslot, hbody]
  dsimp only
  have hget : ∀ (t : Stockpile) (n : String) (q : Nat), t.ResourcesMap.lookup n = some q →
      t.HasResource n = true ∧ t.GetResourceQuantity n = q := by
    intro t n q hl
    simp [Stockpile.HasResource, Stockpile.GetResourceQuantity, hl]
  refine ⟨i1, by simp [hlt], _, rfl, ?_, ?_, ?_⟩
  · intro p hpm
    apply hget
    have hmem : p.1 ∈ inR := by
      rw [← hfI]
      exact List.mem_map_of_mem Prod.fst hpm
    have hnot : p.1 ∉ (List.zip outR outQ).map Prod.fst := by
      rw [hfO]
      intro hmo
      exact hdisj hmem hmo
    rw [i3 p.1 hnot]
    exact d2 p hpm
  · intro p hpm
    exact hget _ _ _ (i2 p hpm)
  · intro n hn
    rw [List.mem_append, not_or] at hn
    rw [i3 n (by rw [hfO]; exact hn.2), d3 n (by rw [hfI]; exact hn.1)]

/-- Witness of C39: `planABC` on the ledger `{A:5, B:7, C:2, D:9}`: the call returns
normally, `A` and `B` are held at 1 and 2, `C` at 3, and every other name as
before. -/
theorem PlanApplyStockpile_absolute_quantities_C39_witness :
    (planABC.PlanApplyStockpile ByteOrder.little constDraws
        (some ⟨[("A", 5), ("B", 7), ("C", 2), ("D", 9)]⟩)).thrown = none
      ∧ ∃ t, (planABC.PlanApplyStockpile ByteOrder.little constDraws
          (some ⟨[("A", 5), ("B", 7), ("C", 2), ("D", 9)]⟩)).state.2 = some t
        ∧ (∀ p ∈ List.zip ["A", "B"] [1, 2],
            t.HasResource p.1 = true ∧ t.GetResourceQuantity p.1 = p.2)
        ∧ (∀ p ∈ List.zip ["C"] [3],
            t.HasResource p.1 = true ∧ t.GetResourceQuantity p.1 = p.2)
        ∧ (∀ n, n ∉ ["A", "B"] ++ ["C"] →
            t.ResourcesMap.lookup n
              = (⟨[("A", 5), ("B", 7), ("C", 2), ("D", 9)]⟩ : Stockpile).ResourcesMap.lookup n) := by
  have h := PlanApplyStockpile_absolute_quantities_C39 ByteOrder.little constDraws planABC
    formulaABC ⟨[("A", 5), ("B", 7), ("C", 2), ("D", 9)]⟩ ["A", "B"] [1, 2] ["C"] [3]
    rfl rfl (by decide) (by decide) rfl rfl rfl rfl (by decide) (by decide) (by decide)
  exact ⟨h.1, h.2.2⟩

/-! ## Invariants of Plan and of the one-shot cursor -/

/-- A block of `CopyData` that succeeds returns an array of the stated size. -/
theorem copyArray_some {α : Type} (n : Nat) (a : Option (List α)) (l : List α)
    (h : copyArray n a = some l) : hasSize n (some l) = true := by
  cases a with
  | none =>
    simp only [copyArray] at h
    by_cases hn : n = 0
    · rw [if_pos hn] at h
      cases h
      simp [hasSize, hn]
    · rw [if_neg hn] at h
      cases h
  | some x =>
    simp only [copyArray] at h
    by_cases hn : n ≤ x.length
    · rw [if_pos hn] at h
      cases h
      simp [hasSize, hn]
    · rw [if_neg hn] at h
      cases h

/-- Every Formula that `CopyData` returns has arrays of the stated sizes. -/
theorem CopyData_Sized (f g : Formula) (h : Formula.CopyData f = some g) : g.Sized := by
  unfold Formula.CopyData at h
  split at h
  · rename_i ir iq or_ oq ra h1 h2 h3 h4 h5
    cases h
    exact ⟨copyArray_some _ _ _ h1, copyArray_some _ _ _ h2, copyArray_some _ _ _ h3,
      copyArray_some _ _ _ h4, copyArray_some _ _ _ h5⟩
  · cases h

/-- The copies that `copyFormulas` returns are as many as the originals and have
arrays of the stated sizes. -/
theorem copyFormulas_some (l : List Formula) :
    ∀ l', copyFormulas l = some l' →
      l'.length = l.length ∧ ∀ g ∈ l', g.Sized := by
  induction l with
  | nil =>
    intro l' h
    unfold copyFormulas at h
    cases h
    exact ⟨rfl, fun g hg => absurd hg (List.not_mem_nil g)⟩
  | cons f rest ih =>
    intro l' h
    unfold copyFormulas at h
    split at h
    · rename_i g gs hg hgs
      cases h
      obtain ⟨i1, i2⟩ := ih gs hgs
      refine ⟨by simp [i1], ?_⟩
      intro x hx
      rcases List.mem_cons.1 hx with hx | hx
      · subst hx
        exact CopyData_Sized f x hg
      · exact i2 x hx
    · cases h

/-- The default Plan is well-formed. -/
theorem WellFormed_default : Plan.default.WellFormed := by
  refine ⟨by decide, by decide, rfl, ?_⟩
  intro i hi
  exact absurd hi (Nat.not_lt_zero i)

/-- A Plan built by `Plan (InitialSequence, InitialSize)` is well-formed. -/
theorem WellFormed_ctor (seq : List Formula) (n : Nat) (p : Plan)
    (h : Plan.ctor seq n = Except.ok p) : p.WellFormed := by
  unfold Plan.ctor at h
  by_cases hn : n ≤ 0
  · rw [if_pos hn] at h
    cases h
  · rw [if_neg hn] at h
    unfold assignFormulas at h
    by_cases hc : n ≤ seq.length ∧ n ≤ (List.replicate n Formula.default).length
    · rw [if_pos hc] at h
      cases hcopy : copyFormulas (seq.take n) with
      | none => rw [hcopy] at h; cases h
      | some copies =>
        rw [hcopy] at h
        cases h
        obtain ⟨i1, i2⟩ := copyFormulas_some _ _ hcopy
        have hlen : copies.length = n := by
          have := hc.1
          rw [i1, List.length_take]
          omega
        refine ⟨Nat.le_refl _, Nat.pos_of_ne_zero (fun h0 => hn (Nat.le_of_eq h0)),
          by simp [hlen], ?_⟩
        intro i hi
        have hi' : i < copies.length := by rw [hlen]; exact hi
        refine ⟨copies[i], ?_, i2 _ (List.getElem_mem _)⟩
        dsimp only
        rw [List.getElem?_append_left hi', List.getElem?_eq_getElem hi']
    · rw [if_neg hc] at h
      cases h

/-- `Plan::AddFormula` on a well-formed Plan, for a Formula whose copy is `g`. -/
theorem Plan_AddFormula_of_WellFormed (p : Plan) (f g : Formula) (hp : p.WellFormed)
    (hg : Formula.CopyData f = some g) :
    (Plan.AddFormula f p).thrown = none
      ∧ (Plan.AddFormula f p).state.Size = p.Size + 1
      ∧ (Plan.AddFormula f p).state.FormulaArray[p.Size]? = some g
      ∧ (∀ i, i < p.Size → (Plan.AddFormula f p).state.FormulaArray[i]? = p.FormulaArray[i]?)
      ∧ (Plan.AddFormula f p).state.Capacity
          = (if p.Size = p.Capacity then 2 * p.Capacity else p.Capacity)
      ∧ (Plan.AddFormula f p).state.FormulaArray.length = (Plan.AddFormula f p).state.Capacity := by
  obtain ⟨h1, h2, h3, h4⟩ := hp
  by_cases hfull : p.Size = p.Capacity
  · have hsz : ∀ x ∈ p.FormulaArray.take p.Size, x.Sized := by
      intro x hx
      obtain ⟨i, hi, hxi⟩ := List.getElem_of_mem hx
      have hi' : i < p.Size := by
        rw [List.length_take] at hi
        omega
      obtain ⟨y, hy, hys⟩ := h4 i hi'
      have : (p.FormulaArray.take p.Size)[i]? = some y := by
        rw [List.getElem?_take_of_lt hi']
        exact hy
      rw [List.getElem?_eq_getElem hi] at this
      cases this
      rw [← hxi]
      exact hys
    have hcopy := copyFormulas_of_Sized _ hsz
    have hres : Plan.ResizePlan (p.Capacity * 2) p
        = some { FormulaArray := p.FormulaArray.take p.Size
                    ++ (List.replicate (p.Capacity * 2) Formula.default).drop p.Size,
                 Size := p.Capacity, Capacity := p.Capacity * 2 } := by
      unfold Plan.ResizePlan assignFormulas
      rw [if_pos ⟨by omega, by simp; omega⟩, hcopy]
    have hlen : (p.FormulaArray.take p.Size
        ++ (List.replicate (p.Capacity * 2) Formula.default).drop p.Size).length
          = p.Capacity * 2 := by
      simp
      omega
    have hadd : Plan.AddFormula f p
        = ⟨{ FormulaArray := (p.FormulaArray.take p.Size
                ++ (List.replicate (p.Capacity * 2) Formula.default).drop p.Size).set
                  p.Capacity g,
             Size := p.Capacity + 1, Capacity := p.Capacity * 2 }, none⟩ := by
      unfold Plan.AddFormula
      dsimp only
      rw [if_pos (by omega : p.Size ≥ p.Capacity), hres]
      dsimp only
      unfold assignFormulaAt
      rw [if_pos (by rw [hlen]; omega), hg]
    rw [hadd]
    dsimp only
    refine ⟨rfl, by omega, ?_, ?_, ?_, ?_⟩
    · have hidx : ((p.FormulaArray.take p.Size
          ++ (List.replicate (p.Capacity * 2) Formula.default).drop p.Size).set
            p.Capacity g)[p.Capacity]? = some g :=
        List.getElem?_set_self (by rw [hlen]; omega)
      rw [hfull] at hidx ⊢
      exact hidx
    · intro i hi
      rw [List.getElem?_set_ne (by omega)]
      rw [List.getElem?_append_left (by rw [List.length_take]; omega)]
      rw [List.getElem?_take_of_lt hi]
    · rw [if_pos hfull]
      omega
    · rw [List.length_set, hlen]
  · have hlt : p.Size < p.Capacity := by omega
    have hadd : Plan.AddFormula f p
        = ⟨{ FormulaArray := p.FormulaArray.set p.Size g,
             Size := p.Size + 1, Capacity := p.Capacity }, none⟩ := by
      unfold Plan.AddFormula
      dsimp only
      rw [if_neg (by omega : ¬ p.Size ≥ p.Capacity)]
      dsimp only
      unfold assignFormulaAt
      rw [if_pos (by omega), hg]
    rw [hadd]
    dsimp only
    refine ⟨rfl, rfl, ?_, ?_, ?_, ?_⟩
    · rw [List.getElem?_set_self (by omega)]
    · intro i hi
      rw [List.getElem?_set_ne (by omega)]
    · rw [if_neg hfull]
    · rw [List.length_set, h3]

/-- `Plan::AddFormula` keeps a Plan well-formed unless it reaches undefined
behaviour. -/
theorem WellFormed_AddFormula (p : Plan) (f : Formula) (hp : p.WellFormed)
    (hne : (Plan.AddFormula f p).thrown ≠ some Exn.undefined) :
    (Plan.AddFormula f p).state.WellFormed := by
  cases hg : Formula.CopyData f with
  | none =>
    exfalso
    apply hne
    have hat : ∀ (arr : List Formula) (i : Nat), assignFormulaAt arr i f = none := by
      intro arr i
      unfold assignFormulaAt
      rw [hg]
      split <;> rfl
    unfold Plan.AddFormula
    dsimp only
    split
    · rfl
    · rw [hat]
  | some g =>
    obtain ⟨a1, a2, a3, a4, a5, a6⟩ := Plan_AddFormula_of_WellFormed p f g hp hg
    obtain ⟨h1, h2, h3, h4⟩ := hp
    refine ⟨?_, ?_, a6, ?_⟩
    · rw [a2, a5]
      split <;> omega
    · rw [a5]
      split <;> omega
    · intro i hi
      rw [a2] at hi
      by_cases hi' : i < p.Size
      · rw [a4 i hi']
        exact h4 i hi'
      · have : i = p.Size := by omega
        subst this
        exact ⟨g, a3, CopyData_Sized f g hg⟩

/-- `Plan::RemoveLastFormula` keeps a Plan well-formed. -/
theorem WellFormed_RemoveLastFormula (p : Plan) (hp : p.WellFormed) :
    (Plan.RemoveLastFormula p).state.WellFormed := by
  obtain ⟨h1, h2, h3, h4⟩ := hp
  unfold Plan.RemoveLastFormula
  split
  · exact ⟨h1, h2, h3, h4⟩
  · exact ⟨by dsimp only; omega, h2, h3, fun i hi => h4 i (by dsimp only at hi; omega)⟩

/-- `Plan::ReplaceFormula` keeps a Plan well-formed. -/
theorem WellFormed_ReplaceFormula (p : Plan) (f : Formula) (Index : Nat) (hp : p.WellFormed) :
    (Plan.ReplaceFormula f Index p).state.WellFormed := by
  obtain ⟨h1, h2, h3, h4⟩ := hp
  unfold Plan.ReplaceFormula
  by_cases hgt : Index > p.Size
  · rw [if_pos hgt]
    exact ⟨h1, h2, h3, h4⟩
  · rw [if_neg hgt]
    cases hat : assignFormulaAt p.FormulaArray Index f with
    | none => exact ⟨h1, h2, h3, h4⟩
    | some arr =>
      unfold assignFormulaAt at hat
      by_cases hlt : Index < p.FormulaArray.length
      · rw [if_pos hlt] at hat
        cases hg : Formula.CopyData f with
        | none => rw [hg] at hat; cases hat
        | some g =>
          rw [hg] at hat
          cases hat
          refine ⟨h1, h2, ?_, ?_⟩
          · show (p.FormulaArray.set Index g).length = p.Capacity
            rw [List.length_set]
            exact h3
          · intro i hi
            show ∃ x, (p.FormulaArray.set Index g)[i]? = some x ∧ x.Sized
            by_cases hii : Index = i
            · subst hii
              exact ⟨g, by rw [List.getElem?_set_self hlt], CopyData_Sized f g hg⟩
            · rw [List.getElem?_set_ne hii]
              exact h4 i hi
      · rw [if_neg hlt] at hat
        cases hat

/-- Every reachable Plan is well-formed. -/
theorem WellFormed_of_Reachable (p : Plan) (h : Plan.Reachable p) : p.WellFormed := by
  induction h with
  | byDefault => exact WellFormed_default
  | byCtor seq n p hc => exact WellFormed_ctor seq n p hc
  | byAdd f p _ hne ih => exact WellFormed_AddFormula p f ih hne
  | byRemove p _ ih => exact WellFormed_RemoveLastFormula p ih
  | byReplace f Index p _ _ ih => exact WellFormed_ReplaceFormula p f Index ih

/-- C31: for every Plan built by `Plan ()` or `Plan (InitialSequence, InitialSize)` and
changed by `AddFormula`, `RemoveLastFormula` and `ReplaceFormula` calls, the size is
at most the capacity (and at least 0, being a `size_t`).  `AddFormula` of a Formula
with arrays of the stated sizes returns normally, stores the Formula at index
`Size`, keeps the cells below it, raises the size by 1 and doubles the capacity
exactly when the size was equal to the capacity; after it, after
`RemoveLastFormula` and after `ReplaceFormula` the size is still at most the
capacity. -/
theorem Plan_capacity_invariant_C31 (p : Plan) (h : Plan.Reachable p) :
    p.Size ≤ p.Capacity
      ∧ (∀ f : Formula, f.Sized →
          (Plan.AddFormula f p).thrown = none
            ∧ (Plan.AddFormula f p).state.Size = p.Size + 1
            ∧ (Plan.AddFormula f p).state.FormulaArray[p.Size]? = some f
            ∧ (∀ i, i < p.Size →
                (Plan.AddFormula f p).state.FormulaArray[i]? = p.FormulaArray[i]?)
            ∧ (Plan.AddFormula f p).state.Capacity
                = (if p.Size = p.Capacity then 2 * p.Capacity else p.Capacity)
            ∧ (Plan.AddFormula f p).state.Size ≤ (Plan.AddFormula f p).state.Capacity)
      ∧ (Plan.RemoveLastFormula p).state.Size ≤ (Plan.RemoveLastFormula p).state.Capacity
      ∧ (∀ (f : Formula) (Index : Nat),
          (Plan.ReplaceFormula f Index p).state.Size
            ≤ (Plan.ReplaceFormula f Index p).state.Capacity) := by
  have hwf := WellFormed_of_Reachable p h
  refine ⟨hwf.1, ?_, (WellFormed_RemoveLastFormula p hwf).1,
    fun f Index => (WellFormed_ReplaceFormula p f Index hwf).1⟩
  intro f hf
  obtain ⟨a1, a2, a3, a4, a5, _⟩ :=
    Plan_AddFormula_of_WellFormed p f f hwf (CopyData_of_Sized f hf)
  have hadd := WellFormed_AddFormula p f hwf (by rw [a1]; simp)
  exact ⟨a1, a2, a3, a4, a5, hadd.1⟩

/-- Witness of C31: the default Plan has size 0 within capacity 2; adding `formulaABC`
gives size 1 and leaves the capacity 2. -/
theorem Plan_capacity_invariant_C31_witness :
    Plan.default.Size ≤ Plan.default.Capacity
      ∧ (Plan.AddFormula formulaABC Plan.default).state.Size = 1
      ∧ (Plan.AddFormula formulaABC Plan.default).state.Capacity = 2 :=
  ⟨(Plan_capacity_invariant_C31 Plan.default Plan.Reachable.byDefault).1,
    ((Plan_capacity_invariant_C31 Plan.default Plan.Reachable.byDefault).2.1 formulaABC
      (by decide)).2.1,
    ((Plan_capacity_invariant_C31 Plan.default Plan.Reachable.byDefault).2.1 formulaABC
      (by decide)).2.2.2.2.1⟩

/-- A Formula with arrays of the stated sizes has non-null pointers. -/
theorem NonNull_of_Sized (f : Formula) (h : f.Sized) : f.NonNull := by
  obtain ⟨h1, h2, h3, h4, _⟩ := h
  obtain ⟨l1, q1, _⟩ := (hasSize_iff _ _).1 h1
  obtain ⟨l2, q2, _⟩ := (hasSize_iff _ _).1 h2
  obtain ⟨l3, q3, _⟩ := (hasSize_iff _ _).1 h3
  obtain ⟨l4, q4, _⟩ := (hasSize_iff _ _).1 h4
  unfold Formula.NonNull
  rw [q1, q2, q3, q4]
  exact ⟨rfl, rfl, rfl, rfl⟩

/-- `Apply` keeps the four pointers, so it keeps them non-null. -/
theorem Apply_NonNull (bo : ByteOrder) (r : ℚ) (f : Formula) (h : f.NonNull) :
    (Formula.Apply bo r f).state.NonNull := by
  obtain ⟨f1, _, f3, _, f5, _, f7, _⟩ := Apply_frame bo r f
  unfold Formula.NonNull
  rw [f1, f3, f5, f7]
  exact ⟨h.1, h.2.1, h.2.2.1, h.2.2.2⟩

/-- `Apply` on a Formula with non-null pointers throws no exception. -/
theorem Apply_thrown_of_NonNull (bo : ByteOrder) (r : ℚ) (f : Formula) (h : f.NonNull) :
    (Formula.Apply bo r f).thrown = none ∨ (Formula.Apply bo r f).thrown = some Exn.undefined := by
  obtain ⟨h1, h2, h3, h4⟩ := h
  obtain ⟨a, ha⟩ := Option.isSome_iff_exists.1 h1
  obtain ⟨b, hb⟩ := Option.isSome_iff_exists.1 h2
  obtain ⟨c, hc⟩ := Option.isSome_iff_exists.1 h3
  obtain ⟨d, hd⟩ := Option.isSome_iff_exists.1 h4
  unfold Formula.Apply
  rw [ha, hb, hc, hd]
  dsimp only
  split
  · exact Or.inr rfl
  · exact Or.inl rfl

/-- The second half of `Plan::AddFormula`, the assignment `FormulaArray[Size++] = NewFormula`,
keeps the cells in use non-null. -/
theorem SlotsNonNull_assign (q : Plan) (f : Formula) (hq : q.SlotsNonNull) :
    (match assignFormulaAt q.FormulaArray q.Size f with
      | none => (⟨q, some Exn.undefined⟩ : Res Plan)
      | some arr => ⟨{ q with FormulaArray := arr, Size := q.Size + 1 }, none⟩).state.SlotsNonNull := by
  cases hat : assignFormulaAt q.FormulaArray q.Size f with
  | none => exact hq
  | some arr =>
    unfold assignFormulaAt at hat
    by_cases hlt : q.Size < q.FormulaArray.length
    · rw [if_pos hlt] at hat
      cases hg : Formula.CopyData f with
      | none => rw [hg] at hat; cases hat
      | some g =>
        rw [hg] at hat
        cases hat
        intro i x hi hx
        have hi' : i < q.Size + 1 := hi
        have hx' : (q.FormulaArray.set q.Size g)[i]? = some x := hx
        by_cases hii : q.Size = i
        · subst hii
          rw [List.getElem?_set_self hlt] at hx'
          cases hx'
          exact NonNull_of_Sized _ (CopyData_Sized f _ hg)
        · rw [List.getElem?_set_ne hii] at hx'
          exact hq i x (by omega) hx'
    · rw [if_neg hlt] at hat
      cases hat

/-- `Plan::AddFormula` keeps the cells in use non-null. -/
theorem SlotsNonNull_AddFormula (p : Plan) (f : Formula) (hp : p.SlotsNonNull) :
    (Plan.AddFormula f p).state.SlotsNonNull := by
  unfold Plan.AddFormula
  dsimp only
  by_cases hge : p.Size ≥ p.Capacity
  · rw [if_pos hge]
    cases hres : Plan.ResizePlan (p.Capacity * 2) p with
    | none => exact hp
    | some q =>
      have hq : q.SlotsNonNull := by
        unfold Plan.ResizePlan at hres
        cases hasg : assignFormulas p.Size p.FormulaArray
            (List.replicate (p.Capacity * 2) Formula.default) with
        | none => rw [hasg] at hres; cases hres
        | some arr =>
          rw [hasg] at hres
          cases hres
          unfold assignFormulas at hasg
          split at hasg
          · cases hcopy : copyFormulas (p.FormulaArray.take p.Size) with
            | none => rw [hcopy] at hasg; cases hasg
            | some copies =>
              rw [hcopy] at hasg
              cases hasg
              obtain ⟨i1, i2⟩ := copyFormulas_some _ _ hcopy
              rename_i hcond
              have hlen : copies.length = p.Size := by
                rw [i1, List.length_take]
                omega
              intro i x hi hx
              have hi' : i < p.Capacity := hi
              have hx' : (copies
                ++ (List.replicate (p.Capacity * 2) Formula.default).drop p.Size)[i]? = some x := hx
              rw [List.getElem?_append_left (by omega)] at hx'
              exact NonNull_of_Sized _ (i2 x (List.getElem?_mem hx'))
          · cases hasg
      exact SlotsNonNull_assign q f hq
  · rw [if_neg hge]
    exact SlotsNonNull_assign p f hp

/-- `Plan::RemoveLastFormula` keeps the cells in use non-null. -/
theorem SlotsNonNull_RemoveLastFormula (p : Plan) (hp : p.SlotsNonNull) :
    (Plan.RemoveLastFormula p).state.SlotsNonNull := by
  unfold Plan.RemoveLastFormula
  split
  · exact hp
  · intro i x hi hx
    exact hp i x (by
      have : i < p.Size - 1 := hi
      omega) hx

/-- `Plan::ReplaceFormula` keeps the cells in use non-null. -/
theorem SlotsNonNull_ReplaceFormula (p : Plan) (f : Formula) (Index : Nat)
    (hp : p.SlotsNonNull) : (Plan.ReplaceFormula f Index p).state.SlotsNonNull := by
  unfold Plan.ReplaceFormula
  by_cases hgt : Index > p.Size
  · rw [if_pos hgt]
    exact hp
  · rw [if_neg hgt]
    cases hat : assignFormulaAt p.FormulaArray Index f with
    | none => exact hp
    | some arr =>
      unfold assignFormulaAt at hat
      by_cases hlt : Index < p.FormulaArray.length
      · rw [if_pos hlt] at hat
        cases hg : Formula.CopyData f with
        | none => rw [hg] at hat; cases hat
        | some g =>
          rw [hg] at hat
          cases hat
          intro i x hi hx
          have hx' : (p.FormulaArray.set Index g)[i]? = some x := hx
          by_cases hii : Index = i
          · subst hii
            rw [List.getElem?_set_self hlt] at hx'
            cases hx'
            exact NonNull_of_Sized _ (CopyData_Sized f _ hg)
          · rw [List.getElem?_set_ne hii] at hx'
            exact hp i x hi hx'
      · rw [if_neg hlt] at hat
        cases hat

/-- The loop body of the ledger-gated apply leaves the Formula as it was or applied. -/
theorem applySlot_NonNull (bo : ByteOrder) (r : ℚ) (f : Formula) (s : Stockpile)
    (h : f.NonNull) : (ExecutablePlan.applySlot bo r f s).state.1.NonNull := by
  have ha := Apply_NonNull bo r f h
  unfold ExecutablePlan.applySlot
  split
  · exact h
  · dsimp only
    split
    · split
      · exact ha
      · split
        · exact ha
        · split
          · exact ha
          · exact ha
    · exact h

/-- The loop of the ledger-gated apply keeps the cells in use non-null. -/
theorem PlanApplyLoop_SlotsNonNull (bo : ByteOrder) (draws : Nat → ℚ) (k : Nat) :
    ∀ (i : Nat) (xp : ExecutablePlan) (s : Stockpile), xp.toPlan.SlotsNonNull →
      (ExecutablePlan.PlanApplyLoop bo draws k i (xp, s)).state.1.toPlan.SlotsNonNull := by
  induction k with
  | zero => intro i xp s h; exact h
  | succ k ih =>
    intro i xp s h
    unfold ExecutablePlan.PlanApplyLoop
    cases hslot : xp.FormulaArray[i]? with
    | none => exact h
    | some f =>
      dsimp only
      have hrn := applySlot_NonNull bo (draws i) f s
      generalize ExecutablePlan.applySlot bo (draws i) f s = r at hrn ⊢
      have hnew : Plan.SlotsNonNull { xp.toPlan with FormulaArray := xp.FormulaArray.set i r.state.1 } := by
        intro j x hj hx
        have hx' : (xp.FormulaArray.set i r.state.1)[j]? = some x := hx
        by_cases hij : i = j
        · subst hij
          have hlt : i < xp.FormulaArray.length := by
            rcases Nat.lt_or_ge i xp.FormulaArray.length with h1 | h1
            · exact h1
            · rw [List.getElem?_eq_none h1] at hslot; cases hslot
          rw [List.getElem?_set_self hlt] at hx'
          cases hx'
          exact hrn (h i f hj hslot)
        · rw [List.getElem?_set_ne hij] at hx'
          exact h j x hj hx'
      cases ht : r.thrown with
      | some e => exact hnew
      | none => exact ih _ _ _ hnew

/-- The parameterised constructor establishes the cursor invariant. -/
theorem CursorInv_ctor (fs : List Formula) (n step : Nat) (xp : ExecutablePlan)
    (h : ExecutablePlan.ctor fs n step = Except.ok xp) : xp.CursorInv := by
  unfold ExecutablePlan.ctor at h
  cases hb : Plan.ctor fs n with
  | error e => rw [hb] at h; cases h
  | ok base =>
    rw [hb] at h
    dsimp only at h
    by_cases hs : step ≥ n
    · rw [if_pos hs] at h
      cases h
    · rw [if_neg hs] at h
      cases h
      obtain ⟨_, _, _, w4⟩ := WellFormed_ctor fs n base hb
      refine ⟨?_, ?_⟩
      · intro i f hi hf
        obtain ⟨g, hg, hgs⟩ := w4 i hi
        have hf' : base.FormulaArray[i]? = some f := hf
        rw [hg] at hf'
        cases hf'
        exact NonNull_of_Sized _ hgs
      · intro _
        refine ⟨by dsimp only; omega, ?_⟩
        intro i hi
        have hi' : (List.replicate n false)[i]? = some true := hi
        rw [List.getElem?_replicate] at hi'
        split at hi' <;> cases hi'

/-- `ExecutablePlan::AddFormula` keeps the cursor invariant and does not lower the flag
count. -/
theorem CursorInv_AddFormula (f : Formula) (xp : ExecutablePlan) (h : xp.CursorInv) :
    (ExecutablePlan.AddFormula f xp).state.CursorInv
      ∧ xp.CompletedArraySize ≤ (ExecutablePlan.AddFormula f xp).state.CompletedArraySize := by
  obtain ⟨hp, hc⟩ := h
  have hbase := SlotsNonNull_AddFormula xp.toPlan f hp
  unfold ExecutablePlan.AddFormula
  dsimp only
  cases ht : (Plan.AddFormula f xp.toPlan).thrown with
  | some e => exact ⟨⟨hbase, hc⟩, Nat.le_refl _⟩
  | none =>
    dsimp only
    unfold ExecutablePlan.PushArrayValue
    dsimp only
    by_cases hle : xp.CompletedArraySize ≤ xp.CompletedArray.length
    · rw [if_pos hle]
      refine ⟨⟨hbase, ?_⟩, Nat.le_succ _⟩
      intro hsz
      have hsz' : xp.CompletedArraySize + 1 < UINT_MOD := hsz
      obtain ⟨c1, c2⟩ := hc (by omega)
      refine ⟨Nat.le_succ_of_le c1, ?_⟩
      intro i hi
      have hi' : (xp.CompletedArray.take xp.CompletedArraySize ++ [false])[i]? = some true := hi
      have hlen : (xp.CompletedArray.take xp.CompletedArraySize).length
          = xp.CompletedArraySize := by
        rw [List.length_take]
        omega
      by_cases hlt : i < xp.CompletedArraySize
      · rw [List.getElem?_append_left (by omega), List.getElem?_take_of_lt hlt] at hi'
        exact c2 i hi'
      · rw [List.getElem?_append_right (by omega), hlen] at hi'
        by_cases h0 : i - xp.CompletedArraySize = 0
        · rw [h0] at hi'
          cases hi'
        · rw [List.getElem?_eq_none (by simp; omega)] at hi'
          cases hi'
    · rw [if_neg hle]
      exact ⟨⟨hbase, hc⟩, Nat.le_refl _⟩

/-- `ExecutablePlan::RemoveLastFormula` leaves the object as it was or as the base
`RemoveLastFormula` leaves its `Plan` part. -/
theorem RemoveLastFormula_state (xp : ExecutablePlan) :
    (ExecutablePlan.RemoveLastFormula xp).state = xp
      ∨ (ExecutablePlan.RemoveLastFormula xp).state
          = { xp with toPlan := (Plan.RemoveLastFormula xp.toPlan).state } := by
  generalize hr : ExecutablePlan.RemoveLastFormula xp = res
  unfold ExecutablePlan.RemoveLastFormula at hr
  by_cases hcond : (xp.Step + UINT_MOD - 1) % UINT_MOD = xp.Size % UINT_MOD
  · simp only [if_pos hcond] at hr
    cases hflag : xp.CompletedArray[(xp.CompletedArraySize + SIZE_MOD - 1) % SIZE_MOD]? with
    | none =>
      rw [hflag] at hr
      rw [← hr]
      exact Or.inl rfl
    | some b =>
      rw [hflag] at hr
      cases b with
      | true =>
        rw [← hr]
        exact Or.inl rfl
      | false =>
        rw [← hr]
        exact Or.inr rfl
  · simp only [if_neg hcond] at hr
    rw [← hr]
    exact Or.inr rfl

/-- `ExecutablePlan::RemoveLastFormula` keeps the cursor invariant and the flag count. -/
theorem CursorInv_RemoveLastFormula (xp : ExecutablePlan) (h : xp.CursorInv) :
    (ExecutablePlan.RemoveLastFormula xp).state.CursorInv
      ∧ xp.CompletedArraySize
          = (ExecutablePlan.RemoveLastFormula xp).state.CompletedArraySize := by
  obtain ⟨hp, hc⟩ := h
  have hbase := SlotsNonNull_RemoveLastFormula xp.toPlan hp
  rcases RemoveLastFormula_state xp with hst | hst
  · rw [hst]
    exact ⟨⟨hp, hc⟩, rfl⟩
  · rw [hst]
    exact ⟨⟨hbase, hc⟩, rfl⟩

/-- The loop of `ExecutablePlan::ReplaceFormula` keeps the cursor invariant and the flag
count. -/
theorem CursorInv_ReplaceLoop (f : Formula) (Index : Nat) (k : Nat) :
    ∀ xp : ExecutablePlan, xp.CursorInv →
      (ExecutablePlan.ReplaceLoop f Index k xp).state.CursorInv
        ∧ xp.CompletedArraySize
            = (ExecutablePlan.ReplaceLoop f Index k xp).state.CompletedArraySize := by
  induction k with
  | zero => intro xp h; exact ⟨h, rfl⟩
  | succ k ih =>
    intro xp h
    obtain ⟨hp, hc⟩ := h
    have hbase := SlotsNonNull_ReplaceFormula xp.toPlan f Index hp
    unfold ExecutablePlan.ReplaceLoop
    split
    · exact ⟨⟨hp, hc⟩, rfl⟩
    · exact ⟨⟨hp, hc⟩, rfl⟩
    · dsimp only
      cases ht : (Plan.ReplaceFormula f Index xp.toPlan).thrown with
      | some e => exact ⟨⟨hbase, hc⟩, rfl⟩
      | none => exact ih _ ⟨hbase, hc⟩

/-- `ExecutablePlan::ReplaceFormula` keeps the cursor invariant and the flag count. -/
theorem CursorInv_ReplaceFormula (f : Formula) (Index : Nat) (xp : ExecutablePlan)
    (h : xp.CursorInv) :
    (ExecutablePlan.ReplaceFormula f Index xp).state.CursorInv
      ∧ xp.CompletedArraySize
          = (ExecutablePlan.ReplaceFormula f Index xp).state.CompletedArraySize := by
  unfold ExecutablePlan.ReplaceFormula
  split
  · exact ⟨h, rfl⟩
  · exact CursorInv_ReplaceLoop f Index _ xp h

/-- `PlanApply ()` keeps the cursor invariant and the flag count. -/
theorem CursorInv_PlanApply (bo : ByteOrder) (r : ℚ) (xp : ExecutablePlan)
    (h : xp.CursorInv) :
    (ExecutablePlan.PlanApply bo r xp).state.CursorInv
      ∧ xp.CompletedArraySize = (ExecutablePlan.PlanApply bo r xp).state.CompletedArraySize := by
  obtain ⟨hp, hc⟩ := h
  unfold ExecutablePlan.PlanApply
  by_cases h1 : xp.Step ≥ xp.CompletedArraySize
  · rw [if_pos h1]
    exact ⟨⟨hp, hc⟩, rfl⟩
  · rw [if_neg h1]
    cases hflag : xp.CompletedArray[xp.Step]? with
    | none => exact ⟨⟨hp, hc⟩, rfl⟩
    | some b =>
      cases b with
      | true => exact ⟨⟨hp, hc⟩, rfl⟩
      | false =>
        dsimp only
        by_cases h2 : xp.Step ≥ xp.Size
        · rw [if_pos h2]
          exact ⟨⟨hp, hc⟩, rfl⟩
        · rw [if_neg h2]
          cases hslot : xp.FormulaArray[xp.Step]? with
          | none => exact ⟨⟨hp, hc⟩, rfl⟩
          | some f =>
            dsimp only
            have hfn : f.NonNull := hp xp.Step f (by omega) hslot
            have han := Apply_NonNull bo r f hfn
            have hlt : xp.Step < xp.FormulaArray.length := by
              rcases Nat.lt_or_ge xp.Step xp.FormulaArray.length with h3 | h3
              · exact h3
              · rw [List.getElem?_eq_none h3] at hslot; cases hslot
            have hnew : Plan.SlotsNonNull { xp.toPlan with
                FormulaArray := xp.FormulaArray.set xp.Step (Formula.Apply bo r f).state } := by
              intro j x hj hx
              have hx' : (xp.FormulaArray.set xp.Step (Formula.Apply bo r f).state)[j]?
                  = some x := hx
              by_cases hij : xp.Step = j
              · rw [← hij, List.getElem?_set_self hlt] at hx'
                cases hx'
                exact han
              · rw [List.getElem?_set_ne hij] at hx'
                exact hp j x hj hx'
            cases ht : (Formula.Apply bo r f).thrown with
            | some e => exact ⟨⟨hnew, hc⟩, rfl⟩
            | none =>
              refine ⟨⟨hnew, ?_⟩, rfl⟩
              intro hsz
              have hsz' : xp.CompletedArraySize < UINT_MOD := hsz
              obtain ⟨c1, c2⟩ := hc hsz'
              have hmod : (xp.Step + 1) % UINT_MOD = xp.Step + 1 :=
                Nat.mod_eq_of_lt (by omega)
              refine ⟨?_, ?_⟩
              · show (xp.Step + 1) % UINT_MOD ≤ xp.CompletedArraySize
                rw [hmod]
                omega
              · intro i hi
                have hi' : (xp.CompletedArray.set xp.Step true)[i]? = some true := hi
                show i < (xp.Step + 1) % UINT_MOD
                rw [hmod]
                by_cases his : xp.Step = i
                · omega
                · rw [List.getElem?_set_ne his] at hi'
                  have := c2 i hi'
                  omega

/-- The ledger-gated apply keeps the cursor invariant and the flag count. -/
theorem CursorInv_PlanApplyStockpile (bo : ByteOrder) (draws : Nat → ℚ)
    (ptr : Option Stockpile) (xp : ExecutablePlan) (h : xp.CursorInv) :
    (ExecutablePlan.PlanApplyStockpile bo draws ptr xp).state.1.CursorInv
      ∧ xp.CompletedArraySize
          = (ExecutablePlan.PlanApplyStockpile bo draws ptr xp).state.1.CompletedArraySize := by
  obtain ⟨hp, hc⟩ := h
  cases ptr with
  | none => exact ⟨⟨hp, hc⟩, rfl⟩
  | some s =>
    obtain ⟨f1, f2, f3, _, _⟩ := PlanApplyLoop_frame bo draws xp.Size 0 xp s
    have hn := PlanApplyLoop_SlotsNonNull bo draws xp.Size 0 xp s hp
    refine ⟨⟨hn, ?_⟩, f3.symm⟩
    intro hsz
    have e1 : (ExecutablePlan.PlanApplyStockpile bo draws (some s) xp).state.1.Step
        = xp.Step := f1
    have e2 : (ExecutablePlan.PlanApplyStockpile bo draws (some s) xp).state.1.CompletedArray
        = xp.CompletedArray := f2
    have e3 : (ExecutablePlan.PlanApplyStockpile bo draws (some s) xp).state.1.CompletedArraySize
        = xp.CompletedArraySize := f3
    rw [e3] at hsz
    rw [e1, e2, e3]
    exact hc hsz

/-- Every reachable state satisfies the cursor invariant. -/
theorem CursorInv_of_Reachable (xp : ExecutablePlan) (h : ExecutablePlan.Reachable xp) :
    xp.CursorInv := by
  induction h with
  | byCtor fs n step xp hc => exact CursorInv_ctor fs n step xp hc
  | byAdd f xp _ _ ih => exact (CursorInv_AddFormula f xp ih).1
  | byRemove xp _ _ ih => exact (CursorInv_RemoveLastFormula xp ih).1
  | byReplace f Index xp _ _ ih => exact (CursorInv_ReplaceFormula f Index xp ih).1
  | byApply bo r xp _ _ ih => exact (CursorInv_PlanApply bo r xp ih).1
  | byApplyLedger bo draws ptr xp _ _ ih => exact (CursorInv_PlanApplyStockpile bo draws ptr xp ih).1

/-- C37: in every state reachable from the parameterised constructor by `AddFormula`,
`RemoveLastFormula`, `ReplaceFormula`, `PlanApply ()` and `PlanApply (StockpilePtr)` whose
flag count is within the range of `unsigned int`, every flag that is set has an
index below `Step`; the test of the branch "Formula was already applied" of
`PlanApply ()` is false; and `PlanApply ()` returns normally or throws `out_of_range`
(or reaches undefined behaviour, which is no exception). -/
theorem completed_behind_cursor_C37 (xp : ExecutablePlan) (h : ExecutablePlan.Reachable xp)
    (hsize : xp.CompletedArraySize < UINT_MOD) :
    (∀ i, xp.CompletedArray[i]? = some true → i < xp.Step)
      ∧ ¬ (xp.Step < xp.CompletedArraySize ∧ xp.CompletedArray[xp.Step]? = some true)
      ∧ ∀ (bo : ByteOrder) (r : ℚ),
          (xp.PlanApply bo r).thrown = none
            ∨ (xp.PlanApply bo r).thrown = some Exn.out_of_range
            ∨ (xp.PlanApply bo r).thrown = some Exn.undefined := by
  obtain ⟨hp, hc⟩ := CursorInv_of_Reachable xp h
  obtain ⟨c1, c2⟩ := hc hsize
  refine ⟨c2, ?_, ?_⟩
  · rintro ⟨_, hflag⟩
    exact Nat.lt_irrefl _ (c2 _ hflag)
  · intro bo r
    unfold ExecutablePlan.PlanApply
    by_cases h1 : xp.Step ≥ xp.CompletedArraySize
    · rw [if_pos h1]
      exact Or.inr (Or.inl rfl)
    · rw [if_neg h1]
      cases hflag : xp.CompletedArray[xp.Step]? with
      | none => exact Or.inr (Or.inr rfl)
      | some b =>
        cases b with
        | true => exact absurd (c2 _ hflag) (Nat.lt_irrefl _)
        | false =>
          dsimp only
          by_cases h2 : xp.Step ≥ xp.Size
          · rw [if_pos h2]
            exact Or.inr (Or.inl rfl)
          · rw [if_neg h2]
            cases hslot : xp.FormulaArray[xp.Step]? with
            | none => exact Or.inr (Or.inr rfl)
            | some f =>
              dsimp only
              have hfn : f.NonNull := hp xp.Step f (by omega) hslot
              rcases Apply_thrown_of_NonNull bo r f hfn with ha | ha
              · rw [ha]
                exact Or.inl rfl
              · rw [ha]
                exact Or.inr (Or.inr rfl)

/-- Witness of C37: `planABC` is reachable (built by the constructor), the test of the
"already applied" branch is false on it, and `PlanApply ()` on it returns normally
or throws `out_of_range`. -/
theorem completed_behind_cursor_C37_witness :
    ExecutablePlan.Reachable planABC
      ∧ ¬ (planABC.Step < planABC.CompletedArraySize
            ∧ planABC.CompletedArray[planABC.Step]? = some true)
      ∧ ((planABC.PlanApply ByteOrder.little (95 / 100)).thrown = none
          ∨ (planABC.PlanApply ByteOrder.little (95 / 100)).thrown = some Exn.out_of_range
          ∨ (planABC.PlanApply ByteOrder.little (95 / 100)).thrown = some Exn.undefined) :=
  ⟨ExecutablePlan.Reachable.byCtor [formulaABC] 1 0 planABC rfl,
    (completed_behind_cursor_C37 planABC
      (ExecutablePlan.Reachable.byCtor [formulaABC] 1 0 planABC rfl)
      (by simp [planABC, UINT_MOD])).2.1,
    (completed_behind_cursor_C37 planABC
      (ExecutablePlan.Reachable.byCtor [formulaABC] 1 0 planABC rfl)
      (by simp [planABC, UINT_MOD])).2.2 ByteOrder.little (95 / 100)⟩

/-! ## The tiers of Apply in binary32 -/

/-- One step of the bisection keeps the bracket of the number of excess bits. -/
theorem excessStep_inv (n k K s E : Nat) (hk : k = K + 1) (hE : E ≤ 24 + s + (K + k))
    (hlo : s = 0 ∨ 2 ^ (23 + s) ≤ n) (hhi : n < 2 ^ E) :
    (Binary32.excessStep n k s = 0 ∨ 2 ^ (23 + Binary32.excessStep n k s) ≤ n)
      ∧ n < 2 ^ (24 + Binary32.excessStep n k s + K) := by
  subst hk
  have hhi2 : n < 2 ^ (24 + s + (K + (K + 1))) :=
    Nat.lt_of_lt_of_le hhi (Nat.pow_le_pow_right (by decide) hE)
  unfold Binary32.excessStep
  by_cases h : 2 ^ (24 + s + (K + 1) - 1) ≤ n
  · simp only [if_pos h]
    constructor
    · right
      have e : 23 + (s + (K + 1)) = 24 + s + (K + 1) - 1 := by omega
      rw [e]; exact h
    · have e : 24 + (s + (K + 1)) + K = 24 + s + (K + (K + 1)) := by omega
      rw [e]; exact hhi2
  · simp only [if_neg h]
    refine ⟨hlo, ?_⟩
    have e : 24 + s + K = 24 + s + (K + 1) - 1 := by omega
    rw [e]; exact Nat.lt_of_not_le h

/-- Below `2 ^ 279` the bisection returns the least `t` with `n < 2 ^ (24 + t)`: `n` has
exactly `24 + t` bits when `t` is not 0. -/
theorem excessBits_spec (n E : Nat) (hE : E ≤ 279) (hn : n < 2 ^ E) :
    (Binary32.excessBits n = 0 ∨ 2 ^ (23 + Binary32.excessBits n) ≤ n)
      ∧ n < 2 ^ (24 + Binary32.excessBits n) := by
  unfold Binary32.excessBits
  have h7 := excessStep_inv n 128 127 0 E rfl (by omega) (Or.inl rfl) hn
  generalize Binary32.excessStep n 128 0 = s7 at h7 ⊢
  have h6 := excessStep_inv n 64 63 s7 _ rfl (Nat.le_refl _) h7.1 h7.2
  generalize Binary32.excessStep n 64 s7 = s6 at h6 ⊢
  have h5 := excessStep_inv n 32 31 s6 _ rfl (Nat.le_refl _) h6.1 h6.2
  generalize Binary32.excessStep n 32 s6 = s5 at h5 ⊢
  have h4 := excessStep_inv n 16 15 s5 _ rfl (Nat.le_refl _) h5.1 h5.2
  generalize Binary32.excessStep n 16 s5 = s4 at h4 ⊢
  have h3 := excessStep_inv n 8 7 s4 _ rfl (Nat.le_refl _) h4.1 h4.2
  generalize Binary32.excessStep n 8 s4 = s3 at h3 ⊢
  have h2 := excessStep_inv n 4 3 s3 _ rfl (Nat.le_refl _) h3.1 h3.2
  generalize Binary32.excessStep n 4 s3 = s2 at h2 ⊢
  have h1 := excessStep_inv n 2 1 s2 _ rfl (Nat.le_refl _) h2.1 h2.2
  generalize Binary32.excessStep n 2 s2 = s1 at h1 ⊢
  have h0 := excessStep_inv n 1 0 s1 _ rfl (Nat.le_refl _) h1.1 h1.2
  generalize Binary32.excessStep n 1 s1 = s0 at h0 ⊢
  exact h0

/-- A number below `2 ^ (24 + t)` has at most `t` excess bits. -/
theorem excessBits_le_of_lt (n t : Nat) (ht : t ≤ 255) (h : n < 2 ^ (24 + t)) :
    Binary32.excessBits n ≤ t := by
  obtain ⟨hlo, _⟩ := excessBits_spec n (24 + t) (by omega) h
  by_contra hc
  rcases hlo with h0 | hlo
  · omega
  · have : 2 ^ (24 + t) ≤ 2 ^ (23 + Binary32.excessBits n) :=
      Nat.pow_le_pow_right (by decide) (by omega)
    omega

/-- A number with exactly `24 + t` bits has `t` excess bits. -/
theorem excessBits_eq (n t : Nat) (ht : t ≤ 255) (hlo : t = 0 ∨ 2 ^ (23 + t) ≤ n)
    (h : n < 2 ^ (24 + t)) : Binary32.excessBits n = t := by
  have hle := excessBits_le_of_lt n t ht h
  obtain ⟨_, c⟩ := excessBits_spec n (24 + t) (by omega) h
  rcases Nat.lt_or_ge (Binary32.excessBits n) t with hlt | hge
  · exfalso
    rcases hlo with h0 | hlo
    · omega
    · have : 2 ^ (24 + Binary32.excessBits n) ≤ 2 ^ (23 + t) :=
        Nat.pow_le_pow_right (by decide) (by omega)
      omega
  · omega

/-- An exact quotient is not rounded. -/
theorem roundHalfEven_of_dvd (n d : Nat) (hd : 0 < d) (h : d ∣ n) :
    Binary32.roundHalfEven n d = n / d := by
  unfold Binary32.roundHalfEven
  have hr : n % d = 0 := Nat.mod_eq_zero_of_dvd h
  simp only [hr, Nat.mul_zero, if_pos hd]

/-- A common factor of numerator and denominator does not change the rounded quotient. -/
theorem roundHalfEven_mul_right (a b k : Nat) (hk : 0 < k) :
    Binary32.roundHalfEven (a * k) (b * k) = Binary32.roundHalfEven a b := by
  unfold Binary32.roundHalfEven
  have hq : a * k / (b * k) = a / b := Nat.mul_div_mul_right a b hk
  have hr : a * k % (b * k) = a % b * k := Nat.mul_mod_mul_right k a b
  simp only [hq, hr]
  have e1 : (2 * (a % b * k) < b * k) ↔ (2 * (a % b) < b) := by
    rw [← Nat.mul_assoc]
    exact Nat.mul_lt_mul_right hk
  have e2 : (b * k < 2 * (a % b * k)) ↔ (b < 2 * (a % b)) := by
    rw [← Nat.mul_assoc]
    exact Nat.mul_lt_mul_right hk
  simp only [e1, e2]

/-- A quotient with at most 24 significant bits is not rounded. -/
theorem roundMagnitude_exact (x j d : Nat) (hd : 0 < d) (hj : j ≤ 255) (hx : x < 2 ^ 24) :
    Binary32.roundMagnitude (x * 2 ^ j * d) d = x * 2 ^ j := by
  unfold Binary32.roundMagnitude
  have hq : x * 2 ^ j * d / d = x * 2 ^ j := Nat.mul_div_cancel _ hd
  simp only [hq]
  have hs : Binary32.excessBits (x * 2 ^ j) ≤ j := by
    apply excessBits_le_of_lt _ _ hj
    rw [Nat.pow_add]
    exact Nat.mul_lt_mul_of_pos_right hx (Nat.two_pow_pos _)
  generalize Binary32.excessBits (x * 2 ^ j) = s at hs
  obtain ⟨u, rfl⟩ := Nat.exists_eq_add_of_le hs
  have e : x * 2 ^ (s + u) * d = (x * 2 ^ u) * (d * 2 ^ s) := by
    rw [Nat.pow_add]; ring
  rw [e, roundHalfEven_of_dvd _ _ (Nat.mul_pos hd (Nat.two_pow_pos _))
    (Nat.dvd_mul_left _ _),
    Nat.mul_div_cancel _ (Nat.mul_pos hd (Nat.two_pow_pos _))]
  rw [Nat.pow_add]; ring

/-- The rounding of a quotient `m * 2 ^ j` for `m` of exactly `24 + t` bits: `m` is rounded
to a multiple of `2 ^ t`. -/
theorem roundMagnitude_binade (m t j d : Nat) (hd : 0 < d) (ht : t + j ≤ 255)
    (hlo : 2 ^ (23 + t) ≤ m) (hhi : m < 2 ^ (24 + t)) :
    Binary32.roundMagnitude (m * 2 ^ j * d) d = Binary32.roundHalfEven m (2 ^ t) * 2 ^ (t + j) := by
  unfold Binary32.roundMagnitude
  have hq : m * 2 ^ j * d / d = m * 2 ^ j := Nat.mul_div_cancel _ hd
  simp only [hq]
  have hs : Binary32.excessBits (m * 2 ^ j) = t + j := by
    apply excessBits_eq _ _ ht
    · right
      have : 2 ^ (23 + (t + j)) = 2 ^ (23 + t) * 2 ^ j := by rw [← Nat.pow_add]; ring_nf
      rw [this]
      exact Nat.mul_le_mul_right _ hlo
    · have : 2 ^ (24 + (t + j)) = 2 ^ (24 + t) * 2 ^ j := by rw [← Nat.pow_add]; ring_nf
      rw [this]
      exact Nat.mul_lt_mul_of_pos_right hhi (Nat.two_pow_pos _)
  rw [hs]
  have e1 : m * 2 ^ j * d = m * (2 ^ j * d) := by ring
  have e2 : d * 2 ^ (t + j) = 2 ^ t * (2 ^ j * d) := by rw [Nat.pow_add]; ring
  rw [e1, e2, roundHalfEven_mul_right _ _ _ (Nat.mul_pos (Nat.two_pow_pos _) hd)]

/-- The rounded quotient times the denominator is within half a denominator of the
numerator. -/
theorem roundHalfEven_near (n d : Nat) (hd : 0 < d) :
    2 * (Binary32.roundHalfEven n d * d) ≤ 2 * n + d
      ∧ 2 * n ≤ 2 * (Binary32.roundHalfEven n d * d) + d := by
  unfold Binary32.roundHalfEven
  have h1 := Nat.div_add_mod n d
  have h2 := Nat.mod_lt n hd
  have e : d * (n / d) = n / d * d := Nat.mul_comm _ _
  rw [e] at h1
  generalize n / d = q at h1
  generalize n % d = r at h1 h2
  dsimp only
  split_ifs
  · constructor <;> omega
  · rw [Nat.add_mul]; constructor <;> omega
  · constructor <;> omega
  · rw [Nat.add_mul]; constructor <;> omega

/-- The ceiling of `q * 1.1f` rounded to a multiple of `D / 2 ^ 23`, for `q * 1.1f` below
`2 ^ 22`: it is the ceiling of `11 q / 10`.  Here `9227469 / 2 ^ 23` is `1.1f` and `R * D` is
the rounded numerator. -/
theorem bonus_round_core (q R D E : Nat) (hDE : D * E = 2 ^ 23) (hD : D ≤ 2 ^ 21)
    (hlo : 2 ^ 23 * D ≤ q * 9227469) (hhi : q * 9227469 < 2 ^ 24 * D)
    (h1 : 2 * (R * D) ≤ 2 * (q * 9227469) + D)
    (h2 : 2 * (q * 9227469) ≤ 2 * (R * D) + D) :
    (R * D + 2 ^ 23 - 1) / 2 ^ 23 = (11 * q + 9) / 10 := by
  norm_num at hDE hD hlo hhi ⊢
  have hDpos : 0 < D := by
    rcases Nat.eq_zero_or_pos D with h | h
    · rw [h] at hDE; simp at hDE
    · exact h
  obtain ⟨M, hM⟩ : ∃ M, M = (11 * q + 9) / 10 := ⟨_, rfl⟩
  rw [← hM]
  have hM1 : 11 * q ≤ 10 * M := by omega
  have hM2 : 10 * M ≤ 11 * q + 9 := by omega
  have hup : R * D ≤ M * 8388608 := by
    by_contra hc
    have hR : M * E + 1 ≤ R := by
      by_contra hc2
      have : R ≤ M * E := by omega
      have h3 := Nat.mul_le_mul_right D this
      have e3 : M * E * D = M * (D * E) := by ring
      rw [e3, hDE] at h3
      exact hc h3
    have h3 := Nat.mul_le_mul_right D hR
    have e3 : (M * E + 1) * D = M * (D * E) + D := by ring
    rw [e3, hDE] at h3
    omega
  have hM0 : 1 ≤ M := by omega
  have hdown : (M - 1) * 8388608 < R * D := by
    by_contra hc
    have hR : R ≤ (M - 1) * E := by
      by_contra hc2
      have : (M - 1) * E + 1 ≤ R := by omega
      have h3 := Nat.mul_le_mul_right D this
      have e3 : ((M - 1) * E + 1) * D = (M - 1) * (D * E) + D := by ring
      rw [e3, hDE] at h3
      omega
    have h3 := Nat.mul_le_mul_right D hR
    have e3 : (M - 1) * E * D = (M - 1) * (D * E) := by ring
    rw [e3, hDE] at h3
    omega
  generalize R * D = V at hup hdown
  omega

/-- The rounding of a quotient that is not negative. -/
theorem Binary32_round_natCast (n den : Nat) :
    Binary32.round (n : Int) den
      = ⟨((Binary32.roundMagnitude (n * Binary32.SCALE) den : Nat) : Int)⟩ := by
  unfold Binary32.round
  have h : ¬ ((n : Int) < 0) := by omega
  simp only [if_neg h, Int.natAbs_ofNat]

/-- The conversion of an unsigned value below `2 ^ 24` is exact. -/
theorem Binary32_ofNat_of_lt (q : Nat) (hq : q < 2 ^ 24) :
    Binary32.ofNat q = ⟨((q * 2 ^ 149 : Nat) : Int)⟩ := by
  unfold Binary32.ofNat
  rw [Binary32_round_natCast]
  have e : q * Binary32.SCALE = q * 2 ^ 149 * 1 := by
    unfold Binary32.SCALE; ring
  rw [e, roundMagnitude_exact q 149 1 (by decide) (by decide) hq]

/-- The product of two values that are not negative. -/
theorem Binary32_mul_natCast (a b : Nat) :
    Binary32.mul ⟨(a : Int)⟩ ⟨(b : Int)⟩
      = ⟨((Binary32.roundMagnitude (a * b * Binary32.SCALE)
            (Binary32.SCALE * Binary32.SCALE) : Nat) : Int)⟩ := by
  unfold Binary32.mul
  have e : ((a : Int) * (b : Int)) = ((a * b : Nat) : Int) := by push_cast; rfl
  simp only [e, Binary32_round_natCast]

/-- The conversion to `unsigned int` of a value in range. -/
theorem toUnsigned_natCast (n : Nat) (h : n < 2 ^ 32) : toUnsigned (n : Int) = some n := by
  unfold toUnsigned
  have h1 : (0 : Int) ≤ (n : Int) ∧ (n : Int) < 2 ^ 32 := by
    constructor
    · omega
    · exact_mod_cast h
  simp only [if_pos h1, Int.toNat_ofNat]

/-- The floor of a value that is not negative. -/
theorem Binary32_floor_natCast (a : Nat) :
    Binary32.floor ⟨(a : Int)⟩ = ((a / Binary32.SCALE : Nat) : Int) := by
  unfold Binary32.floor
  push_cast
  rfl

/-- The ceiling of a value that is not negative. -/
theorem Binary32_ceil_natCast (a : Nat) :
    Binary32.ceil ⟨(a : Int)⟩ = (((a + Binary32.SCALE - 1) / Binary32.SCALE : Nat) : Int) := by
  unfold Binary32.ceil
  have hpos : 1 ≤ a + Binary32.SCALE := by
    unfold Binary32.SCALE
    have := Nat.two_pow_pos 149
    omega
  push_cast [Nat.cast_sub hpos]
  rfl

/-- The literal `0.75f` is `3 / 4`. -/
theorem literal_75_100 : Binary32.literal 75 100 = ⟨((3 * 2 ^ 147 : Nat) : Int)⟩ := by decide

/-- The literal `1.1f` is `9227469 / 2 ^ 23`. -/
theorem literal_11_10 : Binary32.literal 11 10 = ⟨((9227469 * 2 ^ 126 : Nat) : Int)⟩ := by decide

/-- Below `2 ^ 24 / 3` the product with `0.75f` is exact. -/
theorem partialCellF32_of_lt (q : Nat) (hq : 3 * q < 2 ^ 24) :
    partialCellF32 q = some (3 * q / 4) := by
  unfold partialCellF32
  dsimp only
  rw [literal_75_100, Binary32_ofNat_of_lt q (by omega), Binary32_mul_natCast]
  have e : q * 2 ^ 149 * (3 * 2 ^ 147) * Binary32.SCALE
      = (3 * q) * 2 ^ 147 * (Binary32.SCALE * Binary32.SCALE) := by
    unfold Binary32.SCALE; ring
  rw [e, roundMagnitude_exact (3 * q) 147 _ (by unfold Binary32.SCALE; positivity) (by decide) hq,
    Binary32_floor_natCast]
  have e2 : 3 * q * 2 ^ 147 / Binary32.SCALE = 3 * q / 4 := by
    have : Binary32.SCALE = 4 * 2 ^ 147 := by unfold Binary32.SCALE; norm_num
    rw [this]
    exact Nat.mul_div_mul_right _ _ (Nat.two_pow_pos 147)
  rw [e2]
  exact toUnsigned_natCast _ (by omega)

/-- The ceiling of a value `x / 2 ^ 23` from its units. -/
theorem ceil_scale (x : Nat) :
    (x * 2 ^ 126 + Binary32.SCALE - 1) / Binary32.SCALE = (x + 2 ^ 23 - 1) / 2 ^ 23 := by
  have hS : Binary32.SCALE = 2 ^ 126 * 2 ^ 23 := by unfold Binary32.SCALE; norm_num
  rw [hS, ← Nat.div_div_eq_div_mul]
  congr 1
  have h126 : 0 < 2 ^ 126 := Nat.two_pow_pos 126
  have h23 : 0 < 2 ^ 23 := Nat.two_pow_pos 23
  have e : x * 2 ^ 126 + 2 ^ 126 * 2 ^ 23 - 1 = (2 ^ 126 - 1) + (x + 2 ^ 23 - 1) * 2 ^ 126 := by
    rw [Nat.mul_comm (2 ^ 126) (2 ^ 23)]
    have : (x + 2 ^ 23 - 1) * 2 ^ 126 = x * 2 ^ 126 + 2 ^ 23 * 2 ^ 126 - 2 ^ 126 := by
      rw [Nat.sub_mul, Nat.add_mul, Nat.one_mul]
    rw [this]
    have h3 : 2 ^ 126 ≤ x * 2 ^ 126 + 2 ^ 23 * 2 ^ 126 := by
      have : 2 ^ 126 ≤ 2 ^ 23 * 2 ^ 126 := Nat.le_mul_of_pos_left _ h23
      omega
    omega
  rw [e, Nat.add_mul_div_right _ _ h126, Nat.div_eq_of_lt (by omega), Nat.zero_add]

/-- Up to `3813003` the product with `1.1f` is below `2 ^ 22` and its ceiling is the
ceiling of `11 q / 10`. -/
theorem bonusCellF32_of_le (q : Nat) (hq : q ≤ 3813003) :
    bonusCellF32 q = some ((11 * q + 9) / 10) := by
  by_cases hq1 : q ≤ 1
  · interval_cases q <;> decide
  unfold bonusCellF32
  dsimp only
  rw [literal_11_10, Binary32_ofNat_of_lt q (by omega), Binary32_mul_natCast]
  have e : q * 2 ^ 149 * (9227469 * 2 ^ 126) * Binary32.SCALE
      = (q * 9227469) * 2 ^ 126 * (Binary32.SCALE * Binary32.SCALE) := by
    unfold Binary32.SCALE; ring
  have hm : q * 9227469 < 2 ^ (24 + 21) := by norm_num; omega
  have hm2 : 2 ^ 24 ≤ q * 9227469 := by norm_num; omega
  obtain ⟨t, ht⟩ : ∃ t, t = Binary32.excessBits (q * 9227469) := ⟨_, rfl⟩
  have ht21 : t ≤ 21 := by rw [ht]; exact excessBits_le_of_lt _ _ (by decide) hm
  obtain ⟨c, hhi⟩ := excessBits_spec (q * 9227469) (24 + 21) (by decide) hm
  rw [← ht] at c hhi
  have ht1 : 1 ≤ t := by
    by_contra h0
    have : t = 0 := by omega
    rw [this] at hhi
    omega
  have hlo : 2 ^ (23 + t) ≤ q * 9227469 := by
    rcases c with c | c
    · omega
    · exact c
  rw [e, roundMagnitude_binade (q * 9227469) t 126 _ (by unfold Binary32.SCALE; positivity)
    (by omega) hlo hhi, Binary32_ceil_natCast]
  have e3 : Binary32.roundHalfEven (q * 9227469) (2 ^ t) * 2 ^ (t + 126)
      = (Binary32.roundHalfEven (q * 9227469) (2 ^ t) * 2 ^ t) * 2 ^ 126 := by
    rw [Nat.pow_add]; ring
  rw [e3, ceil_scale]
  obtain ⟨h1, h2⟩ := roundHalfEven_near (q * 9227469) (2 ^ t) (Nat.two_pow_pos t)
  have hDE : 2 ^ t * 2 ^ (23 - t) = 2 ^ 23 := by
    rw [← Nat.pow_add, show t + (23 - t) = 23 from by omega]
  have hD : 2 ^ t ≤ 2 ^ 21 := Nat.pow_le_pow_right (by decide) ht21
  have hlo2 : 2 ^ 23 * 2 ^ t ≤ q * 9227469 := by rw [← Nat.pow_add]; exact hlo
  have hhi2 : q * 9227469 < 2 ^ 24 * 2 ^ t := by rw [← Nat.pow_add]; exact hhi
  rw [bonus_round_core q _ (2 ^ t) (2 ^ (23 - t)) hDE hD hlo2 hhi2 h1 h2]
  exact toUnsigned_natCast _ (by omega)

/-- The Bonus cell of the seven quantities from 3813004 to 3813010, by evaluation. -/
theorem bonusCellF32_near (q : Nat) (h1 : 3813003 < q) (h2 : q ≤ 3813010) :
    bonusCellF32 q = some ((11 * q + 9) / 10) := by
  interval_cases q <;> decide

/-- The Partial cell of the three quantities from 5592406 to 5592408, by evaluation. -/
theorem partialCellF32_near (q : Nat) (h1 : 5592405 < q) (h2 : q ≤ 5592408) :
    partialCellF32 q = some (3 * q / 4) := by
  interval_cases q <;> decide

/-- Cells that are all defined. -/
theorem castCells_of_forall (g : Nat → Option Nat) (h : Nat → Nat) (l : List Nat)
    (H : ∀ q ∈ l, g q = some (h q)) : castCells g l = some (l.map h) := by
  induction l with
  | nil => rfl
  | cons q rest ih =>
    have h1 := H q (List.mem_cons_self _ _)
    have h2 := ih (fun x hx => H x (List.mem_cons_of_mem _ hx))
    simp only [castCells, h1, h2, List.map_cons]

/-- The store loop over a whole result array whose cells are all defined. -/
theorem storeCastCells_full (g : Nat → Option Nat) (src dst cells : List Nat)
    (hd : dst.length = src.length) (hc : castCells g src = some cells) :
    storeCastCells g src.length src (some dst) = some (some cells) := by
  unfold storeCastCells
  have h : src.length ≤ src.length ∧ src.length ≤ dst.length := ⟨Nat.le_refl _, by omega⟩
  have hdrop : dst.drop src.length = [] := by
    rw [← hd]; exact List.drop_length dst
  simp only [if_pos h, List.take_length, hc, hdrop, List.append_nil]

/-- There are as many cells as quantities. -/
theorem castCells_length (g : Nat → Option Nat) (l : List Nat) :
    ∀ cells, castCells g l = some cells → cells.length = l.length := by
  induction l with
  | nil =>
    intro cells h
    simp only [castCells, Option.some.injEq] at h
    rw [← h]
  | cons q rest ih =>
    intro cells h
    simp only [castCells] at h
    cases hg : g q with
    | none => rw [hg] at h; exact Option.noConfusion h
    | some c =>
      rw [hg] at h
      cases hr : castCells g rest with
      | none => rw [hr] at h; exact Option.noConfusion h
      | some cs =>
        rw [hr] at h
        simp only [Option.some.injEq] at h
        rw [← h, List.length_cons, List.length_cons, ih cs hr]

/-- Last write wins, in binary32. -/
theorem ApplyTiersF32_eq (bo : ByteOrder) (r : Binary32) (c : OutcomeModifiersF32)
    (src : List Nat) (v : Nat) (rest : List Nat) (pc bc : List Nat)
    (hlen : (v :: rest).length = src.length)
    (hp : Formula.PartialTestF32 r c → castCells partialCellF32 src = some pc)
    (hb : Formula.BonusTestF32 r c → castCells bonusCellF32 src = some bc) :
    Formula.ApplyTiersF32 bo r c src.length src (some (v :: rest)) =
      some (some
        (if Formula.NormalTestF32 r c then src
         else if Formula.BonusTestF32 r c then bc
         else if Formula.PartialTestF32 r c then pc
         else if Formula.FailureTestF32 r c then clearFirstByte bo v :: rest
         else v :: rest)) := by
  have hst : ∀ (g : Nat → Nat) (dst : List Nat), dst.length = src.length →
      storeCells g src.length src (some dst) = some (some (src.map g)) := by
    intro g dst hd
    simp [storeCells, hd]
  have hl1 : (clearFirstByte bo v :: rest).length = src.length := by simpa using hlen
  unfold Formula.ApplyTiersF32
  unfold Formula.NormalTestF32 Formula.BonusTestF32 Formula.PartialTestF32
    Formula.FailureTestF32 at *
  by_cases hF : r < c.Failure
    <;> by_cases hP : (r > c.Failure ∧ r < Binary32.add c.Partial c.Failure)
    <;> by_cases hB : (r > Binary32.add c.Partial c.Failure ∧ r < c.Normal)
    <;> by_cases hN : (r > Binary32.add (Binary32.add c.Failure c.Bonus) c.Partial
          ∧ r < Binary32.ofNat 1)
    <;> first
      | (have hpc := hp hP
         have hbc := hb hB
         have hpl := castCells_length _ _ _ hpc
         have hbl := castCells_length _ _ _ hbc
         simp only [if_pos, if_neg, hF, hP, hB, hN, not_false_eq_true, and_self, if_true,
           if_false, memsetResult, Option.some_bind, hst _ _ hlen, hst _ _ hl1, hst _ _ hpl,
           hst _ _ hbl, storeCastCells_full _ _ _ _ hlen hpc, storeCastCells_full _ _ _ _ hl1 hpc,
           storeCastCells_full _ _ _ _ hpl hbc, List.map_id])
      | (have hpc := hp hP
         have hpl := castCells_length _ _ _ hpc
         simp only [if_pos, if_neg, hF, hP, hB, hN, not_false_eq_true, and_self, if_true,
           if_false, memsetResult, Option.some_bind, hst _ _ hlen, hst _ _ hl1, hst _ _ hpl,
           storeCastCells_full _ _ _ _ hlen hpc, storeCastCells_full _ _ _ _ hl1 hpc,
           List.map_id])
      | (have hbc := hb hB
         have hbl := castCells_length _ _ _ hbc
         simp only [if_pos, if_neg, hF, hP, hB, hN, not_false_eq_true, and_self, if_true,
           if_false, memsetResult, Option.some_bind, hst _ _ hlen, hst _ _ hl1,
           hst _ _ hbl, storeCastCells_full _ _ _ _ hlen hbc, storeCastCells_full _ _ _ _ hl1 hbc,
           List.map_id])
      | simp only [if_pos, if_neg, hF, hP, hB, hN, not_false_eq_true, and_self, if_true,
           if_false, memsetResult, Option.some_bind, hst _ _ hlen, hst _ _ hl1, List.map_id]

/-- `Apply` in binary32 on an initialised Formula, in closed form. -/
theorem ApplyF32_eq_of_Initialised (bo : ByteOrder) (r : Binary32) (f : Formula)
    (outQ : List Nat) (v : Nat) (rest : List Nat) (pc bc : List Nat) (hf : f.Initialised)
    (hq : f.OutputQuantities = some outQ) (hra : f.ResultArray = some (v :: rest))
    (hp : Formula.PartialTestF32 r (Formula.GetOutcomeChancesF32 f.ProficiencyLevel) →
      castCells partialCellF32 outQ = some pc)
    (hb : Formula.BonusTestF32 r (Formula.GetOutcomeChancesF32 f.ProficiencyLevel) →
      castCells bonusCellF32 outQ = some bc) :
    Formula.ApplyF32 bo r f =
      ⟨{ f with
          ResultArray := some
            (if Formula.NormalTestF32 r (Formula.GetOutcomeChancesF32 f.ProficiencyLevel) then
               outQ
             else if Formula.BonusTestF32 r
                (Formula.GetOutcomeChancesF32 f.ProficiencyLevel) then bc
             else if Formula.PartialTestF32 r
                (Formula.GetOutcomeChancesF32 f.ProficiencyLevel) then pc
             else if Formula.FailureTestF32 r
                (Formula.GetOutcomeChancesF32 f.ProficiencyLevel) then
               clearFirstByte bo v :: rest
             else v :: rest),
          ProficiencyLevel := Formula.IncrementProficiencyLevel 0 f.ProficiencyLevel },
        none⟩ := by
  obtain ⟨h1, h2, h3, h4, h5, hpos⟩ := hf
  obtain ⟨l1, q1, hl1⟩ := (hasSize_iff _ _).1 h1
  obtain ⟨l2, q2, hl2⟩ := (hasSize_iff _ _).1 h2
  obtain ⟨l3, q3, hl3⟩ := (hasSize_iff _ _).1 h3
  obtain ⟨l4, q4, hl4⟩ := (hasSize_iff _ _).1 h4
  obtain ⟨l5, q5, hl5⟩ := (hasSize_iff _ _).1 h5
  have e4 : l4 = outQ := by rw [hq] at q4; exact (Option.some.inj q4).symm
  have e5 : l5 = v :: rest := by rw [hra] at q5; exact (Option.some.inj q5).symm
  subst e4 e5
  have hlen : (v :: rest).length = l4.length := by rw [hl5, hl4]
  have ht := ApplyTiersF32_eq bo r (Formula.GetOutcomeChancesF32 f.ProficiencyLevel) l4 v rest
    pc bc hlen hp hb
  rw [hl4] at ht
  unfold Formula.ApplyF32
  simp only [q1, q2, q3, hq, hra, ht]

/-- When no tier test holds the tiers write nothing. -/
theorem ApplyTiersF32_unmatched (bo : ByteOrder) (r : Binary32) (c : OutcomeModifiersF32)
    (n : Nat) (src : List Nat) (ra : Option (List Nat))
    (hF : ¬ Formula.FailureTestF32 r c) (hP : ¬ Formula.PartialTestF32 r c)
    (hB : ¬ Formula.BonusTestF32 r c) (hN : ¬ Formula.NormalTestF32 r c) :
    Formula.ApplyTiersF32 bo r c n src ra = some ra := by
  unfold Formula.FailureTestF32 at hF
  unfold Formula.PartialTestF32 at hP
  unfold Formula.BonusTestF32 at hB
  unfold Formula.NormalTestF32 at hN
  unfold Formula.ApplyTiersF32
  simp only [if_neg hF, if_neg hP, if_neg hB, if_neg hN, Option.some_bind]

/-- Up to level 5 the sum that bounds the Partial test does not exceed the sum that
bounds the Normal test, in binary32. -/
theorem partial_bound_le_normal_bound (L : Nat) (hL : L ≤ 5) :
    (Binary32.add (Formula.GetOutcomeChancesF32 L).Partial
        (Formula.GetOutcomeChancesF32 L).Failure).units
      ≤ (Binary32.add (Binary32.add (Formula.GetOutcomeChancesF32 L).Failure
            (Formula.GetOutcomeChancesF32 L).Bonus)
          (Formula.GetOutcomeChancesF32 L).Partial).units := by
  interval_cases L <;> decide

/-- Up to 5592408 the Partial cell in binary32 is `floor (3 q / 4)`. -/
theorem partialCellF32_of_le (q : Nat) (hq : q ≤ 5592408) :
    partialCellF32 q = some (3 * q / 4) := by
  by_cases h : 3 * q < 2 ^ 24
  · exact partialCellF32_of_lt q h
  · exact partialCellF32_near q (by omega) hq

/-- Up to 3813010 the Bonus cell in binary32 is `ceil (11 q / 10)`. -/
theorem bonusCellF32_small (q : Nat) (hq : q ≤ 3813010) :
    bonusCellF32 q = some ((11 * q + 9) / 10) := by
  by_cases h : q ≤ 3813003
  · exact bonusCellF32_of_le q h
  · exact bonusCellF32_near q (by omega) hq

/-- C12 (counterexample): the Formula `{A:1} -> {C:5592409}` at level 0 is initialised and
the two-decimal draw `0.30` passes the Partial test.  `Apply` returns normally and
stores 4194307 in the result cell, the floor of the binary32 product
`float (5592409) * 0.75f`, where `floor (0.75 * 5592409) = floor (3 * 5592409 / 4)` is
4194306. -/
theorem ApplyF32_partial_cell_differs_C12 :
    (formulaOfQuantity 5592409).Initialised
      ∧ (formulaOfQuantity 5592409).ProficiencyLevel = 0
      ∧ Formula.PartialTestF32 (Formula.twoDecimalDraw 30) (Formula.GetOutcomeChancesF32 0)
      ∧ (Formula.ApplyF32 ByteOrder.little (Formula.twoDecimalDraw 30)
          (formulaOfQuantity 5592409)).thrown = none
      ∧ (Formula.ApplyF32 ByteOrder.little (Formula.twoDecimalDraw 30)
          (formulaOfQuantity 5592409)).state.ResultArray = some [4194307]
      ∧ 3 * 5592409 / 4 = 4194306 := by
  decide

/-- C12 (amended): with the `float` arithmetic of `Apply` in binary32.  For every byte
order, every initialised Formula at a level 0..5 whose output quantities are all
at most 5592408, and every `float` draw that passes the Partial test of `Apply`
(`Failure < r` and `r < Partial + Failure`, on the binary32 values the code
compares), `Apply` returns normally and every result cell is `floor (3 q / 4)`, that
is `floor (0.75 q)`, for its output quantity `q`. -/
theorem ApplyF32_partial_tier_C12 (bo : ByteOrder) (r : Binary32) (f : Formula)
    (outQ : List Nat) (hf : f.Initialised) (hlevel : f.ProficiencyLevel ≤ 5)
    (hq : f.OutputQuantities = some outQ) (hsmall : ∀ q ∈ outQ, q ≤ 5592408)
    (htest : Formula.PartialTestF32 r (Formula.GetOutcomeChancesF32 f.ProficiencyLevel)) :
    (Formula.ApplyF32 bo r f).thrown = none
      ∧ (Formula.ApplyF32 bo r f).state.ResultArray = some (outQ.map fun q => 3 * q / 4) := by
  obtain ⟨v, rest, hra⟩ := Initialised_result_cons f hf
  have hpc : castCells partialCellF32 outQ = some (outQ.map fun q => 3 * q / 4) :=
    castCells_of_forall _ _ _ (fun q hmem => partialCellF32_of_le q (hsmall q hmem))
  have hle := partial_bound_le_normal_bound f.ProficiencyLevel hlevel
  have hB : ¬ Formula.BonusTestF32 r (Formula.GetOutcomeChancesF32 f.ProficiencyLevel) := by
    intro h
    have h1 : r.units < _ := htest.2
    have h2 : _ < r.units := h.1
    omega
  have hN : ¬ Formula.NormalTestF32 r (Formula.GetOutcomeChancesF32 f.ProficiencyLevel) := by
    intro h
    have h1 : r.units < _ := htest.2
    have h2 : _ < r.units := h.1
    omega
  rw [ApplyF32_eq_of_Initialised bo r f outQ v rest _ [] hf hq hra (fun _ => hpc)
    (fun h => absurd h hB)]
  refine ⟨rfl, ?_⟩
  simp only [if_neg hN, if_neg hB, if_pos htest]

/-- Witness of C12 (amended): level 0, the two-decimal draw `0.30`, outputs `[10]` give the
result `[7]`. -/
theorem ApplyF32_partial_tier_C12_witness :
    formula10.Initialised
      ∧ Formula.PartialTestF32 (Formula.twoDecimalDraw 30)
          (Formula.GetOutcomeChancesF32 formula10.ProficiencyLevel)
      ∧ (Formula.ApplyF32 ByteOrder.little (Formula.twoDecimalDraw 30) formula10).thrown = none
      ∧ (Formula.ApplyF32 ByteOrder.little (Formula.twoDecimalDraw 30)
          formula10).state.ResultArray = some [7] :=
  ⟨by decide, by decide,
    ApplyF32_partial_tier_C12 ByteOrder.little (Formula.twoDecimalDraw 30) formula10 [10]
      (by decide) (by decide) rfl (by decide) (by decide)⟩

/-- C14 (counterexample): the Formula `{A:1} -> {C:3813011}` at level 0 is initialised and
the two-decimal draw `0.47` passes the Bonus test and not the Normal test.  `Apply`
returns normally and stores 4194312 in the result cell, the ceiling of the
binary32 product `float (3813011) * 1.1f`, where `ceil (1.1 * 3813011) =
ceil (11 * 3813011 / 10)` is 4194313.  For the output quantity 4294967295 the
ceiling of the product is above the range of `unsigned int` and the conversion
is undefined. -/
theorem ApplyF32_bonus_cell_differs_C14 :
    (formulaOfQuantity 3813011).Initialised
      ∧ Formula.BonusTestF32 (Formula.twoDecimalDraw 47) (Formula.GetOutcomeChancesF32 0)
      ∧ ¬ Formula.NormalTestF32 (Formula.twoDecimalDraw 47) (Formula.GetOutcomeChancesF32 0)
      ∧ (Formula.ApplyF32 ByteOrder.little (Formula.twoDecimalDraw 47)
          (formulaOfQuantity 3813011)).thrown = none
      ∧ (Formula.ApplyF32 ByteOrder.little (Formula.twoDecimalDraw 47)
          (formulaOfQuantity 3813011)).state.ResultArray = some [4194312]
      ∧ (11 * 3813011 + 9) / 10 = 4194313
      ∧ (formulaOfQuantity 4294967295).Initialised
      ∧ (Formula.ApplyF32 ByteOrder.little (Formula.twoDecimalDraw 47)
          (formulaOfQuantity 4294967295)).thrown = some Exn.undefined := by
  decide

/-- C14 (amended): with the `float` arithmetic of `Apply` in binary32.  For every byte
order, every initialised Formula whose output quantities are all at most
3813010, and every `float` draw that passes the Bonus test of `Apply`
(`Partial + Failure < r` and `r < Normal`, on the binary32 values the code compares)
and not the Normal test, `Apply` returns normally and every result cell is
`ceil (11 q / 10)`, that is `ceil (1.1 q)`, for its output quantity `q`; the ceiling is
written `(11 q + 9) / 10` with the division of natural numbers. -/
theorem ApplyF32_bonus_tier_C14 (bo : ByteOrder) (r : Binary32) (f : Formula)
    (outQ : List Nat) (hf : f.Initialised)
    (hq : f.OutputQuantities = some outQ) (hsmall : ∀ q ∈ outQ, q ≤ 3813010)
    (hB : Formula.BonusTestF32 r (Formula.GetOutcomeChancesF32 f.ProficiencyLevel))
    (hN : ¬ Formula.NormalTestF32 r (Formula.GetOutcomeChancesF32 f.ProficiencyLevel)) :
    (Formula.ApplyF32 bo r f).thrown = none
      ∧ (Formula.ApplyF32 bo r f).state.ResultArray
          = some (outQ.map fun q => (11 * q + 9) / 10) := by
  obtain ⟨v, rest, hra⟩ := Initialised_result_cons f hf
  have hbc : castCells bonusCellF32 outQ = some (outQ.map fun q => (11 * q + 9) / 10) :=
    castCells_of_forall _ _ _ (fun q hmem => bonusCellF32_small q (hsmall q hmem))
  have hP : ¬ Formula.PartialTestF32 r (Formula.GetOutcomeChancesF32 f.ProficiencyLevel) := by
    intro h
    have h1 : r.units < _ := h.2
    have h2 : _ < r.units := hB.1
    omega
  rw [ApplyF32_eq_of_Initialised bo r f outQ v rest [] _ hf hq hra (fun h => absurd h hP)
    (fun _ => hbc)]
  refine ⟨rfl, ?_⟩
  simp only [if_neg hN, if_pos hB]

/-- Witness of C14 (amended): level 0, the two-decimal draw `0.47`, outputs `[10]` give the
result `[11]`. -/
theorem ApplyF32_bonus_tier_C14_witness :
    formula10.Initialised
      ∧ Formula.BonusTestF32 (Formula.twoDecimalDraw 47)
          (Formula.GetOutcomeChancesF32 formula10.ProficiencyLevel)
      ∧ ¬ Formula.NormalTestF32 (Formula.twoDecimalDraw 47)
          (Formula.GetOutcomeChancesF32 formula10.ProficiencyLevel)
      ∧ (Formula.ApplyF32 ByteOrder.little (Formula.twoDecimalDraw 47) formula10).thrown = none
      ∧ (Formula.ApplyF32 ByteOrder.little (Formula.twoDecimalDraw 47)
          formula10).state.ResultArray = some [11] :=
  ⟨by decide, by decide, by decide,
    ApplyF32_bonus_tier_C14 ByteOrder.little (Formula.twoDecimalDraw 47) formula10 [10]
      (by decide) rfl (by decide) (by decide) (by decide)⟩

set_option maxRecDepth 100000 in
/-- Values of the binary32 embedding: the literal `0.05f` is `13421773 / 2 ^ 28`; at level 3
`Failure` is `3355443 / 2 ^ 25`, below `1 / 10`, and the four modifiers sum to
`33554431 / 2 ^ 25`, below 1; the draw `0.35` passes the Partial test at level 1 and
the draw `0.10` at level 3, the draw `0.15` passes the Bonus test at level 3 and the
draw `0.05` at level 4, each a draw that equals the bound of the test in exact
arithmetic. -/
theorem binary32_values :
    Binary32.literal 5 100 = ⟨13421773 * 2 ^ 121⟩
      ∧ (Formula.GetOutcomeChancesF32 3).Failure = ⟨3355443 * 2 ^ 124⟩
      ∧ (Formula.GetOutcomeChancesF32 3).Failure.units
          + (Formula.GetOutcomeChancesF32 3).Partial.units
          + (Formula.GetOutcomeChancesF32 3).Bonus.units
          + (Formula.GetOutcomeChancesF32 3).Normal.units = 33554431 * 2 ^ 124
      ∧ Formula.PartialTestF32 (Formula.twoDecimalDraw 35) (Formula.GetOutcomeChancesF32 1)
      ∧ Formula.PartialTestF32 (Formula.twoDecimalDraw 10) (Formula.GetOutcomeChancesF32 3)
      ∧ Formula.BonusTestF32 (Formula.twoDecimalDraw 15) (Formula.GetOutcomeChancesF32 3)
      ∧ Formula.BonusTestF32 (Formula.twoDecimalDraw 5) (Formula.GetOutcomeChancesF32 4) := by
  decide

set_option maxRecDepth 100000 in
/-- At level 0 the two-decimal draws that pass none of the four tests, in binary32. -/
theorem unmatched_draws_level0 :
    ∀ k, k ≤ 100 →
      ((¬ Formula.FailureTestF32 (Formula.twoDecimalDraw k) (Formula.GetOutcomeChancesF32 0)
        ∧ ¬ Formula.PartialTestF32 (Formula.twoDecimalDraw k) (Formula.GetOutcomeChancesF32 0)
        ∧ ¬ Formula.BonusTestF32 (Formula.twoDecimalDraw k) (Formula.GetOutcomeChancesF32 0)
        ∧ ¬ Formula.NormalTestF32 (Formula.twoDecimalDraw k) (Formula.GetOutcomeChancesF32 0))
        ↔ (k = 25 ∨ k = 45 ∨ k = 50 ∨ k = 100)) := by
  decide

set_option maxRecDepth 100000 in
/-- Up to level 5 the two-decimal draws that pass none of the four tests, in
binary32. -/
theorem unmatched_draws_levels (L : Nat) (hL : L ≤ 5) :
    ∀ k, k ≤ 100 →
      ((¬ Formula.FailureTestF32 (Formula.twoDecimalDraw k) (Formula.GetOutcomeChancesF32 L)
        ∧ ¬ Formula.PartialTestF32 (Formula.twoDecimalDraw k) (Formula.GetOutcomeChancesF32 L)
        ∧ ¬ Formula.BonusTestF32 (Formula.twoDecimalDraw k) (Formula.GetOutcomeChancesF32 L)
        ∧ ¬ Formula.NormalTestF32 (Formula.twoDecimalDraw k) (Formula.GetOutcomeChancesF32 L))
        ↔ (k = 100 ∨ (L = 0 ∧ (k = 25 ∨ k = 45 ∨ k = 50)) ∨ (L = 1 ∧ k = 20)
            ∨ (L = 2 ∧ (k = 15 ∨ k = 25)))) := by
  interval_cases L <;> decide

/-- C35: with the `float` arithmetic of `Apply` in binary32.  For every byte order, `float`
draw and Formula, when the draw passes none of the four tier tests at the
Formula's level, `Apply` leaves the result array exactly as it was.  At level 0 the
two-decimal draws `k / 100.0f`, `k ≤ 100`, that pass none of the tests are exactly
0.25, 0.45, 0.50 and 1.00.  At the levels 1 to 5 they are 0.20 and 1.00 (level 1),
0.15, 0.25 and 1.00 (level 2) and 1.00 alone (levels 3, 4 and 5). -/
theorem ApplyF32_unmatched_draw_C35 (bo : ByteOrder) :
    (∀ (r : Binary32) (f : Formula),
        ¬ Formula.FailureTestF32 r (Formula.GetOutcomeChancesF32 f.ProficiencyLevel) →
        ¬ Formula.PartialTestF32 r (Formula.GetOutcomeChancesF32 f.ProficiencyLevel) →
        ¬ Formula.BonusTestF32 r (Formula.GetOutcomeChancesF32 f.ProficiencyLevel) →
        ¬ Formula.NormalTestF32 r (Formula.GetOutcomeChancesF32 f.ProficiencyLevel) →
        (Formula.ApplyF32 bo r f).state.ResultArray = f.ResultArray)
      ∧ (∀ k, k ≤ 100 →
          ((¬ Formula.FailureTestF32 (Formula.twoDecimalDraw k) (Formula.GetOutcomeChancesF32 0)
            ∧ ¬ Formula.PartialTestF32 (Formula.twoDecimalDraw k) (Formula.GetOutcomeChancesF32 0)
            ∧ ¬ Formula.BonusTestF32 (Formula.twoDecimalDraw k) (Formula.GetOutcomeChancesF32 0)
            ∧ ¬ Formula.NormalTestF32 (Formula.twoDecimalDraw k) (Formula.GetOutcomeChancesF32 0))
            ↔ (k = 25 ∨ k = 45 ∨ k = 50 ∨ k = 100)))
      ∧ (∀ L, L ≤ 5 → ∀ k, k ≤ 100 →
          ((¬ Formula.FailureTestF32 (Formula.twoDecimalDraw k) (Formula.GetOutcomeChancesF32 L)
            ∧ ¬ Formula.PartialTestF32 (Formula.twoDecimalDraw k) (Formula.GetOutcomeChancesF32 L)
            ∧ ¬ Formula.BonusTestF32 (Formula.twoDecimalDraw k) (Formula.GetOutcomeChancesF32 L)
            ∧ ¬ Formula.NormalTestF32 (Formula.twoDecimalDraw k) (Formula.GetOutcomeChancesF32 L))
            ↔ (k = 100 ∨ (L = 0 ∧ (k = 25 ∨ k = 45 ∨ k = 50)) ∨ (L = 1 ∧ k = 20)
                ∨ (L = 2 ∧ (k = 15 ∨ k = 25))))) := by
  refine ⟨?_, unmatched_draws_level0, unmatched_draws_levels⟩
  intro r f hF hP hB hN
  unfold Formula.ApplyF32
  cases h1 : f.InputQuantities <;> cases h2 : f.OutputQuantities
    <;> cases h3 : f.InputResources <;> cases h4 : f.OutputResources
    <;> simp only [ApplyTiersF32_unmatched bo r _ _ _ _ hF hP hB hN]

/-- Witness of C35: at level 0 the two-decimal draw 0.45 passes no test, and `Apply` leaves
the result array `[0]` of `formulaABC` as it was. -/
theorem ApplyF32_unmatched_draw_C35_witness :
    (Formula.ApplyF32 ByteOrder.little (Formula.twoDecimalDraw 45) formulaABC).state.ResultArray
      = some [0] :=
  (ApplyF32_unmatched_draw_C35 ByteOrder.little).1 (Formula.twoDecimalDraw 45) formulaABC
    (by decide) (by decide) (by decide) (by decide)

/-- Up to 5592408 the Partial cell in binary32 is the cell of exact arithmetic. -/
theorem partialCellF32_eq_exact (q : Nat) (hq : q ≤ 5592408) :
    partialCellF32 q = some (partialCell q) := by
  rw [partialCell_eq]
  exact partialCellF32_of_le q hq

/-- Up to 3813010 the Bonus cell in binary32 is the cell of exact arithmetic. -/
theorem bonusCellF32_eq_exact (q : Nat) (hq : q ≤ 3813010) :
    bonusCellF32 q = some (bonusCell q) := by
  rw [bonusCell_eq]
  exact bonusCellF32_small q hq

/-! ## Ledger-gated apply: the first failing ledger call -/

/-- One iteration of the loop of the ledger-gated apply on a slot that holds `f`. -/
theorem PlanApplyLoop_one (bo : ByteOrder) (draws : Nat → ℚ) (i : Nat) (xp : ExecutablePlan)
    (s : Stockpile) (f : Formula) (hslot : xp.FormulaArray[i]? = some f) :
    ExecutablePlan.PlanApplyLoop bo draws 1 i (xp, s)
      = ⟨({ xp with FormulaArray :=
              xp.FormulaArray.set i (ExecutablePlan.applySlot bo (draws i) f s).state.1 },
          (ExecutablePlan.applySlot bo (draws i) f s).state.2),
         (ExecutablePlan.applySlot bo (draws i) f s).thrown⟩ := by
  unfold ExecutablePlan.PlanApplyLoop
  rw [hslot]
  dsimp only
  cases ht : (ExecutablePlan.applySlot bo (draws i) f s).thrown with
  | some e => rfl
  | none =>
    dsimp only
    unfold ExecutablePlan.PlanApplyLoop
    rfl

/-- The loop with one more iteration: the run of the first `k` iterations, and, when it
raised nothing, one iteration on the slot after them. -/
theorem PlanApplyLoop_succ (bo : ByteOrder) (draws : Nat → ℚ) (k : Nat) :
    ∀ (i : Nat) (st : ExecutablePlan × Stockpile),
      ExecutablePlan.PlanApplyLoop bo draws (k + 1) i st
        = match (ExecutablePlan.PlanApplyLoop bo draws k i st).thrown with
          | some e => ⟨(ExecutablePlan.PlanApplyLoop bo draws k i st).state, some e⟩
          | none =>
            ExecutablePlan.PlanApplyLoop bo draws 1 (i + k)
              (ExecutablePlan.PlanApplyLoop bo draws k i st).state := by
  induction k with
  | zero =>
    intro i st
    obtain ⟨xp, s⟩ := st
    have e : ExecutablePlan.PlanApplyLoop bo draws 0 i (xp, s) = ⟨(xp, s), none⟩ := by
      unfold ExecutablePlan.PlanApplyLoop
      rfl
    rw [e]
    rfl
  | succ k ih =>
    intro i st
    obtain ⟨xp, s⟩ := st
    have hstep : ∀ n, ExecutablePlan.PlanApplyLoop bo draws (n + 1) i (xp, s)
        = match xp.FormulaArray[i]? with
          | none => ⟨(xp, s), some Exn.undefined⟩
          | some f =>
            match (ExecutablePlan.applySlot bo (draws i) f s).thrown with
            | some e =>
              ⟨({ xp with FormulaArray :=
                    xp.FormulaArray.set i (ExecutablePlan.applySlot bo (draws i) f s).state.1 },
                (ExecutablePlan.applySlot bo (draws i) f s).state.2), some e⟩
            | none =>
              ExecutablePlan.PlanApplyLoop bo draws n (i + 1)
                ({ xp with FormulaArray :=
                    xp.FormulaArray.set i (ExecutablePlan.applySlot bo (draws i) f s).state.1 },
                (ExecutablePlan.applySlot bo (draws i) f s).state.2) := by
      intro n
      rw [ExecutablePlan.PlanApplyLoop]
      try rfl
    rw [hstep (k + 1), hstep k]
    cases hslot : xp.FormulaArray[i]? with
    | none => rfl
    | some f =>
      dsimp only
      cases ht : (ExecutablePlan.applySlot bo (draws i) f s).thrown with
      | some e => rfl
      | none =>
        dsimp only
        rw [ih (i + 1)]
        have e : i + 1 + k = i + (k + 1) := by omega
        rw [e]


/-- The loop writes no slot outside the range of its iterations. -/
theorem PlanApplyLoop_untouched (bo : ByteOrder) (draws : Nat → ℚ) (k : Nat) :
    ∀ (i : Nat) (xp : ExecutablePlan) (s : Stockpile) (j : Nat), (j < i ∨ i + k ≤ j) →
      (ExecutablePlan.PlanApplyLoop bo draws k i (xp, s)).state.1.FormulaArray[j]?
        = xp.FormulaArray[j]? := by
  induction k with
  | zero =>
    intro i xp s j _
    unfold ExecutablePlan.PlanApplyLoop
    rfl
  | succ k ih =>
    intro i xp s j hj
    rw [ExecutablePlan.PlanApplyLoop]
    cases hslot : xp.FormulaArray[i]? with
    | none => rfl
    | some f =>
      dsimp only
      cases ht : (ExecutablePlan.applySlot bo (draws i) f s).thrown with
      | some e =>
        dsimp only
        rw [List.getElem?_set_ne (by omega)]
      | none =>
        dsimp only
        rw [ih (i + 1) _ _ j (by omega)]
        dsimp only
        rw [List.getElem?_set_ne (by omega)]

/-- Once the loop has raised an error, further iterations change nothing. -/
theorem PlanApplyLoop_stays (bo : ByteOrder) (draws : Nat → ℚ) (i : Nat)
    (st : ExecutablePlan × Stockpile) (k : Nat) (e : Exn)
    (h : (ExecutablePlan.PlanApplyLoop bo draws k i st).thrown = some e) :
    ∀ n, ExecutablePlan.PlanApplyLoop bo draws (k + n) i st
      = ExecutablePlan.PlanApplyLoop bo draws k i st := by
  intro n
  induction n with
  | zero => rfl
  | succ n ih =>
    have e1 : k + (n + 1) = (k + n) + 1 := by omega
    rw [e1, PlanApplyLoop_succ, ih, h]
    dsimp only
    rw [← h]

/-- A failing run of the loop stops in its first failing iteration: the iterations
before it raised nothing, and the run is the run up to and including it. -/
theorem PlanApplyLoop_first_failure (bo : ByteOrder) (draws : Nat → ℚ) (i : Nat)
    (st : ExecutablePlan × Stockpile) (n : Nat)
    (h : (ExecutablePlan.PlanApplyLoop bo draws n i st).thrown ≠ none) :
    ∃ j, j < n ∧ (ExecutablePlan.PlanApplyLoop bo draws j i st).thrown = none
      ∧ (ExecutablePlan.PlanApplyLoop bo draws (j + 1) i st).thrown ≠ none
      ∧ ExecutablePlan.PlanApplyLoop bo draws n i st
          = ExecutablePlan.PlanApplyLoop bo draws (j + 1) i st := by
  induction n with
  | zero =>
    exfalso
    apply h
    obtain ⟨xp, s⟩ := st
    unfold ExecutablePlan.PlanApplyLoop
    rfl
  | succ n ih =>
    cases hn : (ExecutablePlan.PlanApplyLoop bo draws n i st).thrown with
    | none => exact ⟨n, by omega, hn, h, rfl⟩
    | some e =>
      obtain ⟨j, hj, h1, h2, h3⟩ := ih (by rw [hn]; exact fun hc => Option.noConfusion hc)
      refine ⟨j, by omega, h1, h2, ?_⟩
      rw [PlanApplyLoop_stays bo draws i st n e hn 1, h3]

/-- A run of the loop that raised nothing: no shorter run raised anything. -/
theorem PlanApplyLoop_shorter_ok (bo : ByteOrder) (draws : Nat → ℚ) (i : Nat)
    (st : ExecutablePlan × Stockpile) (n : Nat)
    (h : (ExecutablePlan.PlanApplyLoop bo draws n i st).thrown = none) :
    ∀ m, m ≤ n → (ExecutablePlan.PlanApplyLoop bo draws m i st).thrown = none := by
  intro m hm
  cases hc : (ExecutablePlan.PlanApplyLoop bo draws m i st).thrown with
  | none => rfl
  | some e =>
    exfalso
    obtain ⟨d, rfl⟩ := Nat.exists_eq_add_of_le hm
    rw [PlanApplyLoop_stays bo draws i st m e hc d, hc] at h
    exact Option.noConfusion h

/-- The sufficiency test of the loop body fails exactly when `insufficientFor` holds. -/
theorem insufficientFor_eq_not_all (s : Stockpile) (f : Formula) (inR : List String)
    (inQ : List Nat) (q1 : f.InputResources = some inR) (q2 : f.InputQuantities = some inQ) :
    insufficientFor s f
      = !((List.zip inR inQ).all fun rq =>
          s.HasResource rq.1 && decide (s.GetResourceQuantity rq.1 ≥ rq.2)) := by
  unfold insufficientFor
  rw [q1, q2]
  dsimp only
  induction List.zip inR inQ with
  | nil => rfl
  | cons p rest ih =>
    simp only [List.any_cons, List.all_cons, ih, Bool.not_and]
    congr 1
    have hd : decide (s.GetResourceQuantity p.1 < p.2)
        = !decide (s.GetResourceQuantity p.1 ≥ p.2) := by
      by_cases hlt : s.GetResourceQuantity p.1 < p.2
      · have hge : ¬ s.GetResourceQuantity p.1 ≥ p.2 := by omega
        simp only [hlt, hge, decide_True, decide_False, Bool.not_false]
      · have hge : s.GetResourceQuantity p.1 ≥ p.2 := by omega
        simp only [hlt, hge, decide_True, decide_False, Bool.not_true]
    rw [hd]

/-- A failing run of `DecreaseQuantity` calls stops at its first failing call: the calls
before it succeeded, the failing call left the ledger as they had made it, and
no call after it was made. -/
theorem decreaseAll_first_failure (l : List (String × Nat)) :
    ∀ s : Stockpile, (decreaseAll l s).thrown ≠ none →
      ∃ done name q rest, l = done ++ (name, q) :: rest
        ∧ (decreaseAll done s).thrown = none
        ∧ (Stockpile.DecreaseQuantity name q (decreaseAll done s).state).thrown
            = (decreaseAll l s).thrown
        ∧ (decreaseAll l s).state = (decreaseAll done s).state := by
  induction l with
  | nil =>
    intro s h
    exact absurd rfl h
  | cons p rest ih =>
    intro s h
    obtain ⟨name, q⟩ := p
    cases ht : (Stockpile.DecreaseQuantity name q s).thrown with
    | some e =>
      refine ⟨[], name, q, rest, rfl, rfl, ?_, ?_⟩
      · simp only [decreaseAll, ht]
      · simp only [decreaseAll, ht]
        exact DecreaseQuantity_failure_state name q s (by rw [ht]; exact fun hc => Option.noConfusion hc)
    | none =>
      have e1 : decreaseAll ((name, q) :: rest) s
          = decreaseAll rest (Stockpile.DecreaseQuantity name q s).state := by
        simp only [decreaseAll, ht]
      rw [e1] at h ⊢
      obtain ⟨done, n2, q2, rest2, h1, h2, h3, h4⟩ := ih _ h
      refine ⟨(name, q) :: done, n2, q2, rest2, by rw [h1]; rfl, ?_, ?_, ?_⟩
      · simp only [decreaseAll, ht]; exact h2
      · simp only [decreaseAll, ht]; exact h3
      · simp only [decreaseAll, ht]; exact h4

/-- A failing run of `IncreaseQuantity` calls stops at its first failing call. -/
theorem increaseAll_first_failure (l : List (String × Nat)) :
    ∀ s : Stockpile, (increaseAll l s).thrown ≠ none →
      ∃ done name q rest, l = done ++ (name, q) :: rest
        ∧ (increaseAll done s).thrown = none
        ∧ (Stockpile.IncreaseQuantity name q (increaseAll done s).state).thrown
            = (increaseAll l s).thrown
        ∧ (increaseAll l s).state = (increaseAll done s).state := by
  induction l with
  | nil =>
    intro s h
    exact absurd rfl h
  | cons p rest ih =>
    intro s h
    obtain ⟨name, q⟩ := p
    cases ht : (Stockpile.IncreaseQuantity name q s).thrown with
    | some e =>
      refine ⟨[], name, q, rest, rfl, rfl, ?_, ?_⟩
      · simp only [increaseAll, ht]
      · simp only [increaseAll, ht]
        exact IncreaseQuantity_failure_state name q s (by rw [ht]; exact fun hc => Option.noConfusion hc)
    | none =>
      have e1 : increaseAll ((name, q) :: rest) s
          = increaseAll rest (Stockpile.IncreaseQuantity name q s).state := by
        simp only [increaseAll, ht]
      rw [e1] at h ⊢
      obtain ⟨done, n2, q2, rest2, h1, h2, h3, h4⟩ := ih _ h
      refine ⟨(name, q) :: done, n2, q2, rest2, by rw [h1]; rfl, ?_, ?_, ?_⟩
      · simp only [increaseAll, ht]; exact h2
      · simp only [increaseAll, ht]; exact h3
      · simp only [increaseAll, ht]; exact h4

/-- The loop body on an initialised, paired Formula raises nothing exactly when the
slot is skipped as insufficient or every ledger call made for it succeeds. -/
theorem applySlot_ok_iff (bo : ByteOrder) (r : ℚ) (f : Formula) (s : Stockpile)
    (inR : List String) (inQ : List Nat) (outR : List String) (outQ : List Nat)
    (hf : f.Initialised) (hp : f.Paired)
    (q1 : f.InputResources = some inR) (q2 : f.InputQuantities = some inQ)
    (q3 : f.OutputResources = some outR) (q4 : f.OutputQuantities = some outQ) :
    (ExecutablePlan.applySlot bo r f s).thrown = none
      ↔ (insufficientFor s f = true
          ∨ ((decreaseAll (List.zip inR inQ) s).thrown = none
              ∧ (increaseAll (List.zip outR outQ)
                    (decreaseAll (List.zip inR inQ) s).state).thrown = none)) := by
  rw [applySlot_of_Initialised bo r f s inR inQ outR outQ hf hp q1 q2 q3 q4,
    insufficientFor_eq_not_all s f inR inQ q1 q2]
  by_cases hall : ((List.zip inR inQ).all fun rq =>
      s.HasResource rq.1 && decide (s.GetResourceQuantity rq.1 ≥ rq.2)) = true
  · rw [if_pos hall, hall]
    cases hd : (decreaseAll (List.zip inR inQ) s).thrown with
    | some e => simp
    | none => simp
  · rw [if_neg hall]
    simp only [Bool.not_eq_true] at hall
    rw [hall]
    simp

/-- The iteration on slot `j` of a run whose first `j` iterations raised nothing: the
loop body runs on the Formula the plan held in slot `j` at the start and on the
ledger those iterations left. -/
theorem PlanApplyLoop_step_at (bo : ByteOrder) (draws : Nat → ℚ) (xp : ExecutablePlan)
    (s : Stockpile) (j : Nat) (f : Formula) (hslot : xp.FormulaArray[j]? = some f)
    (hok : (ExecutablePlan.PlanApplyLoop bo draws j 0 (xp, s)).thrown = none) :
    ExecutablePlan.PlanApplyLoop bo draws (j + 1) 0 (xp, s)
      = ⟨({ (ExecutablePlan.PlanApplyLoop bo draws j 0 (xp, s)).state.1 with
              FormulaArray :=
                (ExecutablePlan.PlanApplyLoop bo draws j 0 (xp, s)).state.1.FormulaArray.set j
                  (ExecutablePlan.applySlot bo (draws j) f
                    (ExecutablePlan.PlanApplyLoop bo draws j 0 (xp, s)).state.2).state.1 },
          (ExecutablePlan.applySlot bo (draws j) f
            (ExecutablePlan.PlanApplyLoop bo draws j 0 (xp, s)).state.2).state.2),
         (ExecutablePlan.applySlot bo (draws j) f
            (ExecutablePlan.PlanApplyLoop bo draws j 0 (xp, s)).state.2).thrown⟩ := by
  have hun := PlanApplyLoop_untouched bo draws j 0 xp s j (Or.inr (by omega))
  rw [hslot] at hun
  rw [PlanApplyLoop_succ, hok]
  dsimp only
  rw [Nat.zero_add]
  generalize ExecutablePlan.PlanApplyLoop bo draws j 0 (xp, s) = R at hun ⊢
  obtain ⟨⟨xq, t⟩, e⟩ := R
  exact PlanApplyLoop_one bo draws j xq t f hun

/-- C23 (amended): for every byte order, draws and plan whose cells in use hold
initialised, paired Formulas.  The ledger-gated apply raises `invalid_argument`
exactly when the ledger handle is absent, and then leaves the plan as it was.
With a present ledger it hands a ledger back, and it returns without error
exactly when every slot, on the ledger as the slots before it left it, is
either skipped as insufficient or has every `DecreaseQuantity` call and then every
`IncreaseQuantity` call made for it succeed. -/
theorem PlanApplyStockpile_failures_C23 (bo : ByteOrder) (draws : Nat → ℚ)
    (xp : ExecutablePlan) (StockpilePtr : Option Stockpile)
    (hwf : ∀ j, j < xp.Size →
      ∃ f, xp.FormulaArray[j]? = some f ∧ f.Initialised ∧ f.Paired) :
    ((xp.PlanApplyStockpile bo draws StockpilePtr).thrown = some Exn.invalid_argument
        ↔ StockpilePtr = none)
      ∧ (StockpilePtr = none → (xp.PlanApplyStockpile bo draws StockpilePtr).state = (xp, none))
      ∧ (∀ s, StockpilePtr = some s →
          (∃ t, (xp.PlanApplyStockpile bo draws StockpilePtr).state.2 = some t)
            ∧ ((xp.PlanApplyStockpile bo draws StockpilePtr).thrown = none
                ↔ ∀ (j : Nat) (f : Formula) (inR : List String) (inQ : List Nat)
                    (outR : List String) (outQ : List Nat),
                    j < xp.Size → xp.FormulaArray[j]? = some f →
                    f.InputResources = some inR → f.InputQuantities = some inQ →
                    f.OutputResources = some outR → f.OutputQuantities = some outQ →
                    insufficientFor
                        (ExecutablePlan.PlanApplyLoop bo draws j 0 (xp, s)).state.2 f = true
                      ∨ ((decreaseAll (List.zip inR inQ)
                            (ExecutablePlan.PlanApplyLoop bo draws j 0 (xp, s)).state.2).thrown
                          = none
                        ∧ (increaseAll (List.zip outR outQ)
                            (decreaseAll (List.zip inR inQ)
                              (ExecutablePlan.PlanApplyLoop bo draws j 0
                                (xp, s)).state.2).state).thrown = none))) := by
  cases StockpilePtr with
  | none =>
    refine ⟨⟨fun _ => rfl, fun _ => rfl⟩, fun _ => rfl, ?_⟩
    intro s h
    exact Option.noConfusion h
  | some s =>
    have hthrown := PlanApplyLoop_thrown bo draws xp.Size 0 xp s (by
      intro j f _ hj hslot
      obtain ⟨g, hg, hgi, _⟩ := hwf j (by omega)
      rw [hslot] at hg
      cases hg
      exact hgi)
    have hcall : xp.PlanApplyStockpile bo draws (some s)
        = ⟨((ExecutablePlan.PlanApplyLoop bo draws xp.Size 0 (xp, s)).state.1,
            some (ExecutablePlan.PlanApplyLoop bo draws xp.Size 0 (xp, s)).state.2),
           (ExecutablePlan.PlanApplyLoop bo draws xp.Size 0 (xp, s)).thrown⟩ := rfl
    rw [hcall]
    refine ⟨⟨?_, fun h => Option.noConfusion h⟩, fun h => Option.noConfusion h, ?_⟩
    · intro h
      dsimp only at h
      rcases hthrown with h1 | h1 | h1 <;> rw [h1] at h <;> cases h
    · intro t ht
      cases ht
      refine ⟨⟨_, rfl⟩, ?_⟩
      dsimp only
      constructor
      · intro hok j f inR inQ outR outQ hj hslot q1 q2 q3 q4
        obtain ⟨g, hg, hgi, hgp⟩ := hwf j hj
        rw [hslot] at hg
        cases hg
        have hokj := PlanApplyLoop_shorter_ok bo draws 0 (xp, s) xp.Size hok j (by omega)
        have hokj1 := PlanApplyLoop_shorter_ok bo draws 0 (xp, s) xp.Size hok (j + 1) (by omega)
        rw [PlanApplyLoop_step_at bo draws xp s j f hslot hokj] at hokj1
        exact (applySlot_ok_iff bo (draws j) f _ inR inQ outR outQ hgi hgp q1 q2 q3 q4).1 hokj1
      · intro hall
        by_contra hne
        obtain ⟨j, hj, h1, h2, _⟩ := PlanApplyLoop_first_failure bo draws 0 (xp, s) xp.Size hne
        obtain ⟨f, hslot, hfi, hfp⟩ := hwf j hj
        obtain ⟨inR, inQ, outR, outQ, q1, q2, q3, q4, _⟩ :=
          loader_of_Sized_Paired f (Sized_of_Initialised f hfi) hfp
        rw [PlanApplyLoop_step_at bo draws xp s j f hslot h1] at h2
        exact h2 ((applySlot_ok_iff bo (draws j) f _ inR inQ outR outQ hfi hfp q1 q2 q3 q4).2
          (hall j f inR inQ outR outQ hj hslot q1 q2 q3 q4))

/-- The one cell in use of `planABC` holds an initialised, paired Formula. -/
theorem planABC_slots :
    ∀ j, j < planABC.Size →
      ∃ f, planABC.FormulaArray[j]? = some f ∧ f.Initialised ∧ f.Paired := by
  intro j hj
  have hj0 : j = 0 := by
    have : j < 1 := hj
    omega
  subst hj0
  exact ⟨formulaABC, rfl, by decide, by decide⟩

/-- The ledger-gated apply of `planABC` on the ledger `{A:1, B:2, C:10}`: the call is left by
the `runtime_error` of `IncreaseQuantity ("C", 3)`, with the Formula of slot 0 applied
and the ledger as it was. -/
theorem planABC_on_ledgerABC10 :
    (planABC.PlanApplyStockpile ByteOrder.little constDraws (some ledgerABC10)).thrown
        = some Exn.runtime_error
      ∧ (planABC.PlanApplyStockpile ByteOrder.little constDraws (some ledgerABC10)).state.1
          = { planABC with
              FormulaArray := [(Formula.Apply ByteOrder.little (constDraws 0) formulaABC).state] }
      ∧ (planABC.PlanApplyStockpile ByteOrder.little constDraws (some ledgerABC10)).state.2
          = some ledgerABC10 := by
  have hslot := applySlot_of_Initialised ByteOrder.little (constDraws 0) formulaABC ledgerABC10
    ["A", "B"] [1, 2] ["C"] [3] (by decide) (by decide) rfl rfl rfl rfl
  rw [PlanApplyStockpile_single ByteOrder.little constDraws planABC formulaABC ledgerABC10
    rfl rfl, hslot]
  exact ⟨rfl, rfl, rfl⟩

/-- With the draw `0.95` at level 0, `Apply` writes the output quantity 3 of `formulaABC` to
its result array. -/
theorem Apply_formulaABC_normal :
    (Formula.Apply ByteOrder.little (constDraws 0) formulaABC).state.ResultArray = some [3] := by
  rw [Apply_eq_of_Initialised ByteOrder.little (constDraws 0) formulaABC [3] 0 [] (by decide)
    rfl rfl]
  have h : constDraws 0 > (Formula.GetOutcomeChances formulaABC.ProficiencyLevel).Failure
      + (Formula.GetOutcomeChances formulaABC.ProficiencyLevel).Bonus
      + (Formula.GetOutcomeChances formulaABC.ProficiencyLevel).Partial ∧ constDraws 0 < 1 := by
    constructor <;> norm_num [Formula.GetOutcomeChances, formulaABC, constDraws]
  simp only [if_pos h]

/-- Witness of C23 (amended): on `planABC` the call with an absent handle raises
`invalid_argument`, the call with the present ledger `{A:1, B:2, C:0}` does not, and the
call with the present ledger `{A:1, B:2, C:10}` returns without error exactly when
the ledger calls of its slot succeed. -/
theorem PlanApplyStockpile_failures_C23_witness :
    (planABC.PlanApplyStockpile ByteOrder.little constDraws none).thrown
        = some Exn.invalid_argument
      ∧ (planABC.PlanApplyStockpile ByteOrder.little constDraws (some ledgerABC0)).thrown
        ≠ some Exn.invalid_argument
      ∧ ((planABC.PlanApplyStockpile ByteOrder.little constDraws (some ledgerABC10)).thrown = none
          ↔ ∀ (j : Nat) (f : Formula) (inR : List String) (inQ : List Nat)
              (outR : List String) (outQ : List Nat),
              j < planABC.Size → planABC.FormulaArray[j]? = some f →
              f.InputResources = some inR → f.InputQuantities = some inQ →
              f.OutputResources = some outR → f.OutputQuantities = some outQ →
              insufficientFor
                  (ExecutablePlan.PlanApplyLoop ByteOrder.little constDraws j 0
                    (planABC, ledgerABC10)).state.2 f = true
                ∨ ((decreaseAll (List.zip inR inQ)
                      (ExecutablePlan.PlanApplyLoop ByteOrder.little constDraws j 0
                        (planABC, ledgerABC10)).state.2).thrown = none
                  ∧ (increaseAll (List.zip outR outQ)
                      (decreaseAll (List.zip inR inQ)
                        (ExecutablePlan.PlanApplyLoop ByteOrder.little constDraws j 0
                          (planABC, ledgerABC10)).state.2).state).thrown = none)) :=
  ⟨(PlanApplyStockpile_failures_C23 ByteOrder.little constDraws planABC none
      planABC_slots).1.2 rfl,
    fun h =>
      Option.noConfusion
        ((PlanApplyStockpile_failures_C23 ByteOrder.little constDraws planABC
          (some ledgerABC0) planABC_slots).1.1 h),
    ((PlanApplyStockpile_failures_C23 ByteOrder.little constDraws planABC
      (some ledgerABC10) planABC_slots).2.2 ledgerABC10 rfl).2⟩

/-- C36 (counterexample): the one-slot plan `planABC` on the ledger `{A:1, B:2, C:10}`.
The ledger-gated apply fails with the `runtime_error` of `IncreaseQuantity ("C", 3)`,
an increase below the current value, and the Formula of the slot has been
applied all the same: its result vector is `[3]`, it was `[0]`. -/
theorem PlanApplyStockpile_failure_not_atomic_C36 :
    (planABC.PlanApplyStockpile ByteOrder.little constDraws (some ledgerABC10)).thrown
        = some Exn.runtime_error
      ∧ (planABC.PlanApplyStockpile ByteOrder.little constDraws
          (some ledgerABC10)).state.1.FormulaArray.map Formula.ResultArray = [some [3]]
      ∧ planABC.FormulaArray.map Formula.ResultArray = [some [0]] := by
  obtain ⟨h1, h2, _⟩ := planABC_on_ledgerABC10
  refine ⟨h1, ?_, rfl⟩
  rw [h2]
  simp only [List.map_cons, List.map_nil, Apply_formulaABC_normal]

/-- C36 (amended): for every byte order, draws, ledger and plan whose cells in use hold
initialised, paired Formulas, when the ledger-gated apply fails there is a slot
`j`, the slot of the violation, such that: the slots before `j` raised nothing;
slot `j` was sufficient on the ledger they left; its Formula has been applied,
the slot holds the result of `Apply`, and every other slot is as the slots before
`j` left it, the slots after `j` as at the start of the call; and the failure is
that of one `DecreaseQuantity` or `IncreaseQuantity` call of slot `j`, before which
the earlier ledger calls of the slot succeeded, which raised the error that
leaves the call, and after which no further ledger call was made: the ledger
handed back is the ledger as the calls before the failing one left it. -/
theorem PlanApplyStockpile_failure_effects_C36 (bo : ByteOrder) (draws : Nat → ℚ)
    (xp : ExecutablePlan) (s : Stockpile)
    (hwf : ∀ j, j < xp.Size →
      ∃ f, xp.FormulaArray[j]? = some f ∧ f.Initialised ∧ f.Paired)
    (hfail : (xp.PlanApplyStockpile bo draws (some s)).thrown ≠ none) :
    ∃ (j : Nat) (f : Formula) (inR : List String) (inQ : List Nat) (outR : List String)
        (outQ : List Nat),
      j < xp.Size ∧ xp.FormulaArray[j]? = some f
        ∧ f.InputResources = some inR ∧ f.InputQuantities = some inQ
        ∧ f.OutputResources = some outR ∧ f.OutputQuantities = some outQ
        ∧ (ExecutablePlan.PlanApplyLoop bo draws j 0 (xp, s)).thrown = none
        ∧ insufficientFor (ExecutablePlan.PlanApplyLoop bo draws j 0 (xp, s)).state.2 f = false
        ∧ (xp.PlanApplyStockpile bo draws (some s)).state.1.FormulaArray
            = (ExecutablePlan.PlanApplyLoop bo draws j 0 (xp, s)).state.1.FormulaArray.set j
                (Formula.Apply bo (draws j) f).state
        ∧ (∀ i, j < i →
            (xp.PlanApplyStockpile bo draws (some s)).state.1.FormulaArray[i]?
              = xp.FormulaArray[i]?)
        ∧ ((∃ done name q rest, List.zip inR inQ = done ++ (name, q) :: rest
              ∧ (decreaseAll done
                  (ExecutablePlan.PlanApplyLoop bo draws j 0 (xp, s)).state.2).thrown = none
              ∧ (Stockpile.DecreaseQuantity name q
                  (decreaseAll done
                    (ExecutablePlan.PlanApplyLoop bo draws j 0 (xp, s)).state.2).state).thrown
                  = (xp.PlanApplyStockpile bo draws (some s)).thrown
              ∧ (xp.PlanApplyStockpile bo draws (some s)).state.2
                  = some (decreaseAll done
                      (ExecutablePlan.PlanApplyLoop bo draws j 0 (xp, s)).state.2).state)
          ∨ ((decreaseAll (List.zip inR inQ)
                (ExecutablePlan.PlanApplyLoop bo draws j 0 (xp, s)).state.2).thrown = none
              ∧ ∃ done name q rest, List.zip outR outQ = done ++ (name, q) :: rest
                ∧ (increaseAll done
                    (decreaseAll (List.zip inR inQ)
                      (ExecutablePlan.PlanApplyLoop bo draws j 0 (xp, s)).state.2).state).thrown
                    = none
                ∧ (Stockpile.IncreaseQuantity name q
                    (increaseAll done
                      (decreaseAll (List.zip inR inQ)
                        (ExecutablePlan.PlanApplyLoop bo draws j 0
                          (xp, s)).state.2).state).state).thrown
                    = (xp.PlanApplyStockpile bo draws (some s)).thrown
                ∧ (xp.PlanApplyStockpile bo draws (some s)).state.2
                    = some (increaseAll done
                        (decreaseAll (List.zip inR inQ)
                          (ExecutablePlan.PlanApplyLoop bo draws j 0
                            (xp, s)).state.2).state).state)) := by
  have hcall : xp.PlanApplyStockpile bo draws (some s)
      = ⟨((ExecutablePlan.PlanApplyLoop bo draws xp.Size 0 (xp, s)).state.1,
          some (ExecutablePlan.PlanApplyLoop bo draws xp.Size 0 (xp, s)).state.2),
         (ExecutablePlan.PlanApplyLoop bo draws xp.Size 0 (xp, s)).thrown⟩ := rfl
  rw [hcall] at hfail ⊢
  dsimp only at hfail ⊢
  obtain ⟨j, hj, h1, h2, h3⟩ := PlanApplyLoop_first_failure bo draws 0 (xp, s) xp.Size hfail
  obtain ⟨f, hslot, hfi, hfp⟩ := hwf j hj
  obtain ⟨inR, inQ, outR, outQ, q1, q2, q3, q4, _⟩ :=
    loader_of_Sized_Paired f (Sized_of_Initialised f hfi) hfp
  rw [h3]
  rw [PlanApplyLoop_step_at bo draws xp s j f hslot h1] at h2 ⊢
  dsimp only at h2 ⊢
  have hun : ∀ i, j < i →
      (ExecutablePlan.PlanApplyLoop bo draws j 0 (xp, s)).state.1.FormulaArray[i]?
        = xp.FormulaArray[i]? :=
    fun i hi => PlanApplyLoop_untouched bo draws j 0 xp s i (Or.inr (by omega))
  refine ⟨j, f, inR, inQ, outR, outQ, hj, hslot, q1, q2, q3, q4, h1, ?_⟩
  generalize ExecutablePlan.PlanApplyLoop bo draws j 0 (xp, s) = R at h1 h2 hun ⊢
  have happ := applySlot_failure_applied bo (draws j) f R.state.2 hfi hfp h2
  have hins := insufficientFor_eq_not_all R.state.2 f inR inQ q1 q2
  have hform := applySlot_of_Initialised bo (draws j) f R.state.2 inR inQ outR outQ hfi hfp
    q1 q2 q3 q4
  refine ⟨?_, ?_, ?_, ?_⟩
  · by_cases hall : ((List.zip inR inQ).all fun rq =>
        R.state.2.HasResource rq.1 && decide (R.state.2.GetResourceQuantity rq.1 ≥ rq.2)) = true
    · rw [hins, hall]
      rfl
    · exfalso
      rw [hform, if_neg hall] at h2
      exact h2 rfl
  · rw [happ]
  · intro i hi
    rw [List.getElem?_set_ne (by omega)]
    exact hun i hi
  · by_cases hall : ((List.zip inR inQ).all fun rq =>
        R.state.2.HasResource rq.1 && decide (R.state.2.GetResourceQuantity rq.1 ≥ rq.2)) = true
    · rw [hform, if_pos hall] at h2 ⊢
      cases hd : (decreaseAll (List.zip inR inQ) R.state.2).thrown with
      | some e =>
        left
        dsimp only
        obtain ⟨done, name, q, rest, e1, e2, e3, e4⟩ :=
          decreaseAll_first_failure (List.zip inR inQ) R.state.2
            (by rw [hd]; exact fun hc => Option.noConfusion hc)
        exact ⟨done, name, q, rest, e1, e2, by rw [e3, hd], by rw [e4]⟩
      | none =>
        right
        rw [hd] at h2
        dsimp only at h2 ⊢
        obtain ⟨done, name, q, rest, e1, e2, e3, e4⟩ :=
          increaseAll_first_failure (List.zip outR outQ)
            (decreaseAll (List.zip inR inQ) R.state.2).state h2
        exact ⟨rfl, done, name, q, rest, e1, e2, e3, by rw [e4]⟩
    · exfalso
      rw [hform, if_neg hall] at h2
      exact h2 rfl


/-- A run of `DecreaseQuantity` calls on the ledger `{A:5, B:3}`: the second call, a decrease
of `A` to 5 above the 1 the first call left, fails, the ledger is as the first
call left it, and the third call, which would set `B` to 0, is not made. -/
theorem decreaseAll_stops_at_failure :
    decreaseAll [("A", 1), ("A", 5), ("B", 0)] ⟨[("A", 5), ("B", 3)]⟩
      = ⟨⟨[("A", 1), ("B", 3)]⟩, some Exn.runtime_error⟩ := by
  rfl

/-- The loop body for `formulaABC` on the ledger `{A:1, B:2, C:10}` is left by the
`runtime_error` of `IncreaseQuantity ("C", 3)`. -/
theorem applySlot_ABC10 :
    (ExecutablePlan.applySlot ByteOrder.little (constDraws 0) formulaABC ledgerABC10).thrown
      = some Exn.runtime_error := by
  rw [applySlot_of_Initialised ByteOrder.little (constDraws 0) formulaABC ledgerABC10
    ["A", "B"] [1, 2] ["C"] [3] (by decide) (by decide) rfl rfl rfl rfl]
  rfl

/-- The two cells in use of `planABC2` hold initialised, paired Formulas. -/
theorem planABC2_slots :
    ∀ j, j < planABC2.Size →
      ∃ f, planABC2.FormulaArray[j]? = some f ∧ f.Initialised ∧ f.Paired := by
  intro j hj
  have hj2 : j < 2 := hj
  interval_cases j
  · exact ⟨formulaABC, rfl, by decide, by decide⟩
  · exact ⟨formulaABC, rfl, by decide, by decide⟩

/-- The ledger-gated apply of `planABC2` on the ledger `{A:1, B:2, C:10}` fails in slot 0. -/
theorem planABC2_on_ledgerABC10 :
    (planABC2.PlanApplyStockpile ByteOrder.little constDraws (some ledgerABC10)).thrown
      = some Exn.runtime_error := by
  have h1 : (ExecutablePlan.PlanApplyLoop ByteOrder.little constDraws 1 0
      (planABC2, ledgerABC10)).thrown = some Exn.runtime_error := by
    rw [PlanApplyLoop_one ByteOrder.little constDraws 0 planABC2 ledgerABC10 formulaABC rfl]
    exact applySlot_ABC10
  have h2 := PlanApplyLoop_stays ByteOrder.little constDraws 0 (planABC2, ledgerABC10) 1
    Exn.runtime_error h1 1
  have hcall : (planABC2.PlanApplyStockpile ByteOrder.little constDraws
      (some ledgerABC10)).thrown
      = (ExecutablePlan.PlanApplyLoop ByteOrder.little constDraws (1 + 1) 0
          (planABC2, ledgerABC10)).thrown := rfl
  rw [hcall, h2, h1]

/-- Witness of C36 (amended): on the two-slot plan `planABC2` and the ledger
`{A:1, B:2, C:10}` the call fails in slot 0; the slot of the violation exists with the
properties stated, slot 1 being a slot after it. -/
theorem PlanApplyStockpile_failure_effects_C36_witness :
    ∃ (j : Nat) (f : Formula) (inR : List String) (inQ : List Nat) (outR : List String)
        (outQ : List Nat),
      j < planABC2.Size ∧ planABC2.FormulaArray[j]? = some f
        ∧ f.InputResources = some inR ∧ f.InputQuantities = some inQ
        ∧ f.OutputResources = some outR ∧ f.OutputQuantities = some outQ
        ∧ (ExecutablePlan.PlanApplyLoop ByteOrder.little constDraws j 0
            (planABC2, ledgerABC10)).thrown = none
        ∧ insufficientFor (ExecutablePlan.PlanApplyLoop ByteOrder.little constDraws j 0
            (planABC2, ledgerABC10)).state.2 f = false
        ∧ (planABC2.PlanApplyStockpile ByteOrder.little constDraws
            (some ledgerABC10)).state.1.FormulaArray
            = (ExecutablePlan.PlanApplyLoop ByteOrder.little constDraws j 0
                (planABC2, ledgerABC10)).state.1.FormulaArray.set j
                (Formula.Apply ByteOrder.little (constDraws j) f).state
        ∧ (∀ i, j < i →
            (planABC2.PlanApplyStockpile ByteOrder.little constDraws
              (some ledgerABC10)).state.1.FormulaArray[i]? = planABC2.FormulaArray[i]?)
        ∧ ((∃ done name q rest, List.zip inR inQ = done ++ (name, q) :: rest
              ∧ (decreaseAll done
                  (ExecutablePlan.PlanApplyLoop ByteOrder.little constDraws j 0
                    (planABC2, ledgerABC10)).state.2).thrown = none
              ∧ (Stockpile.DecreaseQuantity name q
                  (decreaseAll done
                    (ExecutablePlan.PlanApplyLoop ByteOrder.little constDraws j 0
                      (planABC2, ledgerABC10)).state.2).state).thrown
                  = (planABC2.PlanApplyStockpile ByteOrder.little constDraws
                      (some ledgerABC10)).thrown
              ∧ (planABC2.PlanApplyStockpile ByteOrder.little constDraws
                  (some ledgerABC10)).state.2
                  = some (decreaseAll done
                      (ExecutablePlan.PlanApplyLoop ByteOrder.little constDraws j 0
                        (planABC2, ledgerABC10)).state.2).state)
          ∨ ((decreaseAll (List.zip inR inQ)
                (ExecutablePlan.PlanApplyLoop ByteOrder.little constDraws j 0
                  (planABC2, ledgerABC10)).state.2).thrown = none
              ∧ ∃ done name q rest, List.zip outR outQ = done ++ (name, q) :: rest
                ∧ (increaseAll done
                    (decreaseAll (List.zip inR inQ)
                      (ExecutablePlan.PlanApplyLoop ByteOrder.little constDraws j 0
                        (planABC2, ledgerABC10)).state.2).state).thrown = none
                ∧ (Stockpile.IncreaseQuantity name q
                    (increaseAll done
                      (decreaseAll (List.zip inR inQ)
                        (ExecutablePlan.PlanApplyLoop ByteOrder.little constDraws j 0
                          (planABC2, ledgerABC10)).state.2).state).state).thrown
                    = (planABC2.PlanApplyStockpile ByteOrder.little constDraws
                        (some ledgerABC10)).thrown
                ∧ (planABC2.PlanApplyStockpile ByteOrder.little constDraws
                    (some ledgerABC10)).state.2
                    = some (increaseAll done
                        (decreaseAll (List.zip inR inQ)
                          (ExecutablePlan.PlanApplyLoop ByteOrder.little constDraws j 0
                            (planABC2, ledgerABC10)).state.2).state).state)) :=
  PlanApplyStockpile_failure_effects_C36 ByteOrder.little constDraws planABC2 ledgerABC10
    planABC2_slots (by
      rw [planABC2_on_ledgerABC10]
      exact fun h => Option.noConfusion h)

end ResourceConversion
